import Mathlib

/-!
Verification development for the `django_quick_loader_dumper` repository.

The definitions below are a shallow embedding of
`src/management/commands/quick_load.py`: each definition mirrors one Python
function or code region of that file (names are kept where Lean allows).
Machinery the loader consumes from its storage/serialization framework and
that is not part of the repository (Django's `bulk_create`,
`DeserializedObject.save_deferred_fields`, sequence `nextval`) is modelled
from the specification; those definitions say so in their doc comments.
All field values are modelled as integers, primary keys as naturals, and
reference values denote their target row by primary key (the fixture format
allows references by natural or primary key; the primary-key form is used).
-/

/-! ## Association-list helpers (Python dict / attribute assignment) -/

/-- `setAssoc l k v` models a Python dict/attribute assignment `l[k] = v`:
replace the binding of `k` when present (keeping its position), append
otherwise. -/
def setAssoc {α β : Type} [BEq α] : List (α × β) → α → β → List (α × β)
  | [], k, v => [(k, v)]
  | (a, b) :: t, k, v => if a == k then (k, v) :: t else (a, b) :: setAssoc t k v

/-- `getv vals f` models `getattr(obj, f)` on a record's field mapping. -/
def getv (vals : List (String × Int)) (f : String) : Int :=
  (vals.lookup f).getD 0

/-! ## Data model -/

/-- The slice of a Django model field the loader consults
(`field.attname`, `field.null`, `isinstance(field.remote_field, ManyToOneRel)`). -/
structure FieldInfo where
  attname : String
  null : Bool
  isManyToOneRel : Bool
deriving DecidableEq, Repr

/-- A deferred (forward) reference: the value of a deferred field, denoting a
row of `targetKind` by its primary key. -/
structure Ref where
  targetKind : String
  targetPk : Nat
deriving DecidableEq, Repr

/-- One deserialized fixture record (Django's `DeserializedObject` as the
loader uses it): entity kind (the model class), optional explicit primary
key, the immediately-set field values of `item.object`, the deferred-field
mapping, and the many-to-many data. -/
structure DeserializedObject where
  kind : String
  pk : Option Nat
  objVals : List (String × Int)
  deferred_fields : List (FieldInfo × Ref)
  m2m_data : List (String × List Nat)
deriving DecidableEq, Repr

/-- A stored row: primary key and column values. -/
structure Row where
  pk : Nat
  vals : List (String × Int)
deriving DecidableEq, Repr

/-- A PostgreSQL sequence: `last_value` and `is_called`
(`SELECT * FROM seq` reads `last_value`; `nextval` returns `last_value`
when `is_called` is false, else `last_value + 1`). -/
structure PgSeq where
  last_value : Nat
  is_called : Bool
deriving DecidableEq, Repr

/-- The value the next `nextval` call will return. -/
def PgSeq.upcoming (s : PgSeq) : Nat :=
  if s.is_called then s.last_value + 1 else s.last_value

/-- Modelled from the spec: drawing a key from a sequence through the normal
path (PostgreSQL `nextval`). -/
def PgSeq.nextval (s : PgSeq) : Nat × PgSeq :=
  if s.is_called then (s.last_value + 1, ⟨s.last_value + 1, true⟩)
  else (s.last_value, ⟨s.last_value, true⟩)

/-- The relational store: tables (name, which coincides with the entity
kind, to rows), sequences, and many-to-many association sets keyed by
(kind, owning row pk, accessor name). -/
structure Store where
  tables : List (String × List Row)
  seqs : List (String × PgSeq)
  m2m : List ((String × Nat × String) × List Nat)
deriving DecidableEq, Repr

def Store.table (st : Store) (k : String) : List Row :=
  (st.tables.lookup k).getD []

def Store.setTable (st : Store) (k : String) (rows : List Row) : Store :=
  { st with tables := setAssoc st.tables k rows }

def Store.seq (st : Store) (name : String) : PgSeq :=
  (st.seqs.lookup name).getD ⟨1, false⟩

def Store.setSeq (st : Store) (name : String) (s : PgSeq) : Store :=
  { st with seqs := setAssoc st.seqs name s }

def Store.setM2M (st : Store) (kind : String) (pk : Nat) (accessor : String)
    (targets : List Nat) : Store :=
  { st with m2m := setAssoc st.m2m (kind, pk, accessor) targets }

/-- Why a database operation failed.  Python code dispatches on the exception
class only; the cause distinguishes, inside an `IntegrityError`, the
missing-target (self-reference) case from a duplicate-row collision. -/
inductive Cause
  | missingTarget
  | duplicateRow
deriving DecidableEq, Repr

/-- Database-layer errors as the loader can observe them. -/
inductive DbErr
  | integrityError (cause : Cause)
  | doesNotExist
  | multipleObjectsReturned
  | storeError
deriving DecidableEq, Repr

/-- `except IntegrityError` catches exactly these. -/
def DbErr.isIntegrityError : DbErr → Bool
  | .integrityError _ => true
  | _ => false

/-- The slice of `cls._meta` the loader consults: the unique-together field
names (empty when the model declares none) and the declared fields with
their `unique` flag, in declaration order. -/
structure ModelMeta where
  unique_together : List String
  fields : List (String × Bool)
deriving DecidableEq, Repr

/-- The filter-field computation shared by `set_m2m` (lines 77-86) and the
second pass (lines 252-261): the unique-together fields if any, else the
first unique field other than `id`. -/
def fieldsToFilter (meta : ModelMeta) : List String :=
  if meta.unique_together.isEmpty then
    match meta.fields.find? (fun f => f.2 && f.1 != "id") with
    | some f => [f.1]
    | none => []
  else meta.unique_together

/-- Does a row satisfy a field-value filter (`**fields_to_filter`)? -/
def matchesFilter (filt : List (String × Int)) (r : Row) : Bool :=
  filt.all (fun fv => getv r.vals fv.1 == fv.2)

/-- The filter a record is re-located by: its kind's filter fields paired
with the record's own values (`fields_to_filter[f] = getattr(obj.object, f)`). -/
def recKey (metas : String → ModelMeta) (o : DeserializedObject) :
    List (String × Int) :=
  (fieldsToFilter (metas o.kind)).map (fun f => (f, getv o.objVals f))

/-- Modelled from the spec: `cls.objects.get(**fields_to_filter)` — exactly
one matching row, else `DoesNotExist` / `MultipleObjectsReturned`. -/
def objectsGet (rows : List Row) (filt : List (String × Int)) :
    Except DbErr Row :=
  match rows.filter (matchesFilter filt) with
  | [r] => .ok r
  | [] => .error .doesNotExist
  | _ => .error .multipleObjectsReturned

/-- Modelled from the spec: an ordinary (non-loader) insert of one row,
drawing its key from the kind's sequence through the normal path. -/
def ordinaryInsert (st : Store) (kind : String) (vals : List (String × Int)) :
    Store × Nat :=
  let seqName := kind ++ "_id_seq"
  let p := (st.seq seqName).nextval
  (((st.setSeq seqName p.2).setTable kind (st.table kind ++ [⟨p.1, vals⟩])), p.1)

/-! ## FixtureLocator (lines 110-132, 185-203) -/

/-- Python `os.path.splitext(s)[0]` for a separator-free name: cut at the
last dot, unless every character before that dot is itself a dot. -/
def splitextRoot (s : String) : String :=
  let cs := s.data
  let r := cs.reverse.indexOf '.'
  if r < cs.length then
    let i := cs.length - 1 - r
    if (cs.take i).any (fun c => c ≠ '.') then String.mk (cs.take i) else s
  else s

/-- The cached directory walk `_cache_walk_directories`, as (root, files)
entries (the `dirs` component is never read by the lookup). -/
abbrev WalkCache := List (String × List String)

/-- `_get_abs_path_of` (lines 122-132): strip the extension from the wanted
name, scan the cached walk for the first file whose extension-stripped base
name equals it, and return `os.path.join(root, file)`; raise (here: return
`.error` carrying the stripped name) when no entry matches. -/
def get_abs_path_of (cache : WalkCache) (fname0 : String) : Except String String :=
  let fname := splitextRoot fname0
  match cache.findSome? (fun e =>
      (e.2.find? (fun f => splitextRoot f == fname)).map
        (fun f => e.1 ++ "/" ++ f)) with
  | some p => .ok p
  | none => .error fname

/-- Python `s.endswith(suffix)`. -/
def pyEndsWith (s suffix : String) : Bool :=
  suffix.data.isSuffixOf s.data

/-- The part of a character list before the first occurrence of `sep`. -/
def takeUntilSub (sep : List Char) : List Char → List Char
  | [] => []
  | c :: rest =>
    if sep.isPrefixOf (c :: rest) then [] else c :: takeUntilSub sep rest

/-- Python `s.split(sep)[0]`: the part of `s` before the first occurrence
of the (non-empty) separator, or all of `s` when it never occurs. -/
def pySplitHead (s sep : String) : String :=
  String.mk (takeUntilSub sep.data s.data)

/-- Total number of files in the walk cache.  The chunk-discovery loop can
succeed for at most this many distinct indices (each index names a distinct
base name, and a file matches only one base name), so `totalFiles + 1`
iterations always reach a missing index. -/
def totalFiles (cache : WalkCache) : Nat :=
  (cache.map (fun e => e.2.length)).sum

/-- The `while True` body of `_auto_find_chunk_files_with_abs_path`
(lines 191-201), with an iteration bound standing in for the source's
unbounded loop (behaviour is identical whenever the loop terminates, which
it always does on a finite cache — see `totalFiles`). -/
def chunkLoop (cache : WalkCache) (base : String) : Nat → Nat → List String
  | 0, _ => []
  | fuel + 1, index =>
    match get_abs_path_of cache (base ++ "_" ++ toString index) with
    | .ok p => p :: chunkLoop cache base fuel (index + 1)
    | .error _ => []

/-- `_auto_find_chunk_files_with_abs_path` (lines 185-203): a bare token
resolves to the single path (propagating the not-found error); a token
ending in the series marker strips it, then probes `base_0`, `base_1`, …
collecting paths until the first missing index, never raising. -/
def auto_find_chunk_files_with_abs_path (cache : WalkCache) (file_name : String) :
    Except String (List String) :=
  if !pyEndsWith file_name "_*" then
    match get_abs_path_of cache file_name with
    | .ok p => .ok [p]
    | .error m => .error m
  else
    let base_name := pySplitHead file_name "_*"
    .ok (chunkLoop cache base_name (totalFiles cache + 1) 0)

/-! ## BulkInserter (`_bulk_create_from_fixture`, lines 31-107) -/

/-- The placeholder hack of lines 60-67: for a record with deferred fields,
set every non-nullable foreign-key deferred field to the sentinel key 0 on
`item.object`; records without deferred fields are untouched. -/
def applyPlaceholders (item : DeserializedObject) : DeserializedObject :=
  if item.deferred_fields.isEmpty then item
  else
    { item with
      objVals := item.deferred_fields.foldl (fun vals fr =>
        if !fr.1.null && fr.1.isManyToOneRel then setAssoc vals fr.1.attname 0
        else vals) item.objVals }

/-- Modelled from the spec: does inserting this instance collide with an
existing unique constraint?  A collision is an explicit primary key already
present, or the kind's unique key (its filter fields) matching an existing
row. -/
def conflicts (meta : ModelMeta) (rows : List Row) (pk : Option Nat)
    (vals : List (String × Int)) : Bool :=
  (match pk with
   | some p => rows.any (fun r => r.pk == p)
   | none => false)
  || (!(fieldsToFilter meta).isEmpty
      && rows.any (matchesFilter
          ((fieldsToFilter meta).map (fun f => (f, getv vals f)))))

/-- Modelled from the spec: Django's
`cls.objects.bulk_create(instances, ignore_conflicts=True)` (line 71) — a
single set-oriented insert that silently skips rows colliding with an
existing unique constraint; a row without an explicit key draws one from
the kind's sequence, and is likewise skipped silently if that key is
already taken. -/
def bulk_create (meta : ModelMeta) (kind : String) (st : Store)
    (instances : List DeserializedObject) : Store :=
  instances.foldl (fun st item =>
    let rows := st.table kind
    if conflicts meta rows item.pk item.objVals then st
    else
      match item.pk with
      | some p => st.setTable kind (rows ++ [⟨p, item.objVals⟩])
      | none =>
        let seqName := kind ++ "_id_seq"
        let p := (st.seq seqName).nextval
        let st := st.setSeq seqName p.2
        if rows.any (fun r => r.pk == p.1) then st
        else st.setTable kind (rows ++ [⟨p.1, item.objVals⟩])) st

/-- The `defaultdict(list)` grouping of lines 43-47: records grouped by
their class, classes in first-appearance order, records in file order. -/
def groupByClass (items : List DeserializedObject) :
    List (String × List DeserializedObject) :=
  items.foldl (fun acc item =>
    if acc.any (fun g => g.1 == item.kind) then
      acc.map (fun g => if g.1 == item.kind then (g.1, g.2 ++ [item]) else g)
    else acc ++ [(item.kind, [item])]) []

/-- `set_m2m` (lines 76-96): for every record of the batch carrying
many-to-many data, re-locate the owning row by the kind's filter fields
valued from the record, and set each association's target list wholesale. -/
def set_m2m (metas : String → ModelMeta) (st : Store) (cls : String)
    (objs_not_with_deferred : List DeserializedObject) : Except DbErr Store :=
  objs_not_with_deferred.foldlM (fun st obj =>
    if obj.m2m_data.isEmpty then .ok st
    else
      obj.m2m_data.foldlM (fun st al =>
        match objectsGet (st.table cls)
            ((fieldsToFilter (metas cls)).map (fun f => (f, getv obj.objVals f))) with
        | .error e => .error e
        | .ok row => .ok (st.setM2M cls row.pk al.1 al.2)) st) st

/-- The loop variables `(cls, not_with_deferred)` of
`_bulk_create_from_fixture`'s class loop.  The lambda registered with
`transaction.on_commit` at line 98 closes over these variables by
reference, so every callback of one call reads the binding the frame holds
when the callbacks fire — the last iteration's. -/
structure Frame where
  cls : String
  not_with_deferred : List DeserializedObject
deriving DecidableEq, Repr

/-- What one `_bulk_create_from_fixture` call leaves behind: the store, the
accumulated records with deferred fields (line 55 — note these records
alias the instances patched with placeholders at line 67), the number of
`transaction.on_commit` registrations, and the frame its callbacks
close over. -/
structure FixtureOutcome where
  store : Store
  objs_with_deferred_fields : List DeserializedObject
  hookCount : Nat
  frame : Option Frame
deriving DecidableEq, Repr

/-- `_bulk_create_from_fixture` (lines 31-107): group records by class; per
class, split off the records with deferred fields (these same objects are
then mutated with placeholder keys), bulk-insert all placeholder-patched
instances with conflict-skip, and register one commit callback
`lambda: set_m2m(cls, not_with_deferred)`. -/
def bulkCreateFromFixture (metas : String → ModelMeta) (st : Store)
    (items : List DeserializedObject) : FixtureOutcome :=
  (groupByClass items).foldl (fun acc g =>
    let with_deferred :=
      (g.2.filter (fun o => !o.deferred_fields.isEmpty)).map applyPlaceholders
    let not_with_deferred := g.2.filter (fun o => o.deferred_fields.isEmpty)
    let instances := g.2.map applyPlaceholders
    { store := bulk_create (metas g.1) g.1 acc.store instances
      objs_with_deferred_fields := acc.objs_with_deferred_fields ++ with_deferred
      hookCount := acc.hookCount + 1
      frame := some ⟨g.1, not_with_deferred⟩ })
    ⟨st, [], 0, none⟩

/-- The commit callbacks a load registered, in registration order: each
call's lambdas all evaluate their frame at fire time, hence every callback
of one call carries that call's final frame. -/
def scheduledHooks (outs : List FixtureOutcome) : List Frame :=
  outs.flatMap (fun oc =>
    match oc.frame with
    | some fr => List.replicate oc.hookCount fr
    | none => [])

/-- Run the commit callbacks in order; a raising callback stops the run and
propagates, keeping the effects of the callbacks already run (they fired
after commit, outside any transaction). -/
def runHooksFrom (metas : String → ModelMeta) (st : Store) :
    List Frame → Store × Option DbErr
  | [] => (st, none)
  | fr :: rest =>
    match set_m2m metas st fr.cls fr.not_with_deferred with
    | .ok st2 => runHooksFrom metas st2 rest
    | .error e => (st, some e)

/-! ## DeferredResolver (`save_deferred_fields` and the two passes) -/

/-- Modelled from the spec: Django's
`DeserializedObject.save_deferred_fields()` — serializer-framework code
outside this repository.  Per the spec (section 4.4) it resolves every
deferred field to the real key of its referenced row and persists the
owning object: a deferred field whose target row does not exist yet fails
with an integrity error (the self-reference case); persisting an object
that has no primary key inserts it, and such an insert colliding with an
existing unique value — or with an existing key — fails with an integrity
error (the redundant-object case the source comments at lines 239-243
describe); otherwise the row is updated (or created) in place.  `faulty`
lists the kinds on which the store itself fails operationally (the
spec's store-level error taxonomy) — persisting such a kind raises a
non-integrity store error. -/
def save_deferred_fields (metas : String → ModelMeta) (faulty : List String)
    (st : Store) (obj : DeserializedObject) :
    Except DbErr (Store × DeserializedObject) :=
  if faulty.contains obj.kind then .error .storeError else
  match obj.deferred_fields.foldlM (fun vals fr =>
      match (st.table fr.2.targetKind).find? (fun r => r.pk == fr.2.targetPk) with
      | some trow => Except.ok (setAssoc vals fr.1.attname (Int.ofNat trow.pk))
      | none => Except.error (DbErr.integrityError .missingTarget)) obj.objVals with
  | .error e => .error e
  | .ok vals =>
    match obj.pk with
    | some p =>
      if (st.table obj.kind).any (fun r => r.pk == p) then
        .ok (st.setTable obj.kind
              ((st.table obj.kind).map (fun r => if r.pk == p then ⟨p, vals⟩ else r)),
            { obj with objVals := vals })
      else
        .ok (st.setTable obj.kind (st.table obj.kind ++ [⟨p, vals⟩]),
            { obj with objVals := vals })
    | none =>
      if !(fieldsToFilter (metas obj.kind)).isEmpty
          && (st.table obj.kind).any (matchesFilter
              ((fieldsToFilter (metas obj.kind)).map (fun f => (f, getv vals f)))) then
        .error (DbErr.integrityError .duplicateRow)
      else
        let seqName := obj.kind ++ "_id_seq"
        let p := (st.seq seqName).nextval
        if (st.table obj.kind).any (fun r => r.pk == p.1) then
          .error (DbErr.integrityError .duplicateRow)
        else
          .ok (((st.setSeq seqName p.2).setTable obj.kind
                  (st.table obj.kind ++ [⟨p.1, vals⟩])),
              { obj with pk := some p.1, objVals := vals })

/-- A pass outcome: the store and the queue collected for the next pass. -/
structure PassOutcome where
  store : Store
  queue : List DeserializedObject
deriving DecidableEq, Repr

/-- The first deferred pass (lines 234-244): save each record's deferred
fields inside a savepoint; an `IntegrityError` is caught and the record
appended to the self-reference queue (the savepoint undoes its partial
work); any other error propagates and aborts the load. -/
def firstPass (metas : String → ModelMeta) (faulty : List String) (st : Store)
    (objs : List DeserializedObject) : Except DbErr PassOutcome :=
  objs.foldlM (fun acc obj =>
    match save_deferred_fields metas faulty acc.store obj with
    | .ok r => .ok ⟨r.1, acc.queue⟩
    | .error e =>
      if e.isIntegrityError then .ok ⟨acc.store, acc.queue ++ [obj]⟩
      else .error e) ⟨st, []⟩

/-- The second (self-reference) pass body (lines 250-268): re-locate each
queued record's owning row afresh by the kind's filter fields
(`obj.object = cls.objects.get(**fields_to_filter)`), then save its
deferred fields again; any failure propagates. -/
def secondPass (metas : String → ModelMeta) (faulty : List String) (st : Store)
    (queue : List DeserializedObject) : Except DbErr Store :=
  queue.foldlM (fun st obj =>
    match objectsGet (st.table obj.kind)
        ((fieldsToFilter (metas obj.kind)).map (fun f => (f, getv obj.objVals f))) with
    | .error e => .error e
    | .ok row =>
      match save_deferred_fields metas faulty st
          { obj with pk := some row.pk, objVals := row.vals } with
      | .error e => .error e
      | .ok r => .ok r.1) st

/-! ## ConstraintScope (`DisableForeignkeyConstrain`, lines 135-182) -/

/-- One iteration of the `__exit__` table loop (lines 164-178): if the
table's `<table>_id_seq` sequence exists, read its `last_value`; when that
reads 1, fetch the table's maximum key and, if the table is non-empty,
restart the sequence at max + 1.  A store-level failure on the sequence
read (`faulty` lists the sequences whose read fails) raises — the source
catches nothing here. -/
def exitTable (faulty : List String) (st : Store) (table : String) :
    Except DbErr Store :=
  let seq_name := table ++ "_id_seq"
  if (st.seqs.lookup seq_name).isSome then
    if faulty.contains seq_name then .error .storeError
    else
      let start_num := (st.seq seq_name).last_value
      if start_num == 1 then
        match ((st.table table).map (fun r => r.pk)).max? with
        | some pk => .ok (st.setSeq seq_name ⟨pk + 1, false⟩)
        | none => .ok st
      else .ok st
  else .ok st

/-- `DisableForeignkeyConstrain.__exit__` (lines 157-182): resynchronize
every captured table's sequence.  Runs on scope release — which the source
places inside the main transaction, before its commit. -/
def exitScope (faulty : List String) (tables : List String) (st : Store) :
    Except DbErr Store :=
  tables.foldlM (fun st t => exitTable faulty st t) st

/-! ## `Command.handle` (lines 214-268) -/

/-- The outcome of a load: the store it leaves behind and the error it
raised, if any. -/
structure LoadResult where
  store : Store
  error : Option DbErr
deriving DecidableEq, Repr

/-- The per-file loop of lines 227-230: run `_bulk_create_from_fixture` on
each file's records, accumulating the deferred-field records and every
call's commit-callback registrations. -/
def mainBulkPhase (metas : String → ModelMeta) (st0 : Store)
    (fixtures : List (List DeserializedObject)) :
    Store × List FixtureOutcome × List DeserializedObject :=
  fixtures.foldl (fun acc items =>
    let oc := bulkCreateFromFixture metas acc.1 items
    (oc.store, acc.2.1 ++ [oc], acc.2.2 ++ oc.objs_with_deferred_fields))
    (st0, [], [])

/-- The body of the main transaction (lines 225-244): the constraint scope
captures the table list on entry; all files are bulk-loaded, the first
deferred pass runs, and then the scope's release resynchronizes sequences
— still inside the transaction.  Any error escapes the transaction. -/
def mainTransactionBody (metas : String → ModelMeta) (faulty : List String)
    (st0 : Store) (fixtures : List (List DeserializedObject)) :
    Except DbErr (Store × List FixtureOutcome × List DeserializedObject) :=
  let tables := st0.tables.map (fun e => e.1)
  let acc := mainBulkPhase metas st0 fixtures
  match firstPass metas faulty acc.1 acc.2.2 with
  | .error e => .error e
  | .ok po =>
    match exitScope faulty tables po.store with
    | .error e => .error e
    | .ok st2 => .ok (st2, acc.2.1, po.queue)

/-- The post-commit self-reference pass (lines 247-268): runs only when the
queue is non-empty, inside its own follow-up transaction — its failure
rolls back only that transaction, leaving the committed store. -/
def secondPhase (metas : String → ModelMeta) (faulty : List String)
    (committed : Store) (queue : List DeserializedObject) : LoadResult :=
  if queue.isEmpty then ⟨committed, none⟩
  else
    match secondPass metas faulty committed queue with
    | .ok st => ⟨st, none⟩
    | .error e => ⟨committed, some e⟩

/-- `Command.handle` (lines 214-268) on already-deserialized file contents:
the main transaction (rolled back wholesale on error), then — after its
commit — the registered `set_m2m` callbacks, then the self-reference
pass. -/
def handleFiles (metas : String → ModelMeta) (faulty : List String)
    (fixtures : List (List DeserializedObject)) (st0 : Store) : LoadResult :=
  match mainTransactionBody metas faulty st0 fixtures with
  | .error e => ⟨st0, some e⟩
  | .ok out =>
    match runHooksFrom metas out.1 (scheduledHooks out.2.1) with
    | (st2, some e) => ⟨st2, some e⟩
    | (st2, none) => secondPhase metas faulty st2 out.2.2

/-! ## Proof-support definitions -/

/-- Records of one kind, in file order. -/
def itemsOf (items : List DeserializedObject) (k : String) :
    List DeserializedObject :=
  items.filter (fun o => o.kind == k)

/-- The value a record's field mapping reaches once every deferred field is
resolved to its target key (resolution by primary key is
store-independent: the resolved value is the target key itself). -/
def resolveVals (deferred : List (FieldInfo × Ref))
    (vals : List (String × Int)) : List (String × Int) :=
  deferred.foldl (fun vs fr => setAssoc vs fr.1.attname (Int.ofNat fr.2.targetPk)) vals

/-- A record's fully loaded field values: placeholders applied, then every
deferred field resolved. -/
def finalVals (o : DeserializedObject) : List (String × Int) :=
  resolveVals o.deferred_fields (applyPlaceholders o).objVals

/-- The rows a list of records occupies when keyed consecutively from `u`,
with values given by the valuation `v`. -/
def rowsWith (v : DeserializedObject → List (String × Int)) (u : Nat) :
    List DeserializedObject → List Row
  | [] => []
  | o :: rest => ⟨u, v o⟩ :: rowsWith v (u + 1) rest

/-- The values a field mapping takes on a kind's filter fields — the data
a record is matched by. -/
def keyVals (meta : ModelMeta) (vals : List (String × Int)) : List Int :=
  (fieldsToFilter meta).map (getv vals)

/-- Apply a list of many-to-many set operations in order. -/
def applyOps (m ops : List ((String × Nat × String) × List Nat)) :
    List ((String × Nat × String) × List Nat) :=
  ops.foldl (fun m op => setAssoc m op.1 op.2) m

/-- The many-to-many set operations one `set_m2m` run performs, given the
keys `pkOf` the owning rows are located at. -/
def m2mOps (cls : String) (pkOf : DeserializedObject → Nat)
    (objs : List DeserializedObject) :
    List ((String × Nat × String) × List Nat) :=
  objs.flatMap (fun o => o.m2m_data.map (fun al => ((cls, pkOf o, al.1), al.2)))

/-- One step of `_bulk_create_from_fixture`'s class loop, as a named
function: bulk-insert the class's placeholder-patched instances, extend the
deferred queue, count the commit-callback registration, and overwrite the
closure frame. -/
def fixtureStep (metas : String → ModelMeta) (acc : FixtureOutcome)
    (g : String × List DeserializedObject) : FixtureOutcome :=
  { store := bulk_create (metas g.1) g.1 acc.store (g.2.map applyPlaceholders)
    objs_with_deferred_fields := acc.objs_with_deferred_fields ++
      (g.2.filter (fun o => !o.deferred_fields.isEmpty)).map applyPlaceholders
    hookCount := acc.hookCount + 1
    frame := some ⟨g.1, g.2.filter (fun o => o.deferred_fields.isEmpty)⟩ }

/-- The valuation a kind's table holds midway through the second pass: the
records in `S` are already patched to their fully resolved values, the rest
still hold their bulk-inserted (placeholder) values. -/
def vAfter (S : List DeserializedObject) (x : DeserializedObject) :
    List (String × Int) :=
  if x ∈ S then finalVals x else (applyPlaceholders x).objVals

/-- The many-to-many operations one firing of a frame's `set_m2m` callback
performs, with each owning row located at its bulk-insertion key. -/
def opsOf (items : List DeserializedObject) (fr : Frame) :
    List ((String × Nat × String) × List Nat) :=
  m2mOps fr.cls (fun o => 1 + (itemsOf items fr.cls).indexOf o)
    fr.not_with_deferred

/-- The closure frame a fixture's commit callbacks read — store-independent,
so evaluated against the empty store. -/
def fixtureFrame (metas : String → ModelMeta)
    (items : List DeserializedObject) : Option Frame :=
  (bulkCreateFromFixture metas ⟨[], [], []⟩ items).frame

/-- The deferred-record queue a fixture load collects — store-independent. -/
def fixtureQueue (metas : String → ModelMeta)
    (items : List DeserializedObject) : List DeserializedObject :=
  (bulkCreateFromFixture metas ⟨[], [], []⟩ items).objs_with_deferred_fields

/-- What a completed load of `items` leaves behind, as the idempotence
argument consumes it: each kind's table holds exactly the fixture's records
with fully resolved values at keys 1..n; the table catalogue's keys are
unchanged; every captured table's sequence no longer reads 1 (so release
resynchronizes nothing); and the many-to-many sets of the scheduled frame
are saturated. -/
def Saturated (metas : String → ModelMeta) (items : List DeserializedObject)
    (keys0 : List String) (S : Store) : Prop :=
  (∀ x ∈ items, S.table x.kind = rowsWith finalVals 1 (itemsOf items x.kind)) ∧
  (∀ x ∈ items, (S.tables.lookup x.kind).isSome = true) ∧
  (S.tables.map (fun e => e.1) = keys0) ∧
  (∀ t ∈ keys0, ∃ s, S.seqs.lookup (t ++ "_id_seq") = some s ∧
    ¬ s.last_value = 1) ∧
  (∀ fr, fixtureFrame metas items = some fr →
    ∀ op ∈ opsOf items fr, S.m2m.lookup op.1 = some op.2)

/-- The fixture-side hypotheses of the idempotence claim: a non-empty record
list whose records draw their keys from the sequence (no explicit pk), are
pairwise distinguishable by their kind's unique filter fields (which exist),
keep deferred fields off the filter fields and free of duplicate attnames,
carry no duplicate association accessors, and refer only to keys the fixture
itself populates. -/
@[reducible] def GoodItems (metas : String → ModelMeta)
    (items : List DeserializedObject) : Prop :=
  items ≠ [] ∧
  (∀ x ∈ items, x.pk = none) ∧
  items.Pairwise (fun a b => a.kind = b.kind →
    keyVals (metas a.kind) a.objVals ≠ keyVals (metas a.kind) b.objVals) ∧
  (∀ x ∈ items, (fieldsToFilter (metas x.kind)).isEmpty = false) ∧
  (∀ x ∈ items, ∀ fr ∈ x.deferred_fields,
    fr.1.attname ∉ fieldsToFilter (metas x.kind)) ∧
  (∀ x ∈ items, (x.deferred_fields.map (fun fr => fr.1.attname)).Nodup) ∧
  (∀ x ∈ items, (x.m2m_data.map (fun al => al.1)).Nodup) ∧
  (∀ x ∈ items, ∀ fr ∈ x.deferred_fields,
    1 ≤ fr.2.targetPk ∧ fr.2.targetPk ≤ (itemsOf items fr.2.targetKind).length)

/-- The store-side hypotheses of the idempotence claim: the target store is
a migrated-but-empty catalogue — every fixture kind has an empty table and a
virgin sequence, and the catalogue lists exactly (a subset of) the fixture
kinds, without duplicates. -/
@[reducible] def GoodStore (items : List DeserializedObject) (st0 : Store) : Prop :=
  (∀ x ∈ items, st0.tables.lookup x.kind = some []) ∧
  (∀ x ∈ items, st0.seqs.lookup (x.kind ++ "_id_seq") = some ⟨1, false⟩) ∧
  (∀ e ∈ st0.tables, ∃ x ∈ items, x.kind = e.1) ∧
  (st0.tables.map (fun e => e.1)).Nodup

/-! ## Concrete instances for witnesses and counterexamples -/

/-- A model catalogue for the concrete scenarios: every kind has `id` plus a
unique `name` column, so its filter field is `name`. -/
def metasEx : String → ModelMeta := fun _ => ⟨[], [("id", true), ("name", true)]⟩

/-- A store for the sequence-resynchronization counterexample: table `w`
holds a bulk-inserted row with key 10 while the sequence has been used up
to 5. -/
def stSeqGap : Store := ⟨[("w", [⟨10, []⟩])], [("w_id_seq", ⟨5, true⟩)], []⟩

/-- A store for the sequence-resynchronization witness: table `w` holds a
bulk-inserted row with key 10 while the sequence still reads 1. -/
def stSeqFresh : Store := ⟨[("w", [⟨10, []⟩])], [("w_id_seq", ⟨1, false⟩)], []⟩

/-- A one-table store for the resynchronization-error scenario. -/
def stC8 : Store := ⟨[("k", [])], [("k_id_seq", ⟨1, false⟩)], []⟩

/-- A plain record for the resynchronization-error scenario. -/
def recC8 : DeserializedObject := ⟨"k", some 1, [("name", 1)], [], []⟩

/-- A cached directory walk for the locator scenarios: one root holding a
three-chunk `widgets` series and one unrelated file. -/
def cacheEx : WalkCache :=
  [("app", ["widgets_0.json", "widgets_1.json", "widgets_2.json", "other.json"])]

/-- Kind-`a` record with association data, for the linker scenarios. -/
def recA : DeserializedObject := ⟨"a", some 1, [("name", 1)], [], [("tags", [1])]⟩

/-- Kind-`b` record with association data, for the linker scenarios. -/
def recB : DeserializedObject := ⟨"b", some 2, [("name", 2)], [], [("tags", [2])]⟩

/-- A two-table store for the linker scenarios. -/
def stAB : Store := ⟨[("a", []), ("b", [])], [], []⟩

/-- A fresh one-kind store for the deferred-plus-association scenario. -/
def stC3 : Store := ⟨[("c", [])], [("c_id_seq", ⟨1, false⟩)], []⟩

/-- Plain record of kind `c`. -/
def recC3a : DeserializedObject := ⟨"c", none, [("name", 10)], [], []⟩

/-- Record of kind `c` carrying both a deferred field and association data. -/
def recC3b : DeserializedObject :=
  ⟨"c", none, [("name", 20)], [(⟨"boss_id", false, true⟩, ⟨"c", 1⟩)],
   [("tags", [7, 8])]⟩

/-- Record of kind `c` carrying only association data. -/
def recC3c : DeserializedObject := ⟨"c", none, [("name", 30)], [], [("tags", [9])]⟩

/-- A one-row store for the wholesale-replacement witness. -/
def stM2 : Store := ⟨[("c", [⟨1, [("name", 10)]⟩])], [], []⟩

/-- The same owning record with association targets 1 and 2. -/
def oM2a : DeserializedObject := ⟨"c", none, [("name", 10)], [], [("tags", [1, 2])]⟩

/-- The same owning record, corrected to association targets 1 and 3. -/
def oM2b : DeserializedObject := ⟨"c", none, [("name", 10)], [], [("tags", [1, 3])]⟩

/-- A record with a non-nullable and a nullable deferred foreign key, for
the placeholder scenario. -/
def itemC5 : DeserializedObject :=
  ⟨"k", none, [("name", 5)],
   [(⟨"boss_id", false, true⟩, ⟨"k", 2⟩), (⟨"aide_id", true, true⟩, ⟨"k", 2⟩)], []⟩

/-- A two-row store for the resolution scenario. -/
def stC5 : Store :=
  ⟨[("k", [⟨1, [("name", 5), ("boss_id", 0)]⟩, ⟨2, [("name", 6)]⟩])], [], []⟩

/-- A keyed record whose deferred field points at row 2 of `stC5`. -/
def objC5 : DeserializedObject :=
  ⟨"k", some 1, [("name", 5), ("boss_id", 0)],
   [(⟨"boss_id", false, true⟩, ⟨"k", 2⟩)], []⟩

/-- A keyless record already present (by unique key) in `stC6`: saving its
deferred fields inserts and collides, raising a duplicate integrity
error. -/
def objC6 : DeserializedObject :=
  ⟨"k", none, [("name", 5), ("boss_id", 0)],
   [(⟨"boss_id", false, true⟩, ⟨"k", 1⟩)], []⟩

/-- One-row store whose row carries the unique value of `objC6`. -/
def stC6 : Store :=
  ⟨[("k", [⟨1, [("name", 5), ("boss_id", 0)]⟩])], [("k_id_seq", ⟨1, true⟩)], []⟩

/-- A record whose unique value matches no row, for the unresolvable
second-pass scenario. -/
def objC7bad : DeserializedObject := ⟨"k", none, [("name", 99)], [], []⟩

/-- Decidable equality on `Except`, so concrete runs can be checked by
`decide`. -/
instance {ε α : Type} [DecidableEq ε] [DecidableEq α] :
    DecidableEq (Except ε α) := fun x y =>
  match x, y with
  | .ok a, .ok b =>
    if h : a = b then .isTrue (by rw [h])
    else .isFalse (by intro hc; cases hc; exact h rfl)
  | .ok _, .error _ => .isFalse (by intro hc; cases hc)
  | .error _, .ok _ => .isFalse (by intro hc; cases hc)
  | .error e, .error f =>
    if h : e = f then .isTrue (by rw [h])
    else .isFalse (by intro hc; cases hc; exact h rfl)

/-- A model catalogue with no usable unique constraint: no unique-together,
and the only unique field is `id` itself, so the filter-field list is
empty and conflict-skip can never fire. -/
def metasP : String → ModelMeta := fun _ => ⟨[], [("id", true)]⟩

/-- A single keyless record of kind `p` for the idempotence counterexample. -/
def recP : DeserializedObject := ⟨"p", none, [("x", 1)], [], []⟩

/-- A fresh store for kind `p`. -/
def stP : Store := ⟨[("p", [])], [("p_id_seq", ⟨1, false⟩)], []⟩

/-- A two-record fixture of kind `c` for the idempotence witness: a plain
record and one carrying a deferred self-reference to key 1 plus
many-to-many data. -/
def itemsW : List DeserializedObject :=
  [⟨"c", none, [("name", 10)], [], []⟩,
   ⟨"c", none, [("name", 20)], [(⟨"ref", false, true⟩, ⟨"c", 1⟩)],
     [("tags", [1])]⟩]

/-- A fresh store for kind `c`, catalogued with a virgin sequence. -/
def stW : Store := ⟨[("c", [])], [("c_id_seq", ⟨1, false⟩)], []⟩

-- THEOREMS BELOW

/-! ## Association-list and store lemmas -/

theorem lookup_setAssoc_self {α β : Type} [BEq α] [LawfulBEq α]
    (l : List (α × β)) (k : α) (v : β) :
    (setAssoc l k v).lookup k = some v := by
  induction l with
  | nil => simp [setAssoc, List.lookup]
  | cons p t ih =>
    by_cases h : p.1 == k
    · simp [setAssoc, h, List.lookup]
    · simp only [setAssoc, h, if_false, List.lookup]
      have hne : p.1 ≠ k := by simpa using h
      have hk : (k == p.1) = false := beq_eq_false_iff_ne.mpr (Ne.symm hne)
      simp [hk, ih]

theorem lookup_setAssoc_ne {α β : Type} [BEq α] [LawfulBEq α]
    (l : List (α × β)) (k k' : α) (v : β) (h : k' ≠ k) :
    (setAssoc l k v).lookup k' = l.lookup k' := by
  induction l with
  | nil => simp [setAssoc, List.lookup, beq_eq_false_iff_ne.mpr h]
  | cons p t ih =>
    by_cases hp : p.1 == k
    · have hp' : p.1 = k := by simpa using hp
      simp [setAssoc, hp, List.lookup, hp', beq_eq_false_iff_ne.mpr h]
    · simp only [setAssoc, hp, if_false, List.lookup]
      cases hkp : k' == p.1 <;> simp [ih]

theorem setAssoc_lookup_eq {α β : Type} [BEq α] [LawfulBEq α]
    (l : List (α × β)) (k : α) (v : β) (h : l.lookup k = some v) :
    setAssoc l k v = l := by
  induction l with
  | nil => simp [List.lookup] at h
  | cons p t ih =>
    obtain ⟨p1, p2⟩ := p
    by_cases hp : p1 == k
    · have hp' : p1 = k := by simpa using hp
      have hkk : (k == p1) = true := by simp [hp']
      simp only [List.lookup, hkk, cond_true] at h
      obtain rfl : p2 = v := by simpa using h
      simp [setAssoc, hp, hp']
    · have hne : p1 ≠ k := by simpa using hp
      have hk : (k == p1) = false := beq_eq_false_iff_ne.mpr (Ne.symm hne)
      simp only [List.lookup, hk, cond_false] at h
      simp [setAssoc, hp, ih h]

theorem store_table_setTable_self (st : Store) (k : String) (rows : List Row) :
    (st.setTable k rows).table k = rows := by
  simp [Store.table, Store.setTable, lookup_setAssoc_self]

theorem store_table_setTable_ne (st : Store) (k k' : String) (rows : List Row)
    (h : k' ≠ k) : (st.setTable k rows).table k' = st.table k' := by
  simp [Store.table, Store.setTable, lookup_setAssoc_ne _ _ _ _ h]

theorem store_setTable_lookup_eq (st : Store) (k : String) (rows : List Row)
    (h : st.tables.lookup k = some rows) : st.setTable k rows = st := by
  cases st
  simp [Store.setTable, setAssoc_lookup_eq _ _ _ h]

theorem string_append_right_cancel {a b : String} (s : String)
    (h : a ++ s = b ++ s) : a = b := by
  have hd : a.data ++ s.data = b.data ++ s.data := by
    simpa using congrArg String.data h
  have hab : a.data = b.data := (List.append_inj' hd rfl).1
  cases a; cases b; exact congrArg String.mk hab

/-! ## ConstraintScope release lemmas -/

theorem exitTable_spec (faulty : List String) (st : Store) (t : String) :
    exitTable faulty st t = .ok st ∨
    (∃ M, ((st.table t).map (fun r => r.pk)).max? = some M ∧
      exitTable faulty st t = .ok (st.setSeq (t ++ "_id_seq") ⟨M + 1, false⟩)) ∨
    (exitTable faulty st t = .error .storeError ∧
      faulty.contains (t ++ "_id_seq") = true) := by
  unfold exitTable
  dsimp only
  split_ifs with h1 h2 h3
  · exact Or.inr (Or.inr ⟨rfl, h2⟩)
  · cases hmax : ((st.table t).map (fun r => r.pk)).max? with
    | some M =>
      refine Or.inr (Or.inl ⟨M, rfl, ?_⟩)
      simp
    | none => exact Or.inl (by simp)
  · exact Or.inl rfl
  · exact Or.inl rfl

theorem exitTable_shape {faulty : List String} {st st' : Store} {t : String}
    (h : exitTable faulty st t = .ok st') :
    st'.tables = st.tables ∧ st'.m2m = st.m2m ∧
    ∀ n, n ≠ t ++ "_id_seq" → st'.seqs.lookup n = st.seqs.lookup n := by
  rcases exitTable_spec faulty st t with h1 | ⟨M, _, h2⟩ | ⟨h3, _⟩
  · rw [h1] at h
    obtain rfl : st = st' := by simpa using h
    exact ⟨rfl, rfl, fun n _ => rfl⟩
  · rw [h2] at h
    obtain rfl : st.setSeq (t ++ "_id_seq") ⟨M + 1, false⟩ = st' := by simpa using h
    refine ⟨rfl, rfl, fun n hn => ?_⟩
    simp [Store.setSeq, lookup_setAssoc_ne _ _ _ _ hn]
  · rw [h3] at h; cases h

theorem exitTable_ok_of_not_faulty {st : Store} {t : String}
    (h : ¬ (List.contains [] (t ++ "_id_seq") = true)) :
    ∃ st', exitTable [] st t = .ok st' := by
  rcases exitTable_spec [] st t with h1 | ⟨M, _, h2⟩ | ⟨_, h3⟩
  · exact ⟨st, h1⟩
  · exact ⟨_, h2⟩
  · exact absurd h3 h

theorem exitTable_resync {st : Store} {t : String} {M : Nat} {c : Bool}
    (hseq : st.seqs.lookup (t ++ "_id_seq") = some ⟨1, c⟩)
    (hmax : ((st.table t).map (fun r => r.pk)).max? = some M) :
    exitTable [] st t = .ok (st.setSeq (t ++ "_id_seq") ⟨M + 1, false⟩) := by
  unfold exitTable
  simp [hseq, Store.seq, hmax]

theorem exitScope_preserves {tables : List String} {st : Store} :
    ∃ st', exitScope [] tables st = .ok st' ∧ st'.tables = st.tables ∧
      st'.m2m = st.m2m ∧
      ∀ n, (∀ t ∈ tables, n ≠ t ++ "_id_seq") →
        st'.seqs.lookup n = st.seqs.lookup n := by
  induction tables generalizing st with
  | nil => exact ⟨st, rfl, rfl, rfl, fun n _ => rfl⟩
  | cons t0 ts ih =>
    obtain ⟨st1, h1⟩ := @exitTable_ok_of_not_faulty st t0 (by simp)
    obtain ⟨htab, hm2m, hseqs⟩ := exitTable_shape h1
    obtain ⟨st', h2, htab', hm2m', hseqs'⟩ := @ih st1
    refine ⟨st', ?_, htab'.trans htab, hm2m'.trans hm2m, ?_⟩
    · simp only [exitScope, List.foldlM] at h2 ⊢
      rw [h1]
      simpa [exitScope] using h2
    · intro n hn
      refine (hseqs' n fun t ht => hn t (List.mem_cons_of_mem _ ht)).trans ?_
      exact hseqs n (hn t0 (List.mem_cons_self _ _))

theorem exitScope_resync {tables : List String} {st : Store} {t : String}
    {M : Nat} {c : Bool} (ht : t ∈ tables) (hnd : tables.Nodup)
    (hseq : st.seqs.lookup (t ++ "_id_seq") = some ⟨1, c⟩)
    (hmax : ((st.table t).map (fun r => r.pk)).max? = some M) :
    ∃ st', exitScope [] tables st = .ok st' ∧ st'.tables = st.tables ∧
      st'.m2m = st.m2m ∧
      st'.seqs.lookup (t ++ "_id_seq") = some ⟨M + 1, false⟩ := by
  induction tables generalizing st with
  | nil => cases ht
  | cons t0 ts ih =>
    rcases List.mem_cons.1 ht with rfl | hmem
    · have h1 := exitTable_resync hseq hmax
      obtain ⟨st', h2, htab, hm2m, hseqs⟩ :=
        @exitScope_preserves ts (st.setSeq (t ++ "_id_seq") ⟨M + 1, false⟩)
      refine ⟨st', ?_, ?_, ?_, ?_⟩
      · simp only [exitScope, List.foldlM] at h2 ⊢
        rw [h1]
        simpa [exitScope] using h2
      · simpa [Store.setSeq] using htab
      · simpa [Store.setSeq] using hm2m
      · have hnotin : ∀ t' ∈ ts, t ++ "_id_seq" ≠ t' ++ "_id_seq" := by
          intro t' ht' heq
          have : t = t' := string_append_right_cancel _ heq
          exact (List.nodup_cons.1 hnd).1 (this ▸ ht')
        rw [hseqs _ hnotin]
        simp [Store.setSeq, lookup_setAssoc_self]
    · have hne : t ≠ t0 := by
        rintro rfl
        exact (List.nodup_cons.1 hnd).1 hmem
      obtain ⟨st1, h1⟩ := @exitTable_ok_of_not_faulty st t0 (by simp)
      obtain ⟨htab, hm2m, hseqs⟩ := exitTable_shape h1
      have hseq1 : st1.seqs.lookup (t ++ "_id_seq") = some ⟨1, c⟩ := by
        rw [hseqs _ (fun heq => hne (string_append_right_cancel _ heq)), hseq]
      have hmax1 : ((st1.table t).map (fun r => r.pk)).max? = some M := by
        have : st1.table t = st.table t := by simp [Store.table, htab]
        rw [this, hmax]
      obtain ⟨st', h2, htab', hm2m', hseqs'⟩ :=
        ih hmem (List.nodup_cons.1 hnd).2 hseq1 hmax1
      refine ⟨st', ?_, htab'.trans htab, hm2m'.trans hm2m, hseqs'⟩
      simp only [exitScope, List.foldlM] at h2 ⊢
      rw [h1]
      simpa [exitScope] using h2

/-! ## Claim C1 — sequence resynchronization on scope release -/

/-- C1, as stated, is false: in `stSeqGap` the sequence reads 5 (next value
6), which is not ahead of the table's maximum key 10, yet release leaves
the counter untouched, and a subsequent ordinary insert receives key 6 —
not a key greater than the bulk-inserted key 10.  The release only
advances counters that still read 1. -/
theorem C1_counterexample :
    (stSeqGap.seq "w_id_seq").upcoming ≤ 10 ∧
    (10 : Nat) ∈ (stSeqGap.table "w").map (fun r => r.pk) ∧
    exitScope [] ["w"] stSeqGap = .ok stSeqGap ∧
    (ordinaryInsert stSeqGap "w" []).2 ≤ 10 := by decide

/-- C1 (amended): after ConstraintScope release, for every entity kind with
an auto-assigned key whose next-value counter still read its initial value
1 at release time, the counter is advanced to max + 1, so the post-release
next value exceeds the maximum existing primary key and a subsequent
ordinary insert receives a key greater than any bulk-inserted key.  (A
counter that has moved past 1 is left alone even when it is behind the
table's maximum — see the counterexample.) -/
theorem C1_sequence_resync (st : Store) (tables : List String) (t : String)
    (M : Nat) (c : Bool) (vals : List (String × Int))
    (ht : t ∈ tables) (hnd : tables.Nodup)
    (hseq : st.seqs.lookup (t ++ "_id_seq") = some ⟨1, c⟩)
    (hmax : ((st.table t).map (fun r => r.pk)).max? = some M) :
    ∃ st', exitScope [] tables st = .ok st' ∧
      (st'.seq (t ++ "_id_seq")).upcoming = M + 1 ∧
      (∀ r ∈ st'.table t, r.pk < (st'.seq (t ++ "_id_seq")).upcoming) ∧
      (ordinaryInsert st' t vals).2 = M + 1 ∧
      (∀ r ∈ st.table t, r.pk < (ordinaryInsert st' t vals).2) := by
  obtain ⟨st', hex, htab, _, hs⟩ := exitScope_resync ht hnd hseq hmax
  have hseq' : st'.seq (t ++ "_id_seq") = ⟨M + 1, false⟩ := by
    simp [Store.seq, hs]
  have htabeq : st'.table t = st.table t := by simp [Store.table, htab]
  have hle : ∀ r ∈ st.table t, r.pk ≤ M := by
    intro r hr
    exact (List.max?_eq_some_iff'.mp hmax).2 r.pk (List.mem_map_of_mem _ hr)
  have hup : (st'.seq (t ++ "_id_seq")).upcoming = M + 1 := by
    rw [hseq']; rfl
  have hins : (ordinaryInsert st' t vals).2 = M + 1 := by
    simp [ordinaryInsert, hseq', PgSeq.nextval]
  refine ⟨st', hex, hup, ?_, hins, ?_⟩
  · intro r hr
    rw [hup]
    exact Nat.lt_succ_of_le (hle r (htabeq ▸ hr))
  · intro r hr
    rw [hins]
    exact Nat.lt_succ_of_le (hle r hr)

/-- Witness for `C1_sequence_resync` at the concrete store `stSeqFresh`. -/
theorem C1_sequence_resync_witness :
    ∃ st', exitScope [] ["w"] stSeqFresh = .ok st' ∧
      (st'.seq ("w" ++ "_id_seq")).upcoming = 11 ∧
      (∀ r ∈ st'.table "w", r.pk < (st'.seq ("w" ++ "_id_seq")).upcoming) ∧
      (ordinaryInsert st' "w" []).2 = 11 ∧
      (∀ r ∈ stSeqFresh.table "w", r.pk < (ordinaryInsert st' "w" []).2) :=
  C1_sequence_resync stSeqFresh ["w"] "w" 10 false [] (by decide) (by decide)
    (by decide) (by decide)

/-! ## Claim C8 — errors during sequence resynchronization -/

/-- C8, as stated, is false: with the store faulting on the `k_id_seq`
resynchronization read, the load of `recC8` fails with that store error
and leaves the store as it started (the inserted row is rolled back),
whereas the identical fault-free load commits the row and reports no
error.  Resynchronization runs inside the main transaction, before its
commit, so its failure is neither logged-and-ignored nor harmless. -/
theorem C8_counterexample :
    handleFiles metasEx ["k_id_seq"] [[recC8]] stC8 = ⟨stC8, some .storeError⟩ ∧
    stC8.table "k" = [] ∧
    (handleFiles metasEx [] [[recC8]] stC8).error = none ∧
    (handleFiles metasEx [] [[recC8]] stC8).store.table "k"
      = [⟨1, [("name", 1)]⟩] := by decide

/-- C8 (amended): a store-level error during sequence resynchronization
propagates and fails the load, rolling back everything: the release —
hence the resynchronization — runs inside the main transaction, before
its commit, so no data of the load survives and the error is surfaced to
the caller rather than logged as a warning. -/
theorem C8_resync_error (metas : String → ModelMeta) (faulty : List String)
    (st0 : Store) (fixtures : List (List DeserializedObject))
    (po : PassOutcome) (e : DbErr)
    (h1 : firstPass metas faulty (mainBulkPhase metas st0 fixtures).1
        (mainBulkPhase metas st0 fixtures).2.2 = .ok po)
    (h2 : exitScope faulty (st0.tables.map (fun x => x.1)) po.store
        = .error e) :
    handleFiles metas faulty fixtures st0 = ⟨st0, some e⟩ := by
  simp only [handleFiles, mainTransactionBody, h1, h2]

/-- Witness for `C8_resync_error` at the concrete faulty scenario. -/
theorem C8_resync_error_witness :
    handleFiles metasEx ["k_id_seq"] [[recC8]] stC8 = ⟨stC8, some .storeError⟩ :=
  C8_resync_error metasEx ["k_id_seq"] stC8 [[recC8]]
    ⟨⟨[("k", [⟨1, [("name", 1)]⟩])], [("k_id_seq", ⟨1, false⟩)], []⟩, []⟩
    .storeError (by decide) (by decide)

/-! ## FixtureLocator lemmas and claims C4, C10 -/

theorem chunkLoop_spec (cache : WalkCache) (base : String) (k : Nat)
    (p : Nat → String) (m : String)
    (hfound : ∀ i, i < k →
      get_abs_path_of cache (base ++ "_" ++ toString i) = .ok (p i))
    (hmiss : get_abs_path_of cache (base ++ "_" ++ toString k) = .error m) :
    ∀ fuel i, i ≤ k → k - i < fuel →
      chunkLoop cache base fuel i = (List.range' i (k - i)).map p := by
  intro fuel
  induction fuel with
  | zero => intro i _ h; omega
  | succ fuel ih =>
    intro i hik hlt
    rcases Nat.lt_or_ge i k with hi | hi
    · have hstep := hfound i hi
      have hrec := ih (i + 1) hi (by omega)
      have hki : k - i = (k - (i + 1)) + 1 := by omega
      simp only [chunkLoop, hstep, hrec, hki, List.range'_succ, List.map_cons]
    · have hik' : i = k := by omega
      subst hik'
      simp [chunkLoop, hmiss, Nat.sub_self]

/-- C4: for a token ending in the chunk-series marker, resolution returns
exactly the paths of `base_0 … base_(k-1)` in index order, where `k` is
the first index whose name is not found; files beyond a gap are not
returned.  (`hk` records that the source's unbounded probing loop needs at
most one probe per cached file before hitting a missing index, which is
what the embedding's iteration bound expresses.) -/
theorem C4_series_discovery (cache : WalkCache) (t base : String) (k : Nat)
    (p : Nat → String) (m : String)
    (hend : pyEndsWith t "_*" = true)
    (hbase : pySplitHead t "_*" = base)
    (hfound : ∀ i, i < k →
      get_abs_path_of cache (base ++ "_" ++ toString i) = .ok (p i))
    (hmiss : get_abs_path_of cache (base ++ "_" ++ toString k) = .error m)
    (hk : k ≤ totalFiles cache) :
    auto_find_chunk_files_with_abs_path cache t = .ok ((List.range k).map p) := by
  have hloop := chunkLoop_spec cache base k p m hfound hmiss
    (totalFiles cache + 1) 0 (Nat.zero_le _) (by omega)
  unfold auto_find_chunk_files_with_abs_path
  rw [hend, hbase]
  simp only [Bool.not_true, Bool.false_eq_true, if_false, hloop, Nat.sub_zero,
    List.range_eq_range']

/-- Witness for `C4_series_discovery` on the concrete cache `cacheEx`. -/
theorem C4_series_discovery_witness :
    auto_find_chunk_files_with_abs_path cacheEx "widgets_*"
      = .ok ((List.range 3).map
          (fun i => "app/widgets_" ++ toString i ++ ".json")) :=
  C4_series_discovery cacheEx "widgets_*" "widgets" 3
    (fun i => "app/widgets_" ++ toString i ++ ".json") "widgets_3"
    (by decide) (by decide)
    (by intro i hi; interval_cases i <;> decide) (by decide) (by decide)

/-- C10: resolving a series token never raises — it always yields a path
list, and when even the index-0 file is missing that list is empty — while
a bare token that cannot be located propagates the not-found error. -/
theorem C10_series_never_not_found (cache : WalkCache) (t m0 mb : String) :
    (pyEndsWith t "_*" = true →
      (∃ ps, auto_find_chunk_files_with_abs_path cache t = .ok ps) ∧
      (get_abs_path_of cache (pySplitHead t "_*" ++ "_" ++ toString 0)
          = .error m0 →
        auto_find_chunk_files_with_abs_path cache t = .ok [])) ∧
    (pyEndsWith t "_*" = false →
      get_abs_path_of cache t = .error mb →
      auto_find_chunk_files_with_abs_path cache t = .error mb) := by
  constructor
  · intro hend
    constructor
    · refine ⟨chunkLoop cache (pySplitHead t "_*") (totalFiles cache + 1) 0, ?_⟩
      unfold auto_find_chunk_files_with_abs_path
      rw [hend]
      simp only [Bool.not_true, Bool.false_eq_true, if_false]
    · intro hmiss
      unfold auto_find_chunk_files_with_abs_path
      rw [hend]
      simp only [Bool.not_true, Bool.false_eq_true, if_false, chunkLoop, hmiss]
  · intro hend hmiss
    unfold auto_find_chunk_files_with_abs_path
    rw [hend]
    simp only [Bool.not_false, if_true, hmiss]

/-- Witness for `C10_series_never_not_found`: a missing series yields the
empty path list, a missing bare name raises. -/
theorem C10_series_never_not_found_witness :
    auto_find_chunk_files_with_abs_path cacheEx "gadgets_*" = .ok [] ∧
    auto_find_chunk_files_with_abs_path cacheEx "gadgets" = .error "gadgets" :=
  ⟨((C10_series_never_not_found cacheEx "gadgets_*" "gadgets_0" "").1
      (by decide)).2 (by decide),
   (C10_series_never_not_found cacheEx "gadgets" "" "gadgets").2
      (by decide) (by decide)⟩

/-! ## Claim C2 — commit-time scheduling of the linker -/

/-- C2 (code bug): loading one file with two entity-kind batches `a` then
`b` registers one commit callback per batch, but both callbacks close over
the loop variables by reference and so both fire with the last batch's
kind and records: the load succeeds, kind `b`'s association is set, and
kind `a`'s association is never linked even though `recA` carries
association data.  The claim's per-batch execution — each callback running
with its own batch's entity kind and records — does not hold. -/
theorem C2_linker_late_binding :
    scheduledHooks (mainBulkPhase metasEx stAB [[recA, recB]]).2.1
      = [⟨"b", [recB]⟩, ⟨"b", [recB]⟩] ∧
    (handleFiles metasEx [] [[recA, recB]] stAB).error = none ∧
    (handleFiles metasEx [] [[recA, recB]] stAB).store.m2m
      = [(("b", 2, "tags"), [2])] ∧
    recA.m2m_data = [("tags", [1])] := by decide

/-! ## Claim C3 — wholesale association replacement -/

/-- C3, as stated, is false: `recC3b` carries association data but also a
deferred field, so `_bulk_create_from_fixture` never hands it to the
linker (`set_m2m` receives only the records without deferred fields): the
load succeeds, yet the finished store holds no association for
`recC3b`'s row (key 2) — only `recC3c`'s (key 3). -/
theorem C3_counterexample :
    recC3b.m2m_data = [("tags", [7, 8])] ∧
    (handleFiles metasEx [] [[recC3a, recC3b, recC3c]] stC3).error = none ∧
    (handleFiles metasEx [] [[recC3a, recC3b, recC3c]] stC3).store.m2m
      = [(("c", 3, "tags"), [9])] := by decide

/-- C3 (amended): for every record without deferred fields handed to the
linker, it re-locates the owning row by the values of the kind's filter
fields and replaces each association's target set wholesale (not
additively): loading targets `t1` and then corrected targets `t2` leaves
the association set exactly `t2`. -/
theorem C3_linker_wholesale (metas : String → ModelMeta) (st : Store)
    (cls a : String) (o o2 : DeserializedObject) (row : Row) (t1 t2 : List Nat)
    (hm1 : o.m2m_data = [(a, t1)]) (hm2 : o2.m2m_data = [(a, t2)])
    (hv : o2.objVals = o.objVals)
    (hget : objectsGet (st.table cls)
        ((fieldsToFilter (metas cls)).map (fun f => (f, getv o.objVals f)))
      = .ok row) :
    set_m2m metas st cls [o] = .ok (st.setM2M cls row.pk a t1) ∧
    (st.setM2M cls row.pk a t1).m2m.lookup (cls, row.pk, a) = some t1 ∧
    set_m2m metas (st.setM2M cls row.pk a t1) cls [o2]
      = .ok ((st.setM2M cls row.pk a t1).setM2M cls row.pk a t2) ∧
    ((st.setM2M cls row.pk a t1).setM2M cls row.pk a t2).m2m.lookup
        (cls, row.pk, a) = some t2 := by
  have htab : (st.setM2M cls row.pk a t1).table cls = st.table cls := rfl
  refine ⟨?_, ?_, ?_, ?_⟩
  · simp [set_m2m, hm1, List.foldlM, hget]
  · simp [Store.setM2M, lookup_setAssoc_self]
  · simp [set_m2m, hm2, List.foldlM, htab, hv, hget]
  · simp [Store.setM2M, lookup_setAssoc_self]

/-- Witness for `C3_linker_wholesale`: targets {1,2} then {1,3} end as
exactly {1,3}. -/
theorem C3_linker_wholesale_witness :
    set_m2m metasEx stM2 "c" [oM2a]
      = .ok (stM2.setM2M "c" 1 "tags" [1, 2]) ∧
    (stM2.setM2M "c" 1 "tags" [1, 2]).m2m.lookup ("c", 1, "tags")
      = some [1, 2] ∧
    set_m2m metasEx (stM2.setM2M "c" 1 "tags" [1, 2]) "c" [oM2b]
      = .ok ((stM2.setM2M "c" 1 "tags" [1, 2]).setM2M "c" 1 "tags" [1, 3]) ∧
    ((stM2.setM2M "c" 1 "tags" [1, 2]).setM2M "c" 1 "tags" [1, 3]).m2m.lookup
        ("c", 1, "tags") = some [1, 3] :=
  C3_linker_wholesale metasEx stM2 "c" "tags" oM2a oM2b ⟨1, [("name", 10)]⟩
    [1, 2] [1, 3] (by decide) (by decide) (by decide) (by decide)

/-! ## Placeholder and resolution lemmas -/

theorem exceptBind_ok {ε α β : Type} (a : α) (f : α → Except ε β) :
    (Except.ok a >>= f) = f a := rfl

theorem exceptBind_error {ε α β : Type} (e : ε) (f : α → Except ε β) :
    ((Except.error e : Except ε α) >>= f) = .error e := rfl

theorem phFold_keeps (l : List (FieldInfo × Ref)) (vals : List (String × Int))
    (f : String) (h : vals.lookup f = some 0) :
    (l.foldl (fun vals fr =>
        if !fr.1.null && fr.1.isManyToOneRel then setAssoc vals fr.1.attname 0
        else vals) vals).lookup f = some 0 := by
  induction l generalizing vals with
  | nil => simpa using h
  | cons g rest ih =>
    simp only [List.foldl_cons]
    by_cases hc : (!g.1.null && g.1.isManyToOneRel) = true
    · apply ih
      simp only [hc, if_true]
      by_cases hf : g.1.attname = f
      · rw [hf]; exact lookup_setAssoc_self _ _ _
      · rw [lookup_setAssoc_ne _ _ _ _ (fun hh => hf hh.symm)]; exact h
    · simp only [hc, if_false]
      exact ih vals h

theorem phFold_mem (l : List (FieldInfo × Ref)) (vals : List (String × Int))
    (fi : FieldInfo) (r : Ref) (hmem : (fi, r) ∈ l)
    (hnull : fi.null = false) (hfk : fi.isManyToOneRel = true) :
    (l.foldl (fun vals fr =>
        if !fr.1.null && fr.1.isManyToOneRel then setAssoc vals fr.1.attname 0
        else vals) vals).lookup fi.attname = some 0 := by
  induction l generalizing vals with
  | nil => cases hmem
  | cons g rest ih =>
    simp only [List.foldl_cons]
    rcases List.mem_cons.1 hmem with heq | hmem2
    · rw [← heq]
      simp only [hnull, hfk, Bool.not_false, Bool.and_self, if_true]
      exact phFold_keeps rest _ _ (lookup_setAssoc_self _ _ _)
    · exact ih _ hmem2

theorem phFold_untouched (l : List (FieldInfo × Ref))
    (vals : List (String × Int)) (f : String)
    (h : ∀ fr ∈ l, (!fr.1.null && fr.1.isManyToOneRel) = true →
      fr.1.attname ≠ f) :
    (l.foldl (fun vals fr =>
        if !fr.1.null && fr.1.isManyToOneRel then setAssoc vals fr.1.attname 0
        else vals) vals).lookup f = vals.lookup f := by
  induction l generalizing vals with
  | nil => rfl
  | cons g rest ih =>
    simp only [List.foldl_cons]
    by_cases hc : (!g.1.null && g.1.isManyToOneRel) = true
    · rw [ih _ (fun fr hm => h fr (List.mem_cons_of_mem _ hm))]
      simp only [hc, if_true]
      exact lookup_setAssoc_ne _ _ _ _
        (fun hh => h g (List.mem_cons_self _ _) hc hh.symm)
    · simp only [hc, if_false]
      exact ih _ (fun fr hm => h fr (List.mem_cons_of_mem _ hm))

theorem applyPlaceholders_kind (item : DeserializedObject) :
    (applyPlaceholders item).kind = item.kind := by
  unfold applyPlaceholders; split <;> rfl

theorem applyPlaceholders_pk (item : DeserializedObject) :
    (applyPlaceholders item).pk = item.pk := by
  unfold applyPlaceholders; split <;> rfl

theorem applyPlaceholders_deferred (item : DeserializedObject) :
    (applyPlaceholders item).deferred_fields = item.deferred_fields := by
  unfold applyPlaceholders; split <;> rfl

theorem applyPlaceholders_m2m (item : DeserializedObject) :
    (applyPlaceholders item).m2m_data = item.m2m_data := by
  unfold applyPlaceholders; split <;> rfl

theorem applyPlaceholders_lookup_set (item : DeserializedObject)
    (fi : FieldInfo) (r : Ref) (hmem : (fi, r) ∈ item.deferred_fields)
    (hnull : fi.null = false) (hfk : fi.isManyToOneRel = true) :
    (applyPlaceholders item).objVals.lookup fi.attname = some 0 := by
  unfold applyPlaceholders
  have hne : item.deferred_fields.isEmpty = false := by
    cases hl : item.deferred_fields with
    | nil => rw [hl] at hmem; cases hmem
    | cons a l => rfl
  rw [hne]
  simp only [Bool.false_eq_true, if_false]
  exact phFold_mem _ _ fi r hmem hnull hfk

theorem applyPlaceholders_lookup_untouched (item : DeserializedObject)
    (f : String)
    (h : ∀ fr ∈ item.deferred_fields,
      (!fr.1.null && fr.1.isManyToOneRel) = true → fr.1.attname ≠ f) :
    (applyPlaceholders item).objVals.lookup f = item.objVals.lookup f := by
  unfold applyPlaceholders
  split
  · rfl
  · exact phFold_untouched _ _ _ h

theorem applyPlaceholders_getv (item : DeserializedObject) (f : String)
    (h : ∀ fr ∈ item.deferred_fields, fr.1.attname ≠ f) :
    getv (applyPlaceholders item).objVals f = getv item.objVals f := by
  unfold getv
  rw [applyPlaceholders_lookup_untouched item f (fun fr hm _ => h fr hm)]

theorem resolveVals_lookup_not_in (l : List (FieldInfo × Ref))
    (vals : List (String × Int)) (f : String)
    (h : ∀ fr ∈ l, fr.1.attname ≠ f) :
    (resolveVals l vals).lookup f = vals.lookup f := by
  induction l generalizing vals with
  | nil => rfl
  | cons g rest ih =>
    simp only [resolveVals, List.foldl_cons] at ih ⊢
    rw [ih _ (fun fr hm => h fr (List.mem_cons_of_mem _ hm))]
    exact lookup_setAssoc_ne _ _ _ _
      (fun hh => h g (List.mem_cons_self _ _) hh.symm)

theorem resolveVals_lookup_mem (l : List (FieldInfo × Ref))
    (vals : List (String × Int)) (fi : FieldInfo) (r : Ref)
    (hmem : (fi, r) ∈ l)
    (hnd : (l.map (fun fr => fr.1.attname)).Nodup) :
    (resolveVals l vals).lookup fi.attname = some (Int.ofNat r.targetPk) := by
  induction l generalizing vals with
  | nil => cases hmem
  | cons g rest ih =>
    simp only [List.map_cons, List.nodup_cons] at hnd
    rcases List.mem_cons.1 hmem with heq | hmem2
    · simp only [resolveVals, List.foldl_cons, ← heq]
      have hni : ∀ fr ∈ rest, fr.1.attname ≠ fi.attname := by
        intro fr hm hh
        rw [← heq] at hnd
        exact hnd.1 (hh ▸ List.mem_map_of_mem (fun fr => fr.1.attname) hm)
      rw [show ∀ v, (rest.foldl (fun vs fr =>
          setAssoc vs fr.1.attname (Int.ofNat fr.2.targetPk)) v)
          = resolveVals rest v from fun v => rfl]
      rw [resolveVals_lookup_not_in rest _ _ hni]
      exact lookup_setAssoc_self _ _ _
    · simp only [resolveVals, List.foldl_cons]
      exact ih _ hmem2 hnd.2

theorem resolveVals_getv_preserved (l : List (FieldInfo × Ref))
    (vals : List (String × Int)) (f : String)
    (h : ∀ fr ∈ l, fr.1.attname ≠ f) :
    getv (resolveVals l vals) f = getv vals f := by
  unfold getv
  rw [resolveVals_lookup_not_in l vals f h]

theorem resolveVals_eq_self (l : List (FieldInfo × Ref))
    (vals : List (String × Int))
    (h : ∀ fr ∈ l, vals.lookup fr.1.attname = some (Int.ofNat fr.2.targetPk)) :
    resolveVals l vals = vals := by
  induction l with
  | nil => rfl
  | cons g rest ih =>
    simp only [resolveVals, List.foldl_cons] at ih ⊢
    rw [setAssoc_lookup_eq _ _ _ (h g (List.mem_cons_self _ _))]
    exact ih (fun fr hm => h fr (List.mem_cons_of_mem _ hm))

/-! ## `save_deferred_fields` lemmas -/

theorem save_resolve_fold_ok (st : Store) (l : List (FieldInfo × Ref))
    (vals vals' : List (String × Int))
    (h : l.foldlM (fun vals fr =>
        match (st.table fr.2.targetKind).find? (fun r => r.pk == fr.2.targetPk) with
        | some trow => Except.ok (setAssoc vals fr.1.attname (Int.ofNat trow.pk))
        | none => Except.error (DbErr.integrityError .missingTarget)) vals
      = .ok vals') :
    vals' = resolveVals l vals := by
  induction l generalizing vals with
  | nil =>
    simp only [List.foldlM_nil, pure] at h
    obtain rfl : vals = vals' := by simpa [Except.pure] using h
    rfl
  | cons fr rest ih =>
    simp only [List.foldlM_cons] at h
    cases hfind : (st.table fr.2.targetKind).find?
        (fun r => r.pk == fr.2.targetPk) with
    | none => rw [hfind] at h; rw [exceptBind_error] at h; cases h
    | some trow =>
      rw [hfind] at h
      have hb : trow.pk = fr.2.targetPk := by
        have := List.find?_some hfind
        simpa using this
      rw [exceptBind_ok] at h
      have := ih _ h
      simpa [resolveVals, List.foldl_cons, hb] using this

theorem save_ok_spec {metas : String → ModelMeta} {faulty : List String}
    {st st' : Store} {obj obj' : DeserializedObject}
    (h : save_deferred_fields metas faulty st obj = .ok (st', obj')) :
    obj'.objVals = resolveVals obj.deferred_fields obj.objVals ∧
    obj'.kind = obj.kind ∧
    obj'.deferred_fields = obj.deferred_fields ∧
    ∃ p, obj'.pk = some p ∧ (⟨p, obj'.objVals⟩ : Row) ∈ st'.table obj.kind := by
  unfold save_deferred_fields at h
  split_ifs at h
  split at h
  · cases h
  · rename_i vals hfold
    have hv : vals = resolveVals obj.deferred_fields obj.objVals :=
      save_resolve_fold_ok st obj.deferred_fields obj.objVals vals hfold
    split at h
    · rename_i p hpk
      split at h
      · rename_i hex
        simp only [Except.ok.injEq, Prod.mk.injEq] at h
        obtain ⟨hst, hobj⟩ := h
        subst hst; subst hobj
        refine ⟨hv, rfl, rfl, p, hpk, ?_⟩
        rw [store_table_setTable_self]
        obtain ⟨r, hr, hrp⟩ := List.any_eq_true.1 hex
        refine List.mem_map.2 ⟨r, hr, ?_⟩
        simp only [hrp, if_true]
      · rename_i hex
        simp only [Except.ok.injEq, Prod.mk.injEq] at h
        obtain ⟨hst, hobj⟩ := h
        subst hst; subst hobj
        refine ⟨hv, rfl, rfl, p, hpk, ?_⟩
        rw [store_table_setTable_self]
        exact List.mem_append_right _ (List.mem_singleton.2 rfl)
    · rename_i hpk
      dsimp only at h
      split_ifs at h with hdup hcoll
      simp only [Except.ok.injEq, Prod.mk.injEq] at h
      obtain ⟨hst, hobj⟩ := h
      subst hst; subst hobj
      refine ⟨hv, rfl, rfl, _, rfl, ?_⟩
      rw [store_table_setTable_self]
      exact List.mem_append_right _ (List.mem_singleton.2 rfl)

/-! ## Claim C5 — placeholder substitution and resolution -/

/-- C5: before bulk insertion, every deferred field that is a non-nullable
foreign key is set to the placeholder sentinel key 0, while a deferred
field that is nullable (or not a foreign key) is left exactly as it was —
unset if it was unset; and after a successful resolution pass the record
holds the real referenced key — not the placeholder — and the store holds
a row with those resolved values. -/
theorem C5_placeholder_and_resolution :
    (∀ (item : DeserializedObject) (fi : FieldInfo) (r : Ref),
      (fi, r) ∈ item.deferred_fields → fi.null = false →
      fi.isManyToOneRel = true →
      (applyPlaceholders item).objVals.lookup fi.attname = some 0) ∧
    (∀ (item : DeserializedObject) (f : String),
      (∀ fr ∈ item.deferred_fields,
        (!fr.1.null && fr.1.isManyToOneRel) = true → fr.1.attname ≠ f) →
      (applyPlaceholders item).objVals.lookup f = item.objVals.lookup f) ∧
    (∀ (metas : String → ModelMeta) (faulty : List String) (st st' : Store)
        (obj obj' : DeserializedObject) (g : FieldInfo) (s : Ref),
      save_deferred_fields metas faulty st obj = .ok (st', obj') →
      (g, s) ∈ obj.deferred_fields →
      (obj.deferred_fields.map (fun fr => fr.1.attname)).Nodup →
      s.targetPk ≠ 0 →
      obj'.objVals.lookup g.attname = some (Int.ofNat s.targetPk) ∧
      obj'.objVals.lookup g.attname ≠ some 0 ∧
      ∃ p, (⟨p, obj'.objVals⟩ : Row) ∈ st'.table obj.kind) := by
  refine ⟨?_, ?_, ?_⟩
  · intro item fi r hmem hnull hfk
    exact applyPlaceholders_lookup_set item fi r hmem hnull hfk
  · intro item f hno
    exact applyPlaceholders_lookup_untouched item f hno
  · intro metas faulty st st' obj obj' g s hsave hmem hnd hpk
    obtain ⟨hvals, _, _, p, _, hrow⟩ := save_ok_spec hsave
    have hl : obj'.objVals.lookup g.attname = some (Int.ofNat s.targetPk) := by
      rw [hvals]
      exact resolveVals_lookup_mem _ _ g s hmem hnd
    refine ⟨hl, ?_, p, hrow⟩
    rw [hl]
    intro hc
    have h0 : Int.ofNat s.targetPk = 0 := Option.some.inj hc
    exact hpk (Int.ofNat_eq_zero.mp h0)

/-- Witness for `C5_placeholder_and_resolution`: `itemC5`'s non-nullable
`boss_id` is set to 0, its nullable `aide_id` stays unset, and saving
`objC5` against `stC5` leaves the real key 2 on `boss_id`. -/
theorem C5_placeholder_and_resolution_witness :
    (applyPlaceholders itemC5).objVals.lookup "boss_id" = some 0 ∧
    (applyPlaceholders itemC5).objVals.lookup "aide_id"
      = itemC5.objVals.lookup "aide_id" ∧
    ((save_deferred_fields metasEx [] stC5 objC5
        = .ok (stC5.setTable "k"
            [⟨1, [("name", 5), ("boss_id", 2)]⟩, ⟨2, [("name", 6)]⟩],
          { objC5 with objVals := [("name", 5), ("boss_id", 2)] })) ∧
      ([("name", 5), ("boss_id", 2)] : List (String × Int)).lookup "boss_id"
        = some 2) ∧
    (∀ obj' : DeserializedObject,
      save_deferred_fields metasEx [] stC5 objC5
          = .ok (stC5.setTable "k"
              [⟨1, [("name", 5), ("boss_id", 2)]⟩, ⟨2, [("name", 6)]⟩], obj') →
      obj'.objVals.lookup "boss_id" = some (Int.ofNat 2) ∧
      obj'.objVals.lookup "boss_id" ≠ some 0 ∧
      ∃ p, (⟨p, obj'.objVals⟩ : Row) ∈
        (stC5.setTable "k"
          [⟨1, [("name", 5), ("boss_id", 2)]⟩, ⟨2, [("name", 6)]⟩]).table "k") := by
  refine ⟨?_, ?_, ⟨by decide, by decide⟩, ?_⟩
  · exact C5_placeholder_and_resolution.1 itemC5 ⟨"boss_id", false, true⟩
      ⟨"k", 2⟩ (by decide) (by decide) (by decide)
  · exact C5_placeholder_and_resolution.2.1 itemC5 "aide_id" (by decide)
  · intro obj' hsave
    exact C5_placeholder_and_resolution.2.2 metasEx [] stC5 _ objC5 obj'
      ⟨"boss_id", false, true⟩ ⟨"k", 2⟩ hsave (by decide) (by decide) (by decide)

/-! ## Claim C6 — first-pass error policy -/

/-- C6, as stated, is false: saving `objC6`'s deferred fields fails with a
duplicate-row integrity error — a persistence failure that is not the
missing-target (self-reference) case — yet the first pass catches it and
queues the record rather than aborting the load. -/
theorem C6_counterexample :
    save_deferred_fields metasEx [] stC6 objC6
      = .error (.integrityError .duplicateRow) ∧
    Cause.duplicateRow ≠ Cause.missingTarget ∧
    firstPass metasEx [] stC6 [objC6] = .ok ⟨stC6, [objC6]⟩ := by decide

/-- C6 (amended): the first pass discriminates by error class, not cause: a
persistence failure raised as an integrity error — whether the
self-reference case or another cause such as a duplicate-row collision —
is caught and the record appended to the second-pass queue with the store
unchanged; a persistence failure of any other class propagates and aborts
the load. -/
theorem C6_first_pass_error_policy (metas : String → ModelMeta)
    (faulty : List String) (st : Store) (obj : DeserializedObject)
    (e : DbErr) (h : save_deferred_fields metas faulty st obj = .error e) :
    (e.isIntegrityError = true →
      firstPass metas faulty st [obj] = .ok ⟨st, [obj]⟩) ∧
    (e.isIntegrityError = false →
      firstPass metas faulty st [obj] = .error e) := by
  constructor <;> intro hi <;>
    simp [firstPass, List.foldlM, h, hi]

/-- Witness for `C6_first_pass_error_policy`: the duplicate-row integrity
error is queued; a store-level (non-integrity) failure aborts. -/
theorem C6_first_pass_error_policy_witness :
    firstPass metasEx [] stC6 [objC6] = .ok ⟨stC6, [objC6]⟩ ∧
    firstPass metasEx ["k"] stC6 [objC6] = .error .storeError :=
  ⟨(C6_first_pass_error_policy metasEx [] stC6 objC6
      (.integrityError .duplicateRow) (by decide)).1 (by decide),
   (C6_first_pass_error_policy metasEx ["k"] stC6 objC6
      .storeError (by decide)).2 (by decide)⟩

/-! ## Claim C7 — the post-commit self-reference pass -/

/-- C7: the self-reference pass runs only when the first pass queued
entries (an empty queue leaves the committed store untouched); it executes
against the already-committed store in its own follow-up transaction, so a
failure surfaces the error while the committed store stands; it re-locates
each owning row afresh by the kind's filter fields valued from the record
and, on the freshly fetched row (its key and its current values), saves
every deferred field again, the record ending with every deferred field
resolved; a record whose row cannot be re-located or whose save still
fails makes this pass fail with that error, again without rolling back the
committed store. -/
theorem C7_second_pass_policy :
    (∀ (metas : String → ModelMeta) (faulty : List String) (committed : Store),
      secondPhase metas faulty committed [] = ⟨committed, none⟩) ∧
    (∀ (metas : String → ModelMeta) (faulty : List String) (committed : Store)
        (queue : List DeserializedObject) (e : DbErr),
      queue ≠ [] → secondPass metas faulty committed queue = .error e →
      secondPhase metas faulty committed queue = ⟨committed, some e⟩) ∧
    (∀ (metas : String → ModelMeta) (faulty : List String) (committed : Store)
        (obj : DeserializedObject) (e : DbErr),
      objectsGet (committed.table obj.kind)
          ((fieldsToFilter (metas obj.kind)).map
            (fun f => (f, getv obj.objVals f))) = .error e →
      secondPhase metas faulty committed [obj] = ⟨committed, some e⟩) ∧
    (∀ (metas : String → ModelMeta) (faulty : List String) (committed : Store)
        (obj : DeserializedObject) (row : Row)
        (r2 : Store × DeserializedObject),
      objectsGet (committed.table obj.kind)
          ((fieldsToFilter (metas obj.kind)).map
            (fun f => (f, getv obj.objVals f))) = .ok row →
      save_deferred_fields metas faulty committed
          { obj with pk := some row.pk, objVals := row.vals } = .ok r2 →
      secondPhase metas faulty committed [obj] = ⟨r2.1, none⟩ ∧
      r2.2.objVals = resolveVals obj.deferred_fields row.vals) := by
  refine ⟨?_, ?_, ?_, ?_⟩
  · intro metas faulty committed
    rfl
  · intro metas faulty committed queue e hq herr
    unfold secondPhase
    rw [if_neg (by simpa using hq), herr]
  · intro metas faulty committed obj e hget
    unfold secondPhase
    rw [if_neg (by simp)]
    simp only [secondPass, List.foldlM_cons, hget, exceptBind_error,
      List.foldlM_nil]
  · intro metas faulty committed obj row r2 hget hsave
    constructor
    · unfold secondPhase
      rw [if_neg (by simp)]
      simp only [secondPass, List.foldlM_cons, hget, hsave, exceptBind_ok,
        List.foldlM_nil]
      rfl
    · have := (save_ok_spec hsave).1
      simpa using this

/-- Witness for `C7_second_pass_policy`: the empty queue is a no-op; a
queued record re-locates to its row and resolves; an unmatchable record
fails the pass while the committed store stands. -/
theorem C7_second_pass_policy_witness :
    secondPhase metasEx [] stC6 [] = ⟨stC6, none⟩ ∧
    (secondPhase metasEx [] stC6 [objC6]
        = ⟨stC6.setTable "k" [⟨1, [("name", 5), ("boss_id", 1)]⟩], none⟩ ∧
      (⟨"k", some 1, [("name", 5), ("boss_id", 1)],
          [(⟨"boss_id", false, true⟩, ⟨"k", 1⟩)], []⟩
        : DeserializedObject).objVals
        = resolveVals objC6.deferred_fields
            [("name", 5), ("boss_id", 0)]) ∧
    secondPhase metasEx [] stC6 [objC7bad] = ⟨stC6, some .doesNotExist⟩ :=
  ⟨C7_second_pass_policy.1 metasEx [] stC6,
   C7_second_pass_policy.2.2.2 metasEx [] stC6 objC6
     ⟨1, [("name", 5), ("boss_id", 0)]⟩
     (stC6.setTable "k" [⟨1, [("name", 5), ("boss_id", 1)]⟩],
      ⟨"k", some 1, [("name", 5), ("boss_id", 1)],
        [(⟨"boss_id", false, true⟩, ⟨"k", 1⟩)], []⟩)
     (by decide) (by decide),
   C7_second_pass_policy.2.2.1 metasEx [] stC6 objC7bad .doesNotExist
     (by decide)⟩

/-! ## Key-matching and `rowsWith` lemmas -/

theorem matchKey_aux (F : List String) (vals w : List (String × Int)) :
    ((F.map (fun f => (f, getv vals f))).all
        (fun fv => getv w fv.1 == fv.2)) = true ↔
    F.map (getv w) = F.map (getv vals) := by
  induction F with
  | nil => simp
  | cons f F ih =>
    simp only [List.map_cons, List.all_cons, Bool.and_eq_true, beq_iff_eq,
      List.cons.injEq, ih]

theorem matchesFilter_iff (meta : ModelMeta) (vals : List (String × Int))
    (row : Row) :
    matchesFilter ((fieldsToFilter meta).map (fun f => (f, getv vals f))) row
        = true ↔
    keyVals meta row.vals = keyVals meta vals := by
  unfold matchesFilter keyVals
  exact matchKey_aux (fieldsToFilter meta) vals row.vals

theorem keyVals_resolveVals (meta : ModelMeta) (l : List (FieldInfo × Ref))
    (vals : List (String × Int))
    (h : ∀ fr ∈ l, fr.1.attname ∉ fieldsToFilter meta) :
    keyVals meta (resolveVals l vals) = keyVals meta vals := by
  unfold keyVals
  rw [List.map_eq_map_iff]
  intro f hf
  exact resolveVals_getv_preserved l vals f (fun fr hm hh => h fr hm (hh ▸ hf))

theorem keyVals_applyPlaceholders (meta : ModelMeta)
    (item : DeserializedObject)
    (h : ∀ fr ∈ item.deferred_fields, fr.1.attname ∉ fieldsToFilter meta) :
    keyVals meta (applyPlaceholders item).objVals = keyVals meta item.objVals := by
  unfold keyVals
  rw [List.map_eq_map_iff]
  intro f hf
  exact applyPlaceholders_getv item f (fun fr hm hh => h fr hm (hh ▸ hf))

theorem applyPlaceholders_of_empty (item : DeserializedObject)
    (h : item.deferred_fields.isEmpty = true) :
    applyPlaceholders item = item := by
  unfold applyPlaceholders
  rw [if_pos h]

theorem rowsWith_congr (v v' : DeserializedObject → List (String × Int))
    (u : Nat) (l : List DeserializedObject) (h : ∀ x ∈ l, v x = v' x) :
    rowsWith v u l = rowsWith v' u l := by
  induction l generalizing u with
  | nil => rfl
  | cons x rest ih =>
    simp only [rowsWith]
    rw [h x (List.mem_cons_self _ _),
      ih _ (fun y hy => h y (List.mem_cons_of_mem _ hy))]

theorem rowsWith_pk_ge (v : DeserializedObject → List (String × Int))
    (u : Nat) (l : List DeserializedObject) :
    ∀ r ∈ rowsWith v u l, u ≤ r.pk := by
  induction l generalizing u with
  | nil => intro r hr; cases hr
  | cons x rest ih =>
    intro r hr
    rcases List.mem_cons.1 hr with rfl | hr2
    · exact Nat.le_refl _
    · exact Nat.le_of_succ_le (ih (u + 1) r hr2)

theorem rowsWith_mem_shape (v : DeserializedObject → List (String × Int))
    (u : Nat) (l : List DeserializedObject) :
    ∀ r ∈ rowsWith v u l, ∃ y ∈ l, ∃ z : Nat, r = ⟨z, v y⟩ := by
  induction l generalizing u with
  | nil => intro r hr; cases hr
  | cons x rest ih =>
    intro r hr
    rcases List.mem_cons.1 hr with rfl | hr2
    · exact ⟨x, List.mem_cons_self _ _, u, rfl⟩
    · obtain ⟨y, hy, z, rfl⟩ := ih (u + 1) r hr2
      exact ⟨y, List.mem_cons_of_mem _ hy, z, rfl⟩

theorem rowsWith_mem_pk (v : DeserializedObject → List (String × Int))
    (u : Nat) (l : List DeserializedObject) (p : Nat)
    (h1 : u ≤ p) (h2 : p < u + l.length) :
    ∃ r ∈ rowsWith v u l, r.pk = p := by
  induction l generalizing u with
  | nil => simp at h2; omega
  | cons x rest ih =>
    rcases Nat.eq_or_lt_of_le h1 with rfl | hlt
    · exact ⟨⟨u, v x⟩, List.mem_cons_self _ _, rfl⟩
    · obtain ⟨r, hr, hp⟩ := ih (u + 1) hlt (by simp at h2 ⊢; omega)
      exact ⟨r, List.mem_cons_of_mem _ hr, hp⟩

theorem rowsWith_append (v : DeserializedObject → List (String × Int))
    (u : Nat) (l1 l2 : List DeserializedObject) :
    rowsWith v u (l1 ++ l2)
      = rowsWith v u l1 ++ rowsWith v (u + l1.length) l2 := by
  induction l1 generalizing u with
  | nil => simp [rowsWith]
  | cons x rest ih =>
    simp only [List.cons_append, rowsWith, List.length_cons, List.append_eq,
      ih (u + 1)]
    have harith : u + 1 + rest.length = u + (rest.length + 1) := by omega
    rw [harith]

theorem map_id_of_mem {α : Type} (l : List α) (f : α → α)
    (h : ∀ x ∈ l, f x = x) : l.map f = l := by
  induction l with
  | nil => rfl
  | cons x rest ih =>
    simp only [List.map_cons, h x (List.mem_cons_self _ _),
      ih (fun y hy => h y (List.mem_cons_of_mem _ hy))]

/-- Locating one record's row among a block of consecutively keyed rows:
when the filter singles out exactly the record `o` among `l`, the filtered
rows are exactly `o`'s row, that key is unique in the block, and patching
the row at that key rewrites the block pointwise at `o`. -/
theorem rowsWith_locate (v : DeserializedObject → List (String × Int))
    (l : List DeserializedObject) (o : DeserializedObject)
    (pred : Row → Bool) (w : List (String × Int))
    (hsel : ∀ x ∈ l, ∀ z : Nat, (pred ⟨z, v x⟩ = true ↔ x = o))
    (ho : o ∈ l) (hnd : l.Nodup) :
    ∀ u : Nat, ∃ p, (rowsWith v u l).filter pred = [⟨p, v o⟩] ∧
      (∀ r ∈ rowsWith v u l, r.pk = p → r = ⟨p, v o⟩) ∧
      ((rowsWith v u l).map (fun r => if r.pk == p then (⟨p, w⟩ : Row) else r)
        = rowsWith (fun x => if x = o then w else v x) u l) ∧
      p = u + l.indexOf o := by
  induction l with
  | nil => cases ho
  | cons x rest ih =>
    intro u
    have hnd2 := List.nodup_cons.1 hnd
    rcases List.mem_cons.1 ho with rfl | ho2
    · refine ⟨u, ?_, ?_, ?_, by simp [List.indexOf_cons_self]⟩
      · simp only [rowsWith, List.filter_cons]
        rw [if_pos ((hsel o (List.mem_cons_self _ _) u).2 rfl)]
        rw [List.filter_eq_nil_iff.2]
        intro r hr
        obtain ⟨y, hy, z, rfl⟩ := rowsWith_mem_shape v (u + 1) rest r hr
        intro hc
        exact hnd2.1 (((hsel y (List.mem_cons_of_mem _ hy) z).1 hc) ▸ hy)
      · intro r hr hp
        rcases List.mem_cons.1 hr with rfl | hr2
        · rfl
        · have := rowsWith_pk_ge v (u + 1) rest r hr2
          omega
      · simp only [rowsWith, List.map_cons, beq_self_eq_true, if_true,
          if_pos rfl]
        congr 1
        rw [map_id_of_mem _ _ ?hid, rowsWith_congr v _ (u + 1) rest ?hcg]
        case hcg =>
          intro y hy
          have hne : y ≠ o := fun hc => hnd2.1 (hc ▸ hy)
          rw [if_neg hne]
        case hid =>
          intro r hr
          have := rowsWith_pk_ge v (u + 1) rest r hr
          have hne : (r.pk == u) = false := by
            rw [beq_eq_false_iff_ne]
            omega
          rw [hne]
          simp
    · have hxo : x ≠ o := fun hc => hnd2.1 (hc ▸ ho2)
      have hsel2 : ∀ y ∈ rest, ∀ z : Nat, (pred ⟨z, v y⟩ = true ↔ y = o) :=
        fun y hy => hsel y (List.mem_cons_of_mem _ hy)
      obtain ⟨p, hfil, huniq, hmap, hidx⟩ :=
        ih hsel2 ho2 hnd2.2 (u + 1)
      have hpge : u + 1 ≤ p := by
        have hm : (⟨p, v o⟩ : Row) ∈ rowsWith v (u + 1) rest := by
          refine @List.mem_of_mem_filter _ pred _ _ ?_
          rw [hfil]
          exact List.mem_singleton.2 rfl
        exact rowsWith_pk_ge v (u + 1) rest _ hm
      refine ⟨p, ?_, ?_, ?_, ?_⟩
      · simp only [rowsWith, List.filter_cons]
        have hpf : pred ⟨u, v x⟩ = false := by
          rw [Bool.eq_false_iff]
          intro hc
          exact hxo ((hsel x (List.mem_cons_self _ _) u).1 hc)
        rw [hpf]
        simpa using hfil
      · intro r hr hp
        rcases List.mem_cons.1 hr with rfl | hr2
        · exfalso
          simp only [] at hp
          omega
        · exact huniq r hr2 hp
      · simp only [rowsWith, List.map_cons]
        have hne : (u == p) = false := by
          rw [beq_eq_false_iff_ne]; omega
        rw [hne]
        simp only [Bool.false_eq_true, if_false, hmap, if_neg hxo]
      · rw [List.indexOf_cons_ne _ hxo]
        omega

/-! ## Grouping lemmas -/

theorem itemsOf_append (l1 l2 : List DeserializedObject) (k : String) :
    itemsOf (l1 ++ l2) k = itemsOf l1 k ++ itemsOf l2 k := by
  unfold itemsOf
  exact List.filter_append _ _

theorem groupFold_spec :
    ∀ (rest processed : List DeserializedObject)
      (acc : List (String × List DeserializedObject)),
    (acc.map (fun g => g.1)).Nodup →
    (∀ g ∈ acc, g.2 = itemsOf processed g.1) →
    (∀ r ∈ processed, ∃ g ∈ acc, g.1 = r.kind) →
    ((rest.foldl (fun acc item =>
        if acc.any (fun g => g.1 == item.kind) then
          acc.map (fun g => if g.1 == item.kind then (g.1, g.2 ++ [item]) else g)
        else acc ++ [(item.kind, [item])]) acc).map (fun g => g.1)).Nodup ∧
    (∀ g ∈ rest.foldl (fun acc item =>
        if acc.any (fun g => g.1 == item.kind) then
          acc.map (fun g => if g.1 == item.kind then (g.1, g.2 ++ [item]) else g)
        else acc ++ [(item.kind, [item])]) acc,
      g.2 = itemsOf (processed ++ rest) g.1) ∧
    (∀ r ∈ processed ++ rest, ∃ g ∈ rest.foldl (fun acc item =>
        if acc.any (fun g => g.1 == item.kind) then
          acc.map (fun g => if g.1 == item.kind then (g.1, g.2 ++ [item]) else g)
        else acc ++ [(item.kind, [item])]) acc, g.1 = r.kind) := by
  intro rest
  induction rest with
  | nil =>
    intro processed acc h1 h2 h3
    simp only [List.foldl_nil, List.append_nil]
    exact ⟨h1, h2, h3⟩
  | cons item rest ih =>
    intro processed acc h1 h2 h3
    simp only [List.foldl_cons]
    by_cases hany : acc.any (fun g => g.1 == item.kind) = true
    · rw [if_pos hany]
      have step := ih (processed ++ [item])
        (acc.map (fun g => if g.1 == item.kind then (g.1, g.2 ++ [item]) else g))
        ?k1 ?k2 ?k3
      case k1 =>
        have hkeys : (acc.map (fun g =>
            if g.1 == item.kind then (g.1, g.2 ++ [item]) else g)).map
              (fun g => g.1) = acc.map (fun g => g.1) := by
          rw [List.map_map, List.map_eq_map_iff]
          intro g hg
          by_cases hgk : (g.1 == item.kind) = true <;>
            simp [Function.comp, hgk]
        rw [hkeys]
        exact h1
      case k2 =>
        intro g' hg'
        obtain ⟨g, hg, rfl⟩ := List.mem_map.1 hg'
        rw [itemsOf_append]
        by_cases hgk : (g.1 == item.kind) = true
        · have hk : item.kind = g.1 := (beq_iff_eq.1 hgk).symm
          simp only [hgk, if_true]
          have hone : itemsOf [item] g.1 = [item] := by
            unfold itemsOf
            simp [List.filter_cons, beq_iff_eq.2 hk]
          rw [hone, h2 g hg]
        · simp only [hgk, Bool.false_eq_true, if_false]
          have hnone : itemsOf [item] g.1 = [] := by
            unfold itemsOf
            have hne : g.1 ≠ item.kind := by simpa using hgk
            have hb : (item.kind == g.1) = false :=
              beq_eq_false_iff_ne.mpr (Ne.symm hne)
            simp [List.filter_cons, hb]
          rw [hnone, List.append_nil, h2 g hg]
      case k3 =>
        intro r hr
        rcases List.mem_append.1 hr with hr1 | hr2
        · obtain ⟨g, hg, hgk⟩ := h3 r hr1
          refine ⟨if g.1 == item.kind then (g.1, g.2 ++ [item]) else g,
            List.mem_map_of_mem _ hg, ?_⟩
          rcases Bool.eq_false_or_eq_true (g.1 == item.kind) with hb | hb <;>
            simp only [hb, Bool.false_eq_true, if_false, if_true] <;> exact hgk
        · have hre : r = item := List.mem_singleton.1 hr2
          rw [hre]
          obtain ⟨g, hg, hgk⟩ := List.any_eq_true.1 hany
          refine ⟨if g.1 == item.kind then (g.1, g.2 ++ [item]) else g,
            List.mem_map_of_mem _ hg, ?_⟩
          simp only [hgk, if_true]
          exact beq_iff_eq.1 hgk
      have harr : processed ++ [item] ++ rest = processed ++ item :: rest := by
        simp
      rw [harr] at step
      exact step
    · rw [if_neg hany]
      have hnotin : ∀ g ∈ acc, (g.1 == item.kind) = false := by
        intro g hg
        rw [Bool.eq_false_iff]
        intro hc
        exact hany (List.any_eq_true.2 ⟨g, hg, hc⟩)
      have step := ih (processed ++ [item]) (acc ++ [(item.kind, [item])])
        ?n1 ?n2 ?n3
      case n1 =>
        rw [List.map_append]
        rw [List.nodup_append]
        refine ⟨h1, by simp, ?_⟩
        intro a ha
        obtain ⟨g, hg, rfl⟩ := List.mem_map.1 ha
        simp only [List.map_cons, List.map_nil, List.mem_singleton]
        intro hc
        have := hnotin g hg
        rw [hc] at this
        simp at this
      case n2 =>
        intro g hg
        rcases List.mem_append.1 hg with hg1 | hg2
        · rw [itemsOf_append]
          have hnone : itemsOf [item] g.1 = [] := by
            unfold itemsOf
            have : (item.kind == g.1) = false := by
              rw [beq_eq_false_iff_ne]
              intro hc
              have := hnotin g hg1
              rw [← hc] at this
              simp at this
            simp [List.filter_cons, this]
          rw [hnone, List.append_nil, h2 g hg1]
        · obtain rfl : g = (item.kind, [item]) := List.mem_singleton.1 hg2
          rw [itemsOf_append]
          have hnonep : itemsOf processed item.kind = [] := by
            unfold itemsOf
            rw [List.filter_eq_nil_iff]
            intro r hr hc
            obtain ⟨g', hg', hgk⟩ := h3 r hr
            have := hnotin g' hg'
            rw [hgk, beq_iff_eq.1 hc] at this
            simp at this
          have hone : itemsOf [item] item.kind = [item] := by
            unfold itemsOf
            simp [List.filter_cons]
          simp only
          rw [hnonep, hone, List.nil_append]
      case n3 =>
        intro r hr
        rcases List.mem_append.1 hr with hr1 | hr2
        · obtain ⟨g, hg, hgk⟩ := h3 r hr1
          exact ⟨g, List.mem_append_left _ hg, hgk⟩
        · have hre : r = item := List.mem_singleton.1 hr2
          rw [hre]
          exact ⟨(item.kind, [item]),
            List.mem_append_right _ (List.mem_singleton.2 rfl), rfl⟩
      have harr : processed ++ [item] ++ rest = processed ++ item :: rest := by
        simp
      rw [harr] at step
      exact step

theorem groupByClass_spec (items : List DeserializedObject) :
    ((groupByClass items).map (fun g => g.1)).Nodup ∧
    (∀ g ∈ groupByClass items, g.2 = itemsOf items g.1) ∧
    (∀ r ∈ items, ∃ g ∈ groupByClass items, g.1 = r.kind) := by
  have := groupFold_spec items [] [] (by simp) (by simp) (by simp)
  simpa [groupByClass] using this

/-! ## Bulk-insert lemmas -/

theorem nextval_fst (s : PgSeq) : s.nextval.1 = s.upcoming := by
  cases h : s.is_called <;> simp [PgSeq.nextval, PgSeq.upcoming, h]

theorem nextval_snd_upcoming (s : PgSeq) : s.nextval.2.upcoming = s.upcoming + 1 := by
  cases h : s.is_called <;> simp [PgSeq.nextval, PgSeq.upcoming, h]

theorem nextval_snd (s : PgSeq) : s.nextval.2 = ⟨s.upcoming, true⟩ := by
  cases h : s.is_called <;> simp [PgSeq.nextval, PgSeq.upcoming, h]

theorem lookup_setAssoc_isSome {α β : Type} [BEq α] [LawfulBEq α] [DecidableEq α]
    (l : List (α × β)) (k k' : α) (v : β)
    (h : (l.lookup k').isSome = true) :
    ((setAssoc l k v).lookup k').isSome = true := by
  by_cases hk : k' = k
  · rw [hk, lookup_setAssoc_self]; rfl
  · rw [lookup_setAssoc_ne _ _ _ _ hk]; exact h

theorem setAssoc_map_fst {α β : Type} [BEq α] [LawfulBEq α]
    (l : List (α × β)) (k : α) (v : β)
    (h : (l.lookup k).isSome = true) :
    (setAssoc l k v).map Prod.fst = l.map Prod.fst := by
  induction l with
  | nil => simp [List.lookup] at h
  | cons p t ih =>
    cases hp : p.1 == k with
    | true =>
      have hpe : p.1 = k := eq_of_beq hp
      simp [setAssoc, hp, List.map_cons, hpe]
    | false =>
      have hne : p.1 ≠ k := beq_eq_false_iff_ne.mp hp
      have hk : (k == p.1) = false := beq_eq_false_iff_ne.mpr (Ne.symm hne)
      simp only [List.lookup, hk, cond_false] at h
      simp only [setAssoc, hp, Bool.false_eq_true, if_false, List.map_cons,
        ih h]

theorem lookup_isSome_iff {α β : Type} [BEq α] [LawfulBEq α]
    (l : List (α × β)) (k : α) :
    (l.lookup k).isSome = true ↔ k ∈ l.map Prod.fst := by
  induction l with
  | nil => simp [List.lookup]
  | cons p t ih =>
    cases hk : k == p.1 with
    | true =>
      have : k = p.1 := eq_of_beq hk
      simp [List.lookup, hk, this]
    | false =>
      have hne : k ≠ p.1 := beq_eq_false_iff_ne.mp hk
      simp [List.lookup, hk, ih, hne]

theorem rowsWith_map_aP (u : Nat) (l : List DeserializedObject) :
    rowsWith (fun o => o.objVals) u (l.map applyPlaceholders)
      = rowsWith (fun o => (applyPlaceholders o).objVals) u l := by
  induction l generalizing u with
  | nil => rfl
  | cons x rest ih => simp only [List.map_cons, rowsWith, ih (u + 1)]

theorem itemsOf_ne_nil (items : List DeserializedObject)
    (x : DeserializedObject) (hx : x ∈ items) : itemsOf items x.kind ≠ [] := by
  unfold itemsOf
  intro hc
  rw [List.filter_eq_nil_iff] at hc
  exact hc x hx (by simp)

theorem mem_itemsOf (items : List DeserializedObject)
    (x : DeserializedObject) (k : String) :
    x ∈ itemsOf items k ↔ x ∈ items ∧ x.kind = k := by
  unfold itemsOf
  rw [List.mem_filter]
  simp

theorem bulk_create_skip (meta : ModelMeta) (k : String) :
    ∀ (objs : List DeserializedObject) (st : Store),
    (∀ o ∈ objs, conflicts meta (st.table k) o.pk o.objVals = true) →
    bulk_create meta k st objs = st := by
  intro objs
  induction objs with
  | nil => intro st _; rfl
  | cons o rest ih =>
    intro st h
    have hstep : bulk_create meta k st (o :: rest) = bulk_create meta k st rest := by
      unfold bulk_create
      simp only [List.foldl_cons, h o (List.mem_cons_self _ _), if_true]
    rw [hstep]
    exact ih st (fun o' ho' => h o' (List.mem_cons_of_mem _ ho'))

theorem bulk_create_go (meta : ModelMeta) (k : String) :
    ∀ (objs : List DeserializedObject) (st : Store),
    (∀ o ∈ objs, o.pk = none) →
    (∀ o ∈ objs, ∀ row ∈ st.table k,
      keyVals meta row.vals ≠ keyVals meta o.objVals) →
    objs.Pairwise (fun o o' =>
      keyVals meta o.objVals ≠ keyVals meta o'.objVals) →
    (∀ row ∈ st.table k, row.pk < (st.seq (k ++ "_id_seq")).upcoming) →
    (bulk_create meta k st objs).table k
      = st.table k
        ++ rowsWith (fun o => o.objVals) ((st.seq (k ++ "_id_seq")).upcoming) objs ∧
    (∀ k', k' ≠ k → (bulk_create meta k st objs).table k' = st.table k') ∧
    (∀ k', ((st.tables.lookup k').isSome = true) →
      (((bulk_create meta k st objs).tables.lookup k').isSome = true)) ∧
    (objs ≠ [] → (((bulk_create meta k st objs).tables.lookup k).isSome = true)) ∧
    (bulk_create meta k st objs).m2m = st.m2m ∧
    (∀ n, n ≠ k ++ "_id_seq" →
      (bulk_create meta k st objs).seqs.lookup n = st.seqs.lookup n) ∧
    (objs ≠ [] → (bulk_create meta k st objs).seqs.lookup (k ++ "_id_seq")
      = some ⟨(st.seq (k ++ "_id_seq")).upcoming + (objs.length - 1), true⟩) ∧
    ((st.tables.lookup k).isSome = true →
      (bulk_create meta k st objs).tables.map (fun e => e.1)
        = st.tables.map (fun e => e.1)) ∧
    (∀ k', k' ≠ k →
      (bulk_create meta k st objs).tables.lookup k' = st.tables.lookup k') := by
  intro objs
  induction objs with
  | nil =>
    intro st _ _ _ _
    exact ⟨by simp [bulk_create, rowsWith], fun k' _ => rfl, fun k' h => h,
      fun h => absurd rfl h, rfl, fun n _ => rfl,
      fun h => absurd rfl h, fun _ => rfl, fun k' _ => rfl⟩
  | cons o rest ih =>
    intro st hpk hnom hpair hlt
    have hnoconf : conflicts meta (st.table k) o.pk o.objVals = false := by
      unfold conflicts
      rw [hpk o (List.mem_cons_self _ _)]
      simp only [Bool.or_eq_false_iff, Bool.and_eq_false_iff]
      refine ⟨trivial, Or.inr ?_⟩
      rw [List.any_eq_false]
      intro row hrow
      rw [Bool.not_eq_true, Bool.eq_false_iff]
      intro hc
      exact hnom o (List.mem_cons_self _ _) row hrow
        ((matchesFilter_iff meta o.objVals row).1 hc)
    have hnopk : (st.table k).any
        (fun r => r.pk == (st.seq (k ++ "_id_seq")).nextval.1) = false := by
      rw [List.any_eq_false]
      intro row hrow
      rw [Bool.not_eq_true, beq_eq_false_iff_ne]
      have := hlt row hrow
      rw [nextval_fst]
      omega
    have hstep : bulk_create meta k st (o :: rest)
        = bulk_create meta k
            ((st.setSeq (k ++ "_id_seq") (st.seq (k ++ "_id_seq")).nextval.2).setTable k
              (st.table k ++ [⟨(st.seq (k ++ "_id_seq")).nextval.1, o.objVals⟩]))
            rest := by
      rw [hpk o (List.mem_cons_self _ _)] at hnoconf
      unfold bulk_create
      simp only [List.foldl_cons, hpk o (List.mem_cons_self _ _), hnoconf,
        Bool.false_eq_true, if_false, hnopk]
    set u := (st.seq (k ++ "_id_seq")).upcoming with hu
    set st1 := (st.setSeq (k ++ "_id_seq") (st.seq (k ++ "_id_seq")).nextval.2).setTable k
      (st.table k ++ [⟨(st.seq (k ++ "_id_seq")).nextval.1, o.objVals⟩]) with hst1
    have htab1 : st1.table k = st.table k ++ [⟨u, o.objVals⟩] := by
      rw [hst1, store_table_setTable_self, hu, nextval_fst]
    have hseq1 : st1.seq (k ++ "_id_seq") = (st.seq (k ++ "_id_seq")).nextval.2 := by
      rw [hst1]
      show ((st.setSeq (k ++ "_id_seq") _).seqs.lookup (k ++ "_id_seq")).getD _ = _
      rw [Store.setSeq]
      simp only [lookup_setAssoc_self, Option.getD_some]
    have hrec := ih st1
      (fun o' ho' => hpk o' (List.mem_cons_of_mem _ ho'))
      ?hm ((List.pairwise_cons.1 hpair).2) ?hl
    case hm =>
      intro o' ho' row hrow
      rw [htab1] at hrow
      rcases List.mem_append.1 hrow with hr1 | hr2
      · exact hnom o' (List.mem_cons_of_mem _ ho') row hr1
      · have hre : row = ⟨u, o.objVals⟩ := List.mem_singleton.1 hr2
        rw [hre]
        exact (List.pairwise_cons.1 hpair).1 o' ho'
    case hl =>
      intro row hrow
      rw [htab1] at hrow
      rw [hseq1, nextval_snd_upcoming, ← hu]
      rcases List.mem_append.1 hrow with hr1 | hr2
      · have := hlt row hr1
        omega
      · have hre : row = ⟨u, o.objVals⟩ := List.mem_singleton.1 hr2
        have hpkeq : row.pk = u := by rw [hre]
        omega
    obtain ⟨t1, t2, t3, t4, t5, t6, t7, t9, t10⟩ := hrec
    rw [hseq1, nextval_snd_upcoming, ← hu] at t1
    refine ⟨?_, ?_, ?_, ?_, ?_, ?_, ?_, ?_, ?_⟩
    · rw [hstep, t1, htab1, List.append_assoc]
      simp only [rowsWith, List.singleton_append]
    · intro k' hk'
      rw [hstep, t2 k' hk', hst1]
      rw [store_table_setTable_ne _ _ _ _ hk']
      rfl
    · intro k' hsome
      rw [hstep]
      apply t3
      rw [hst1]
      show ((setAssoc _ k _).lookup k').isSome = true
      exact lookup_setAssoc_isSome _ _ _ _ hsome
    · intro _
      rw [hstep]
      by_cases hrest : rest = []
      · subst hrest
        show ((setAssoc _ k _).lookup k).isSome = true
        rw [lookup_setAssoc_self]
        rfl
      · apply t3
        rw [hst1]
        show ((setAssoc _ k _).lookup k).isSome = true
        rw [lookup_setAssoc_self]
        rfl
    · rw [hstep, t5, hst1]
      rfl
    · intro n hn
      rw [hstep, t6 n hn, hst1]
      show (setAssoc st.seqs (k ++ "_id_seq") _).lookup n = _
      rw [lookup_setAssoc_ne _ _ _ _ hn]
    · intro _
      rw [hstep]
      by_cases hrest : rest = []
      · subst hrest
        show st1.seqs.lookup (k ++ "_id_seq") = _
        rw [hst1]
        show (setAssoc st.seqs (k ++ "_id_seq") _).lookup (k ++ "_id_seq") = _
        rw [lookup_setAssoc_self, nextval_snd]
        rw [← hu]
        norm_num
      · rw [t7 hrest, hseq1, nextval_snd_upcoming]
        have hlen : 0 < rest.length := List.length_pos.mpr hrest
        have hAB : (st.seq (k ++ "_id_seq")).upcoming + 1 + (rest.length - 1)
            = u + ((o :: rest).length - 1) := by
          simp only [List.length_cons, hu]
          omega
        rw [hAB]
    · intro hsome
      rw [hstep]
      have hsome1 : (st1.tables.lookup k).isSome = true := by
        rw [hst1]
        show ((setAssoc _ k _).lookup k).isSome = true
        rw [lookup_setAssoc_self]
        rfl
      rw [t9 hsome1, hst1]
      show (setAssoc st.tables k _).map _ = _
      exact setAssoc_map_fst _ _ _ hsome
    · intro k' hk'
      rw [hstep, t10 k' hk', hst1]
      show (setAssoc st.tables k _).lookup k' = _
      exact lookup_setAssoc_ne _ _ _ _ hk'

/-! ## Fixture-level fold lemmas -/

theorem bulk_create_nil (meta : ModelMeta) (k : String) (st : Store) :
    bulk_create meta k st [] = st := rfl

theorem bulkFold_store (metas : String → ModelMeta) :
    ∀ (gs : List (String × List DeserializedObject)) (acc : FixtureOutcome),
    (gs.foldl (fixtureStep metas) acc).store
      = gs.foldl (fun st g =>
          bulk_create (metas g.1) g.1 st (g.2.map applyPlaceholders)) acc.store := by
  intro gs
  induction gs with
  | nil => intro _; rfl
  | cons g rest ih =>
    intro acc
    simp only [List.foldl_cons]
    rw [ih (fixtureStep metas acc g)]
    rfl

theorem bulkCreate_foldl (metas : String → ModelMeta) (st : Store)
    (items : List DeserializedObject) :
    bulkCreateFromFixture metas st items
      = (groupByClass items).foldl (fixtureStep metas) ⟨st, [], 0, none⟩ := rfl

theorem fixtureFold_nonstore (metas : String → ModelMeta) :
    ∀ (gs : List (String × List DeserializedObject)) (acc : FixtureOutcome),
    ((gs.foldl (fixtureStep metas) acc).objs_with_deferred_fields
      = acc.objs_with_deferred_fields ++ gs.flatMap (fun g =>
          (g.2.filter (fun o => !o.deferred_fields.isEmpty)).map applyPlaceholders)) ∧
    ((gs.foldl (fixtureStep metas) acc).hookCount = acc.hookCount + gs.length) ∧
    ((gs.foldl (fixtureStep metas) acc).frame
      = match gs.getLast? with
        | none => acc.frame
        | some g => some ⟨g.1, g.2.filter (fun o => o.deferred_fields.isEmpty)⟩) := by
  intro gs
  induction gs with
  | nil => intro acc; exact ⟨by simp, by simp, rfl⟩
  | cons g rest ih =>
    intro acc
    obtain ⟨h1, h2, h3⟩ := ih (fixtureStep metas acc g)
    refine ⟨?_, ?_, ?_⟩
    · rw [List.foldl_cons, h1]
      simp only [fixtureStep, List.flatMap_cons, List.append_assoc]
    · rw [List.foldl_cons, h2]
      simp only [fixtureStep, List.length_cons]
      omega
    · rw [List.foldl_cons, h3]
      cases rest with
      | nil => simp [fixtureStep]
      | cons g2 rest2 =>
        rw [List.getLast?_cons_cons]
        cases hlast : (g2 :: rest2).getLast? with
        | none =>
          rw [List.getLast?_eq_none_iff] at hlast
          cases hlast
        | some x => rfl

theorem bulkCreate_objs (metas : String → ModelMeta) (st : Store)
    (items : List DeserializedObject) :
    (bulkCreateFromFixture metas st items).objs_with_deferred_fields
      = fixtureQueue metas items := by
  rw [fixtureQueue, bulkCreate_foldl, bulkCreate_foldl,
    (fixtureFold_nonstore metas (groupByClass items) ⟨st, [], 0, none⟩).1,
    (fixtureFold_nonstore metas (groupByClass items) ⟨⟨[], [], []⟩, [], 0, none⟩).1]

theorem bulkCreate_frame (metas : String → ModelMeta) (st : Store)
    (items : List DeserializedObject) :
    (bulkCreateFromFixture metas st items).frame = fixtureFrame metas items := by
  rw [fixtureFrame, bulkCreate_foldl, bulkCreate_foldl,
    (fixtureFold_nonstore metas (groupByClass items) ⟨st, [], 0, none⟩).2.2,
    (fixtureFold_nonstore metas (groupByClass items) ⟨⟨[], [], []⟩, [], 0, none⟩).2.2]

theorem bulkCreate_hookCount (metas : String → ModelMeta) (st : Store)
    (items : List DeserializedObject) :
    (bulkCreateFromFixture metas st items).hookCount
      = (groupByClass items).length := by
  rw [bulkCreate_foldl,
    (fixtureFold_nonstore metas (groupByClass items) ⟨st, [], 0, none⟩).2.1]
  simp

theorem flatMap_map_aP {α : Type} (gs : List α)
    (f : α → List DeserializedObject) :
    gs.flatMap (fun g => (f g).map applyPlaceholders)
      = (gs.flatMap f).map applyPlaceholders := by
  induction gs with
  | nil => rfl
  | cons g rest ih => simp only [List.flatMap_cons, List.map_append, ih]

theorem bulkStores_skip (metas : String → ModelMeta) :
    ∀ (gs : List (String × List DeserializedObject)) (st : Store),
    (∀ g ∈ gs, ∀ o ∈ g.2, conflicts (metas g.1) (st.table g.1)
      (applyPlaceholders o).pk (applyPlaceholders o).objVals = true) →
    gs.foldl (fun st g =>
      bulk_create (metas g.1) g.1 st (g.2.map applyPlaceholders)) st = st := by
  intro gs
  induction gs with
  | nil => intro st _; rfl
  | cons g rest ih =>
    intro st h
    have hskip : bulk_create (metas g.1) g.1 st (g.2.map applyPlaceholders) = st := by
      apply bulk_create_skip
      intro o ho
      obtain ⟨x, hx, rfl⟩ := List.mem_map.1 ho
      exact h g (List.mem_cons_self _ _) x hx
    simp only [List.foldl_cons, hskip]
    exact ih st (fun g' hg' => h g' (List.mem_cons_of_mem _ hg'))

theorem bulkStores_go (metas : String → ModelMeta) :
    ∀ (gs : List (String × List DeserializedObject)) (st res : Store),
    res = gs.foldl (fun st g =>
        bulk_create (metas g.1) g.1 st (g.2.map applyPlaceholders)) st →
    (gs.map (fun g => g.1)).Nodup →
    (∀ g ∈ gs, st.tables.lookup g.1 = some []) →
    (∀ g ∈ gs, st.seqs.lookup (g.1 ++ "_id_seq") = some ⟨1, false⟩) →
    (∀ g ∈ gs, ∀ o ∈ g.2, o.pk = none) →
    (∀ g ∈ gs, (g.2.map applyPlaceholders).Pairwise (fun o o' =>
      keyVals (metas g.1) o.objVals ≠ keyVals (metas g.1) o'.objVals)) →
    (∀ g ∈ gs, res.table g.1
      = rowsWith (fun o => (applyPlaceholders o).objVals) 1 g.2) ∧
    (∀ k, (∀ g ∈ gs, g.1 ≠ k) → res.table k = st.table k) ∧
    (∀ g ∈ gs, res.seqs.lookup (g.1 ++ "_id_seq")
      = some (if g.2.isEmpty then ⟨1, false⟩ else ⟨g.2.length, true⟩)) ∧
    (∀ n, (∀ g ∈ gs, n ≠ g.1 ++ "_id_seq") →
      res.seqs.lookup n = st.seqs.lookup n) ∧
    res.m2m = st.m2m ∧
    res.tables.map (fun e => e.1) = st.tables.map (fun e => e.1) := by
  intro gs
  induction gs with
  | nil =>
    intro st res hres _ _ _ _ _
    subst hres
    exact ⟨fun g hg => absurd hg (List.not_mem_nil _), fun k _ => rfl,
      fun g hg => absurd hg (List.not_mem_nil _), fun n _ => rfl, rfl, rfl⟩
  | cons g rest ih =>
    intro st res hres hnd htab hseq hpk hpair
    simp only [List.map_cons, List.nodup_cons] at hnd
    have htabg : st.table g.1 = [] := by
      rw [Store.table, htab g (List.mem_cons_self _ _)]
      rfl
    have hseqg : st.seq (g.1 ++ "_id_seq") = ⟨1, false⟩ := by
      rw [Store.seq, hseq g (List.mem_cons_self _ _)]
      rfl
    have hb := bulk_create_go (metas g.1) g.1 (g.2.map applyPlaceholders) st
      ?pk ?nom (hpair g (List.mem_cons_self _ _)) ?lt
    case pk =>
      intro o ho
      obtain ⟨x, hx, rfl⟩ := List.mem_map.1 ho
      rw [applyPlaceholders_pk]
      exact hpk g (List.mem_cons_self _ _) x hx
    case nom =>
      intro o _ row hrow
      rw [htabg] at hrow
      cases hrow
    case lt =>
      intro row hrow
      rw [htabg] at hrow
      cases hrow
    obtain ⟨b1, b2, b3, b4, b5, b6, b7, b9, b10⟩ := hb
    set st1 := bulk_create (metas g.1) g.1 st (g.2.map applyPlaceholders) with hst1
    have hst1tab : st1.table g.1
        = rowsWith (fun o => (applyPlaceholders o).objVals) 1 g.2 := by
      rw [b1, htabg, hseqg, List.nil_append]
      have hup : (PgSeq.mk 1 false).upcoming = 1 := rfl
      rw [hup, rowsWith_map_aP]
    have hres' : res = rest.foldl (fun st g =>
        bulk_create (metas g.1) g.1 st (g.2.map applyPlaceholders)) st1 := by
      rw [hres]
      rfl
    have hne1 : ∀ g' ∈ rest, g'.1 ≠ g.1 := by
      intro g' hg' hc
      exact hnd.1 (hc ▸ List.mem_map_of_mem (fun g => g.1) hg')
    have hr := ih st1 res hres' hnd.2 ?tab ?seq
      (fun g' hg' => hpk g' (List.mem_cons_of_mem _ hg'))
      (fun g' hg' => hpair g' (List.mem_cons_of_mem _ hg'))
    case tab =>
      intro g' hg'
      rw [b10 g'.1 (hne1 g' hg')]
      exact htab g' (List.mem_cons_of_mem _ hg')
    case seq =>
      intro g' hg'
      rw [b6 _ (fun hc => hne1 g' hg' (string_append_right_cancel _ hc))]
      exact hseq g' (List.mem_cons_of_mem _ hg')
    obtain ⟨r1, r2, r3, r4, r5, r6⟩ := hr
    refine ⟨?_, ?_, ?_, ?_, ?_, ?_⟩
    · intro g'' hg''
      rcases List.mem_cons.1 hg'' with rfl | hg2
      · rw [r2 g''.1 hne1, hst1tab]
      · exact r1 g'' hg2
    · intro k hk
      rw [r2 k (fun g' hg' => hk g' (List.mem_cons_of_mem _ hg'))]
      exact b2 k (Ne.symm (hk g (List.mem_cons_self _ _)))
    · intro g'' hg''
      rcases List.mem_cons.1 hg'' with rfl | hg2
      · rw [r4 _ (fun g' hg' hc =>
          hne1 g' hg' (string_append_right_cancel _ hc.symm))]
        by_cases hemp : g''.2 = []
        · rw [hemp]
          have hid : st1 = st := by
            rw [hst1, hemp]
            rfl
          rw [hid, hseq g'' (List.mem_cons_self _ _)]
          rfl
        · have hmapne : g''.2.map applyPlaceholders ≠ [] := by
            simpa using hemp
          rw [b7 hmapne, hseqg]
          have hlen : 0 < g''.2.length := List.length_pos.mpr hemp
          have hie : g''.2.isEmpty = false := by
            cases hg2 : g''.2 with
            | nil => exact absurd hg2 hemp
            | cons a t => rfl
          rw [hie]
          have hup : (PgSeq.mk 1 false).upcoming = 1 := rfl
          rw [hup, List.length_map]
          have harith : 1 + (g''.2.length - 1) = g''.2.length := by omega
          rw [harith]
          simp
      · exact r3 g'' hg2
    · intro n hn
      rw [r4 n (fun g' hg' => hn g' (List.mem_cons_of_mem _ hg'))]
      exact b6 n (hn g (List.mem_cons_self _ _))
    · rw [r5]
      exact b5
    · rw [r6]
      apply b9
      rw [htab g (List.mem_cons_self _ _)]
      rfl

/-! ## Key-uniqueness and association-operation lemmas -/

theorem pairwise_key_unique (meta : ModelMeta) (l : List DeserializedObject)
    (hpair : l.Pairwise (fun a b =>
      keyVals meta a.objVals ≠ keyVals meta b.objVals))
    (x o : DeserializedObject) (hx : x ∈ l) (ho : o ∈ l)
    (heq : keyVals meta x.objVals = keyVals meta o.objVals) : x = o := by
  by_contra hne
  have hsymm : Symmetric (fun a b : DeserializedObject =>
      keyVals meta a.objVals ≠ keyVals meta b.objVals) :=
    fun a b hab => fun hc => hab hc.symm
  exact (hpair.forall hsymm) hx ho hne heq

theorem pairwise_keys_nodup (meta : ModelMeta) (l : List DeserializedObject)
    (hpair : l.Pairwise (fun a b =>
      keyVals meta a.objVals ≠ keyVals meta b.objVals)) : l.Nodup :=
  hpair.imp (fun hab => fun hc => hab (hc ▸ rfl))

theorem itemsOf_pairwise_keys (metas : String → ModelMeta)
    (items : List DeserializedObject) (k : String)
    (H2 : items.Pairwise (fun a b => a.kind = b.kind →
      keyVals (metas a.kind) a.objVals ≠ keyVals (metas a.kind) b.objVals)) :
    (itemsOf items k).Pairwise (fun a b =>
      keyVals (metas k) a.objVals ≠ keyVals (metas k) b.objVals) := by
  have h1 : (itemsOf items k).Pairwise (fun a b => a.kind = b.kind →
      keyVals (metas a.kind) a.objVals ≠ keyVals (metas a.kind) b.objVals) :=
    H2.sublist (List.filter_sublist _)
  apply List.Pairwise.imp_of_mem ?_ h1
  intro a b ha hb hg
  have hak : a.kind = k := ((mem_itemsOf items a k).1 ha).2
  have hbk : b.kind = k := ((mem_itemsOf items b k).1 hb).2
  rw [← hak]
  exact hg (hak.trans hbk.symm)

theorem objectsGet_of_filter (rows : List Row) (filt : List (String × Int))
    (r : Row) (h : rows.filter (matchesFilter filt) = [r]) :
    objectsGet rows filt = .ok r := by
  unfold objectsGet
  rw [h]

theorem applyOps_append (m a b : List ((String × Nat × String) × List Nat)) :
    applyOps m (a ++ b) = applyOps (applyOps m a) b := by
  unfold applyOps
  rw [List.foldl_append]

theorem applyOps_lookup_preserved :
    ∀ (ops m : List ((String × Nat × String) × List Nat))
      (key : String × Nat × String),
    (∀ op ∈ ops, op.1 ≠ key) →
    (applyOps m ops).lookup key = m.lookup key := by
  intro ops
  induction ops with
  | nil => intro m key _; rfl
  | cons op rest ih =>
    intro m key h
    simp only [applyOps, List.foldl_cons]
    rw [show rest.foldl (fun m op => setAssoc m op.1 op.2) (setAssoc m op.1 op.2)
        = applyOps (setAssoc m op.1 op.2) rest from rfl]
    rw [ih _ key (fun o ho => h o (List.mem_cons_of_mem _ ho))]
    exact lookup_setAssoc_ne _ _ _ _
      (fun hc => h op (List.mem_cons_self _ _) hc.symm)

theorem applyOps_lookup_mem :
    ∀ (ops m : List ((String × Nat × String) × List Nat))
      (op : (String × Nat × String) × List Nat),
    op ∈ ops → (ops.map (fun o => o.1)).Nodup →
    (applyOps m ops).lookup op.1 = some op.2 := by
  intro ops
  induction ops with
  | nil => intro m op hmem _; cases hmem
  | cons o rest ih =>
    intro m op hmem hnd
    simp only [List.map_cons, List.nodup_cons] at hnd
    simp only [applyOps, List.foldl_cons]
    rw [show rest.foldl (fun m op => setAssoc m op.1 op.2) (setAssoc m o.1 o.2)
        = applyOps (setAssoc m o.1 o.2) rest from rfl]
    rcases List.mem_cons.1 hmem with rfl | hm2
    · rw [applyOps_lookup_preserved rest _ op.1 ?ne]
      · exact lookup_setAssoc_self _ _ _
      case ne =>
        intro o' ho' hc
        exact hnd.1 (hc ▸ List.mem_map_of_mem (fun o => o.1) ho')
    · exact ih _ op hm2 hnd.2

theorem applyOps_id :
    ∀ (ops m : List ((String × Nat × String) × List Nat)),
    (∀ op ∈ ops, m.lookup op.1 = some op.2) → applyOps m ops = m := by
  intro ops
  induction ops with
  | nil => intro m _; rfl
  | cons op rest ih =>
    intro m h
    simp only [applyOps, List.foldl_cons]
    rw [setAssoc_lookup_eq _ _ _ (h op (List.mem_cons_self _ _))]
    exact ih m (fun o ho => h o (List.mem_cons_of_mem _ ho))

theorem m2mOps_keys_nodup :
    ∀ (objs : List DeserializedObject) (cls : String)
      (pkOf : DeserializedObject → Nat),
    objs.Nodup →
    (∀ a ∈ objs, ∀ b ∈ objs, pkOf a = pkOf b → a = b) →
    (∀ o ∈ objs, (o.m2m_data.map (fun al => al.1)).Nodup) →
    ((m2mOps cls pkOf objs).map (fun op => op.1)).Nodup := by
  intro objs
  induction objs with
  | nil => intro cls pkOf _ _ _; simp [m2mOps]
  | cons o rest ih =>
    intro cls pkOf hnd hinj hacc
    simp only [List.nodup_cons] at hnd
    simp only [m2mOps, List.flatMap_cons, List.map_append]
    refine List.Nodup.append ?_ ?_ ?_
    · rw [List.map_map]
      have h1 : ((fun op : (String × Nat × String) × List Nat => op.1) ∘
          (fun al : String × List Nat => ((cls, pkOf o, al.1), al.2)))
          = (fun a => (cls, pkOf o, a)) ∘ (fun al : String × List Nat => al.1) := rfl
      rw [h1, ← List.map_map]
      refine List.Nodup.map ?_ (hacc o (List.mem_cons_self _ _))
      intro a b hab
      simpa using hab
    · exact ih cls pkOf hnd.2
        (fun a ha b hb => hinj a (List.mem_cons_of_mem _ ha) b
          (List.mem_cons_of_mem _ hb))
        (fun o' ho' => hacc o' (List.mem_cons_of_mem _ ho'))
    · intro key hk1 hk2
      obtain ⟨op1, hop1, rfl⟩ := List.mem_map.1 hk1
      obtain ⟨al, _, rfl⟩ := List.mem_map.1 hop1
      obtain ⟨op2, hop2, hkey⟩ := List.mem_map.1 hk2
      obtain ⟨o', ho', hop2m⟩ := List.mem_flatMap.1 hop2
      obtain ⟨al', _, rfl⟩ := List.mem_map.1 hop2m
      have hpk : pkOf o' = pkOf o := by
        have := congrArg (fun x : String × Nat × String => x.2.1) hkey
        simpa using this
      have : o' = o := hinj o' (List.mem_cons_of_mem _ ho') o
        (List.mem_cons_self _ _) hpk
      exact hnd.1 (this ▸ ho')

/-- Locating one record's row in a consecutively keyed block by its kind's
filter fields: the filter singles out the record's own row at key
`1 + index`, that key is unique, and patching at that key rewrites the block
pointwise. -/
theorem locate_row (meta : ModelMeta)
    (v : DeserializedObject → List (String × Int))
    (l : List DeserializedObject) (o : DeserializedObject)
    (w : List (String × Int))
    (hkv : ∀ x ∈ l, keyVals meta (v x) = keyVals meta x.objVals)
    (hpair : l.Pairwise (fun a b =>
      keyVals meta a.objVals ≠ keyVals meta b.objVals))
    (ho : o ∈ l)
    (hw : keyVals meta w = keyVals meta o.objVals) :
    ((rowsWith v 1 l).filter (matchesFilter
        ((fieldsToFilter meta).map (fun f => (f, getv w f))))
      = [⟨1 + l.indexOf o, v o⟩]) ∧
    (∀ r ∈ rowsWith v 1 l, r.pk = 1 + l.indexOf o →
      r = ⟨1 + l.indexOf o, v o⟩) ∧
    (∀ w2, (rowsWith v 1 l).map
        (fun r => if r.pk == 1 + l.indexOf o then (⟨1 + l.indexOf o, w2⟩ : Row)
          else r)
      = rowsWith (fun x => if x = o then w2 else v x) 1 l) := by
  have hnd : l.Nodup := pairwise_keys_nodup meta l hpair
  have hsel : ∀ x ∈ l, ∀ z : Nat,
      (matchesFilter ((fieldsToFilter meta).map (fun f => (f, getv w f)))
        ⟨z, v x⟩ = true ↔ x = o) := by
    intro x hx z
    rw [matchesFilter_iff]
    constructor
    · intro hkeq
      have hxw : keyVals meta (v x) = keyVals meta w := hkeq
      have hxo : keyVals meta x.objVals = keyVals meta o.objVals := by
        rw [← hkv x hx, hxw, hw]
      exact pairwise_key_unique meta l hpair x o hx ho hxo
    · intro hxe
      subst hxe
      have hvw : keyVals meta (v x) = keyVals meta w := by
        rw [hkv x hx, ← hw]
      exact hvw
  obtain ⟨p, hfil, huniq, hmap, hidx⟩ := rowsWith_locate v l o _ w hsel ho hnd 1
  subst hidx
  refine ⟨hfil, huniq, ?_⟩
  intro w2
  obtain ⟨p2, _, _, hmap2, hidx2⟩ := rowsWith_locate v l o _ w2 hsel ho hnd 1
  subst hidx2
  exact hmap2

theorem set_m2m_obj (metas : String → ModelMeta) (cls : String)
    (v : DeserializedObject → List (String × Int))
    (l : List DeserializedObject) (o : DeserializedObject)
    (hkv : ∀ x ∈ l, keyVals (metas cls) (v x) = keyVals (metas cls) x.objVals)
    (hpair : l.Pairwise (fun a b =>
      keyVals (metas cls) a.objVals ≠ keyVals (metas cls) b.objVals))
    (ho : o ∈ l) :
    ∀ (ms : List (String × List Nat)) (st : Store),
    st.table cls = rowsWith v 1 l →
    (ms.foldlM (fun st al =>
      match objectsGet (st.table cls)
          ((fieldsToFilter (metas cls)).map (fun f => (f, getv o.objVals f))) with
      | .error e => .error e
      | .ok row => .ok (st.setM2M cls row.pk al.1 al.2)) st
    : Except DbErr Store)
    = .ok { st with m2m := (applyOps st.m2m
        (ms.map (fun al => ((cls, 1 + l.indexOf o, al.1), al.2)))) } := by
  intro ms
  induction ms with
  | nil => intro st _; rfl
  | cons al rest ih =>
    intro st htab
    have hloc := (locate_row (metas cls) v l o o.objVals hkv hpair ho rfl).1
    have hget : objectsGet (st.table cls)
        ((fieldsToFilter (metas cls)).map (fun f => (f, getv o.objVals f)))
        = .ok ⟨1 + l.indexOf o, v o⟩ := by
      rw [htab]
      exact objectsGet_of_filter _ _ _ hloc
    rw [List.foldlM_cons, hget]
    rw [exceptBind_ok]
    rw [ih (st.setM2M cls (1 + l.indexOf o) al.1 al.2) htab]
    rfl

theorem set_m2m_ok (metas : String → ModelMeta) (cls : String)
    (v : DeserializedObject → List (String × Int))
    (l : List DeserializedObject)
    (hkv : ∀ x ∈ l, keyVals (metas cls) (v x) = keyVals (metas cls) x.objVals)
    (hpair : l.Pairwise (fun a b =>
      keyVals (metas cls) a.objVals ≠ keyVals (metas cls) b.objVals)) :
    ∀ (objs : List DeserializedObject) (st : Store),
    (∀ o ∈ objs, o ∈ l) →
    st.table cls = rowsWith v 1 l →
    set_m2m metas st cls objs
      = .ok { st with m2m := (applyOps st.m2m
          (m2mOps cls (fun o => 1 + l.indexOf o) objs)) } := by
  intro objs
  induction objs with
  | nil => intro st _ _; rfl
  | cons o rest ih =>
    intro st hsub htab
    simp only [set_m2m, List.foldlM_cons]
    by_cases hemp : o.m2m_data.isEmpty = true
    · rw [if_pos hemp, exceptBind_ok]
      have hrest := ih st (fun o' ho' => hsub o' (List.mem_cons_of_mem _ ho')) htab
      simp only [set_m2m] at hrest
      rw [hrest]
      have hmnil : o.m2m_data = [] := by
        cases hm : o.m2m_data with
        | nil => rfl
        | cons a t => rw [hm] at hemp; cases hemp
      simp only [m2mOps, List.flatMap_cons, hmnil, List.map_nil,
        List.nil_append]
    · rw [if_neg hemp, set_m2m_obj metas cls v l o hkv hpair
        (hsub o (List.mem_cons_self _ _)) o.m2m_data st htab]
      rw [exceptBind_ok]
      have htab1 : ({ st with m2m := (applyOps st.m2m
          (o.m2m_data.map (fun al => ((cls, 1 + l.indexOf o, al.1), al.2)))) }
            : Store).table cls = rowsWith v 1 l := htab
      have hrest := ih _ (fun o' ho' => hsub o' (List.mem_cons_of_mem _ ho'))
        htab1
      simp only [set_m2m] at hrest
      rw [hrest]
      simp only [m2mOps, List.flatMap_cons]
      rw [applyOps_append]

theorem runHooks_id (metas : String → ModelMeta) (fr : Frame) (S : Store)
    (h : set_m2m metas S fr.cls fr.not_with_deferred = .ok S) :
    ∀ n, runHooksFrom metas S (List.replicate n fr) = (S, none) := by
  intro n
  induction n with
  | zero => rfl
  | succ m ih =>
    rw [List.replicate_succ]
    simp only [runHooksFrom, h]
    exact ih

theorem runHooks_replicate (metas : String → ModelMeta) (fr : Frame)
    (S S1 : Store)
    (h1 : set_m2m metas S fr.cls fr.not_with_deferred = .ok S1)
    (h2 : set_m2m metas S1 fr.cls fr.not_with_deferred = .ok S1)
    (n : Nat) :
    runHooksFrom metas S (List.replicate (n + 1) fr) = (S1, none) := by
  rw [List.replicate_succ]
  simp only [runHooksFrom, h1]
  exact runHooks_id metas fr S1 h2 n

/-! ## Save, first-pass and release lemmas for the idempotence argument -/

theorem save_resolve_fold_exists (st : Store) :
    ∀ (l : List (FieldInfo × Ref)) (vals : List (String × Int)),
    (∀ fr ∈ l, ∃ r ∈ st.table fr.2.targetKind, r.pk = fr.2.targetPk) →
    (l.foldlM (fun vals fr =>
        match (st.table fr.2.targetKind).find? (fun r => r.pk == fr.2.targetPk) with
        | some trow => Except.ok (setAssoc vals fr.1.attname (Int.ofNat trow.pk))
        | none => Except.error (DbErr.integrityError .missingTarget)) vals
      : Except DbErr (List (String × Int)))
    = .ok (resolveVals l vals) := by
  intro l
  induction l with
  | nil => intro vals _; rfl
  | cons fr rest ih =>
    intro vals h
    obtain ⟨r0, hr0, hrp⟩ := h fr (List.mem_cons_self _ _)
    have hfind : ((st.table fr.2.targetKind).find?
        (fun r => r.pk == fr.2.targetPk)).isSome = true := by
      rw [List.find?_isSome]
      exact ⟨r0, hr0, by simp [hrp]⟩
    obtain ⟨trow, htrow⟩ := Option.isSome_iff_exists.1 hfind
    have htp : trow.pk = fr.2.targetPk := by
      have := List.find?_some htrow
      simpa using this
    rw [List.foldlM_cons, htrow, exceptBind_ok]
    rw [ih _ (fun fr' hfr' => h fr' (List.mem_cons_of_mem _ hfr'))]
    simp only [resolveVals, List.foldl_cons, htp]

theorem save_dup_error (metas : String → ModelMeta) (st : Store)
    (obj : DeserializedObject)
    (hres : ∀ fr ∈ obj.deferred_fields, ∃ r ∈ st.table fr.2.targetKind,
      r.pk = fr.2.targetPk)
    (hpk : obj.pk = none)
    (hne : (fieldsToFilter (metas obj.kind)).isEmpty = false)
    (hmatch : (st.table obj.kind).any (matchesFilter
        ((fieldsToFilter (metas obj.kind)).map (fun f =>
          (f, getv (resolveVals obj.deferred_fields obj.objVals) f)))) = true) :
    save_deferred_fields metas [] st obj
      = .error (DbErr.integrityError .duplicateRow) := by
  unfold save_deferred_fields
  rw [if_neg (by simp)]
  rw [save_resolve_fold_exists st obj.deferred_fields obj.objVals hres]
  simp only [hpk, hne, hmatch, Bool.not_false, Bool.and_self, if_true]

theorem save_update_ok (metas : String → ModelMeta) (st : Store)
    (obj : DeserializedObject) (p : Nat)
    (hres : ∀ fr ∈ obj.deferred_fields, ∃ r ∈ st.table fr.2.targetKind,
      r.pk = fr.2.targetPk)
    (hpk : obj.pk = some p)
    (hex : (st.table obj.kind).any (fun r => r.pk == p) = true) :
    save_deferred_fields metas [] st obj
      = .ok (st.setTable obj.kind ((st.table obj.kind).map
            (fun r => if r.pk == p
              then (⟨p, resolveVals obj.deferred_fields obj.objVals⟩ : Row)
              else r)),
          { obj with objVals := resolveVals obj.deferred_fields obj.objVals }) := by
  unfold save_deferred_fields
  rw [if_neg (by simp)]
  rw [save_resolve_fold_exists st obj.deferred_fields obj.objVals hres]
  simp only [hpk, hex, if_true]

theorem firstPass_go (metas : String → ModelMeta) (st : Store) :
    ∀ (objs q : List DeserializedObject),
    (∀ o ∈ objs, ∃ e, save_deferred_fields metas [] st o = .error e ∧
      e.isIntegrityError = true) →
    (objs.foldlM (fun acc obj =>
      match save_deferred_fields metas [] acc.store obj with
      | .ok r => .ok ⟨r.1, acc.queue⟩
      | .error e =>
        if e.isIntegrityError then .ok ⟨acc.store, acc.queue ++ [obj]⟩
        else .error e) (⟨st, q⟩ : PassOutcome) : Except DbErr PassOutcome)
    = .ok ⟨st, q ++ objs⟩ := by
  intro objs
  induction objs with
  | nil =>
    intro q _
    simp only [List.foldlM_nil, List.append_nil]
    rfl
  | cons o rest ih =>
    intro q h
    obtain ⟨e, he, hint⟩ := h o (List.mem_cons_self _ _)
    rw [List.foldlM_cons]
    simp only [he, hint, if_true]
    rw [exceptBind_ok]
    rw [ih (q ++ [o]) (fun o' ho' => h o' (List.mem_cons_of_mem _ ho'))]
    simp [List.append_assoc]

theorem firstPass_all_queued (metas : String → ModelMeta) (st : Store)
    (objs : List DeserializedObject)
    (h : ∀ o ∈ objs, ∃ e, save_deferred_fields metas [] st o = .error e ∧
      e.isIntegrityError = true) :
    firstPass metas [] st objs = .ok ⟨st, objs⟩ := by
  unfold firstPass
  have hgo := firstPass_go metas st objs [] h
  simpa using hgo

theorem exitTable_skip (st : Store) (t : String)
    (h : ∀ s : PgSeq, st.seqs.lookup (t ++ "_id_seq") = some s →
      ¬ s.last_value = 1) :
    exitTable [] st t = .ok st := by
  unfold exitTable
  dsimp only
  split_ifs with h1 h2 h3
  · simp at h2
  · obtain ⟨s, hs⟩ := Option.isSome_iff_exists.1 h1
    have hlast : ¬ s.last_value = 1 := h s hs
    have hsv : (st.seq (t ++ "_id_seq")).last_value = s.last_value := by
      rw [Store.seq, hs]
      rfl
    rw [hsv] at h3
    exact absurd (beq_iff_eq.mp h3) hlast
  · rfl
  · rfl

theorem exitScope_id (tables : List String) :
    ∀ st : Store,
    (∀ t ∈ tables, ∀ s : PgSeq,
      st.seqs.lookup (t ++ "_id_seq") = some s → ¬ s.last_value = 1) →
    exitScope [] tables st = .ok st := by
  induction tables with
  | nil => intro st _; rfl
  | cons t0 ts ih =>
    intro st h
    have h0 := exitTable_skip st t0 (h t0 (List.mem_cons_self _ _))
    have hrest := ih st (fun t ht => h t (List.mem_cons_of_mem _ ht))
    simp only [exitScope, List.foldlM] at hrest ⊢
    rw [h0]
    simpa [exitScope] using hrest

theorem foldl_max_range' : ∀ (n u : Nat),
    (List.range' (u + 1) n).foldl max u = u + n := by
  intro n
  induction n with
  | zero => intro u; rfl
  | succ m ih =>
    intro u
    rw [show List.range' (u + 1) (m + 1) = (u + 1) :: List.range' (u + 2) m
      from rfl]
    rw [List.foldl_cons, Nat.max_eq_right (Nat.le_succ u)]
    rw [ih (u + 1)]
    omega

theorem range'_max (n u : Nat) :
    (List.range' u (n + 1)).max? = some (u + n) := by
  rw [show List.range' u (n + 1) = u :: List.range' (u + 1) n from rfl]
  rw [show (u :: List.range' (u + 1) n).max?
      = some ((List.range' (u + 1) n).foldl max u) from rfl]
  rw [foldl_max_range' n u]

theorem rowsWith_map_pk (v : DeserializedObject → List (String × Int)) :
    ∀ (l : List DeserializedObject) (u : Nat),
    (rowsWith v u l).map (fun r => r.pk) = List.range' u l.length := by
  intro l
  induction l with
  | nil => intro u; rfl
  | cons x rest ih =>
    intro u
    simp only [rowsWith, List.map_cons, List.length_cons, ih (u + 1)]
    rfl

theorem rowsWith_mem_self (v : DeserializedObject → List (String × Int)) :
    ∀ (l : List DeserializedObject) (o : DeserializedObject), o ∈ l →
    ∀ u : Nat, ∃ p, (⟨p, v o⟩ : Row) ∈ rowsWith v u l := by
  intro l
  induction l with
  | nil => intro o ho; cases ho
  | cons x rest ih =>
    intro o ho u
    rcases List.mem_cons.1 ho with rfl | h2
    · exact ⟨u, List.mem_cons_self _ _⟩
    · obtain ⟨p, hp⟩ := ih o h2 (u + 1)
      exact ⟨p, List.mem_cons_of_mem _ hp⟩

theorem exitScope_run1 :
    ∀ (tables : List String) (st : Store),
    tables.Nodup →
    (∀ t ∈ tables, ∃ n : Nat, 1 ≤ n ∧
      st.seqs.lookup (t ++ "_id_seq") = some ⟨n, true⟩ ∧
      ((st.table t).map (fun r => r.pk)).max? = some n) →
    ∃ st', exitScope [] tables st = .ok st' ∧ st'.tables = st.tables ∧
      st'.m2m = st.m2m ∧
      (∀ t ∈ tables, ∃ s : PgSeq,
        st'.seqs.lookup (t ++ "_id_seq") = some s ∧ ¬ s.last_value = 1) ∧
      (∀ n, (∀ t ∈ tables, n ≠ t ++ "_id_seq") →
        st'.seqs.lookup n = st.seqs.lookup n) := by
  intro tables
  induction tables with
  | nil =>
    intro st _ _
    exact ⟨st, rfl, rfl, rfl, fun t ht => absurd ht (List.not_mem_nil _),
      fun n _ => rfl⟩
  | cons t0 ts ih =>
    intro st hnd h
    obtain ⟨n0, hn0, hlk, hmax⟩ := h t0 (List.mem_cons_self _ _)
    simp only [List.nodup_cons] at hnd
    have hcancel : ∀ t' ∈ ts, t' ++ "_id_seq" ≠ t0 ++ "_id_seq" := by
      intro t' ht' hc
      exact hnd.1 (string_append_right_cancel _ hc ▸ ht')
    by_cases hone : n0 = 1
    · subst hone
      have h1 := exitTable_resync hlk hmax
      have hts : ∀ t ∈ ts, ∃ n : Nat, 1 ≤ n ∧
          (st.setSeq (t0 ++ "_id_seq") ⟨1 + 1, false⟩).seqs.lookup
            (t ++ "_id_seq") = some ⟨n, true⟩ ∧
          (((st.setSeq (t0 ++ "_id_seq") ⟨1 + 1, false⟩).table t).map
            (fun r => r.pk)).max? = some n := by
        intro t ht
        obtain ⟨n, hn, hl, hm⟩ := h t (List.mem_cons_of_mem _ ht)
        refine ⟨n, hn, ?_, ?_⟩
        · show (setAssoc st.seqs _ _).lookup _ = _
          rw [lookup_setAssoc_ne _ _ _ _ (hcancel t ht)]
          exact hl
        · exact hm
      obtain ⟨st', h2, htb, hm2, hgood, hpres⟩ := ih
        (st.setSeq (t0 ++ "_id_seq") ⟨1 + 1, false⟩) hnd.2 hts
      refine ⟨st', ?_, htb, hm2, ?_, ?_⟩
      · simp only [exitScope, List.foldlM] at h2 ⊢
        rw [h1]
        simpa [exitScope] using h2
      · intro t ht
        rcases List.mem_cons.1 ht with rfl | hts2
        · refine ⟨⟨1 + 1, false⟩, ?_, by decide⟩
          rw [hpres _ (fun t' ht' hc => hnd.1
            (by rw [string_append_right_cancel _ hc]; exact ht'))]
          show (setAssoc st.seqs _ _).lookup _ = _
          exact lookup_setAssoc_self _ _ _
        · exact hgood t hts2
      · intro n hn
        rw [hpres n (fun t ht => hn t (List.mem_cons_of_mem _ ht))]
        show (setAssoc st.seqs _ _).lookup n = st.seqs.lookup n
        exact lookup_setAssoc_ne _ _ _ _ (hn t0 (List.mem_cons_self _ _))
    · have h1 := exitTable_skip st t0 ?hs
      case hs =>
        intro s hs
        rw [hlk] at hs
        have hse : PgSeq.mk n0 true = s := Option.some.inj hs
        rw [← hse]
        exact hone
      obtain ⟨st', h2, htb, hm2, hgood, hpres⟩ := ih st hnd.2
        (fun t ht => h t (List.mem_cons_of_mem _ ht))
      refine ⟨st', ?_, htb, hm2, ?_, ?_⟩
      · simp only [exitScope, List.foldlM] at h2 ⊢
        rw [h1]
        simpa [exitScope] using h2
      · intro t ht
        rcases List.mem_cons.1 ht with rfl | hts2
        · refine ⟨⟨n0, true⟩, ?_, hone⟩
          rw [hpres _ (fun t' ht' hc => hnd.1
            (by rw [string_append_right_cancel _ hc]; exact ht'))]
          exact hlk
        · exact hgood t hts2
      · intro n hn
        exact hpres n (fun t ht => hn t (List.mem_cons_of_mem _ ht))

/-! ## Second-pass lemmas -/

theorem items_nodup_of_keys (metas : String → ModelMeta)
    (items : List DeserializedObject)
    (H2 : items.Pairwise (fun a b => a.kind = b.kind →
      keyVals (metas a.kind) a.objVals ≠ keyVals (metas a.kind) b.objVals)) :
    items.Nodup := by
  apply H2.imp
  intro a b hg hc
  subst hc
  exact hg rfl rfl

theorem keyVals_finalVals (meta : ModelMeta) (x : DeserializedObject)
    (h : ∀ fr ∈ x.deferred_fields, fr.1.attname ∉ fieldsToFilter meta) :
    keyVals meta (finalVals x) = keyVals meta x.objVals := by
  unfold finalVals
  rw [keyVals_resolveVals _ _ _ h, keyVals_applyPlaceholders _ _ h]

theorem keyVals_vAfter (metas : String → ModelMeta) (x : DeserializedObject)
    (S : List DeserializedObject)
    (h : ∀ fr ∈ x.deferred_fields,
      fr.1.attname ∉ fieldsToFilter (metas x.kind)) :
    keyVals (metas x.kind) (vAfter S x) = keyVals (metas x.kind) x.objVals := by
  unfold vAfter
  split_ifs with hmem
  · exact keyVals_finalVals _ _ h
  · exact keyVals_applyPlaceholders _ _ h

theorem targets_exist (metas : String → ModelMeta)
    (items : List DeserializedObject)
    (v : DeserializedObject → List (String × Int)) (T : Store)
    (hI1 : ∀ x ∈ items, T.table x.kind = rowsWith v 1 (itemsOf items x.kind))
    (r : DeserializedObject) (hr : r ∈ items)
    (H7 : ∀ fr ∈ r.deferred_fields, 1 ≤ fr.2.targetPk ∧
      fr.2.targetPk ≤ (itemsOf items fr.2.targetKind).length) :
    ∀ fr ∈ r.deferred_fields, ∃ row ∈ T.table fr.2.targetKind,
      row.pk = fr.2.targetPk := by
  intro fr hfr
  obtain ⟨h1, h2⟩ := H7 fr hfr
  have hlen : 0 < (itemsOf items fr.2.targetKind).length := by omega
  obtain ⟨y, hy⟩ : ∃ y, y ∈ itemsOf items fr.2.targetKind := by
    cases hit : itemsOf items fr.2.targetKind with
    | nil => rw [hit] at hlen; simp at hlen
    | cons a t => exact ⟨a, List.mem_cons_self _ _⟩
  obtain ⟨hyi, hyk⟩ := (mem_itemsOf items y _).1 hy
  have htab : T.table fr.2.targetKind
      = rowsWith v 1 (itemsOf items fr.2.targetKind) := by
    rw [← hyk]
    exact hI1 y hyi
  rw [htab]
  exact rowsWith_mem_pk v 1 (itemsOf items fr.2.targetKind) fr.2.targetPk h1
    (by omega)

theorem secondPass_step_ok (metas : String → ModelMeta) (faulty : List String)
    (T : Store) (obj : DeserializedObject) (row : Row) (T1 : Store)
    (o2 : DeserializedObject)
    (hget : objectsGet (T.table obj.kind)
      ((fieldsToFilter (metas obj.kind)).map
        (fun f => (f, getv obj.objVals f))) = .ok row)
    (hsave : save_deferred_fields metas faulty T
      { obj with pk := some row.pk, objVals := row.vals } = .ok (T1, o2))
    (rest : List DeserializedObject) :
    secondPass metas faulty T (obj :: rest) = secondPass metas faulty T1 rest := by
  simp only [secondPass, List.foldlM_cons, hget, hsave, exceptBind_ok]

theorem secondPass_go (metas : String → ModelMeta)
    (items : List DeserializedObject)
    (H2 : items.Pairwise (fun a b => a.kind = b.kind →
      keyVals (metas a.kind) a.objVals ≠ keyVals (metas a.kind) b.objVals))
    (H4 : ∀ x ∈ items, ∀ fr ∈ x.deferred_fields,
      fr.1.attname ∉ fieldsToFilter (metas x.kind))
    (H7 : ∀ x ∈ items, ∀ fr ∈ x.deferred_fields, 1 ≤ fr.2.targetPk ∧
      fr.2.targetPk ≤ (itemsOf items fr.2.targetKind).length) :
    ∀ (ds S : List DeserializedObject) (T : Store),
    (∀ r ∈ ds, r ∈ items) →
    (∀ r ∈ ds, r ∉ S) →
    ds.Nodup →
    (∀ x ∈ items, T.table x.kind = rowsWith (vAfter S) 1 (itemsOf items x.kind)) →
    (∀ x ∈ items, (T.tables.lookup x.kind).isSome = true) →
    ∃ T', secondPass metas [] T (ds.map applyPlaceholders) = .ok T' ∧
      (∀ x ∈ items, T'.table x.kind
        = rowsWith (vAfter (S ++ ds)) 1 (itemsOf items x.kind)) ∧
      (∀ x ∈ items, (T'.tables.lookup x.kind).isSome = true) ∧
      T'.tables.map (fun e => e.1) = T.tables.map (fun e => e.1) ∧
      T'.m2m = T.m2m ∧ T'.seqs = T.seqs := by
  intro ds
  induction ds with
  | nil =>
    intro S T _ _ _ hI1 hI2
    refine ⟨T, rfl, ?_, hI2, rfl, rfl, rfl⟩
    rw [List.append_nil]
    exact hI1
  | cons r ds' ih =>
    intro S T hsub hdisj hnd hI1 hI2
    simp only [List.nodup_cons] at hnd
    have hrit : r ∈ items := hsub r (List.mem_cons_self _ _)
    have hrl : r ∈ itemsOf items r.kind := (mem_itemsOf items r r.kind).2 ⟨hrit, rfl⟩
    have hpairk := itemsOf_pairwise_keys metas items r.kind H2
    have hkv : ∀ x ∈ itemsOf items r.kind,
        keyVals (metas r.kind) (vAfter S x) = keyVals (metas r.kind) x.objVals := by
      intro x hx
      obtain ⟨hxi, hxk⟩ := (mem_itemsOf items x r.kind).1 hx
      have hbase := keyVals_vAfter metas x S (H4 x hxi)
      rw [hxk] at hbase
      exact hbase
    have hw : keyVals (metas r.kind) (applyPlaceholders r).objVals
        = keyVals (metas r.kind) r.objVals :=
      keyVals_applyPlaceholders (metas r.kind) r (H4 r hrit)
    obtain ⟨hfil, huniq, hmap⟩ := locate_row (metas r.kind) (vAfter S)
      (itemsOf items r.kind) r (applyPlaceholders r).objVals hkv hpairk hrl hw
    set P := 1 + (itemsOf items r.kind).indexOf r with hPdef
    have htabk : T.table r.kind = rowsWith (vAfter S) 1 (itemsOf items r.kind) :=
      hI1 r hrit
    have hget : objectsGet (T.table (applyPlaceholders r).kind)
        ((fieldsToFilter (metas (applyPlaceholders r).kind)).map
          (fun f => (f, getv (applyPlaceholders r).objVals f)))
        = .ok ⟨P, vAfter S r⟩ := by
      rw [applyPlaceholders_kind, htabk]
      exact objectsGet_of_filter _ _ _ hfil
    have hrowmem : (⟨P, vAfter S r⟩ : Row)
        ∈ rowsWith (vAfter S) 1 (itemsOf items r.kind) := by
      refine @List.mem_of_mem_filter _ (matchesFilter
        ((fieldsToFilter (metas r.kind)).map
          (fun f => (f, getv (applyPlaceholders r).objVals f)))) _ _ ?_
      rw [hfil]
      exact List.mem_singleton.2 rfl
    have hres' : ∀ fr ∈ (applyPlaceholders r).deferred_fields,
        ∃ row ∈ T.table fr.2.targetKind, row.pk = fr.2.targetPk := by
      rw [applyPlaceholders_deferred]
      exact targets_exist metas items (vAfter S) T hI1 r hrit (H7 r hrit)
    have hex : (T.table ({ applyPlaceholders r with pk := some P, objVals := vAfter S r } : DeserializedObject).kind).any
        (fun row => row.pk == P) = true := by
      show (T.table (applyPlaceholders r).kind).any _ = true
      rw [applyPlaceholders_kind, htabk]
      rw [List.any_eq_true]
      exact ⟨_, hrowmem, by simp⟩
    have hsave := save_update_ok metas T
      { applyPlaceholders r with pk := some P, objVals := vAfter S r } P
      hres' rfl hex
    have hfin : resolveVals r.deferred_fields (vAfter S r) = finalVals r := by
      unfold vAfter
      rw [if_neg (hdisj r (List.mem_cons_self _ _))]
      rfl
    have hsave2 := hsave
    dsimp only at hsave2
    conv at hsave2 =>
      rhs
      rw [applyPlaceholders_kind, applyPlaceholders_deferred, hfin]
    have hT1k : (T.table r.kind).map
        (fun row => if row.pk == P then (⟨P, finalVals r⟩ : Row) else row)
        = rowsWith (vAfter (S ++ [r])) 1 (itemsOf items r.kind) := by
      rw [htabk, hmap (finalVals r)]
      apply rowsWith_congr
      intro x hx
      by_cases hxr : x = r
      · subst hxr
        rw [if_pos rfl]
        unfold vAfter
        rw [if_pos (List.mem_append.2 (Or.inr (List.mem_singleton.2 rfl)))]
      · rw [if_neg hxr]
        unfold vAfter
        by_cases hxS : x ∈ S
        · rw [if_pos hxS, if_pos (List.mem_append.2 (Or.inl hxS))]
        · rw [if_neg hxS, if_neg (fun hc => ?_)]
          rcases List.mem_append.1 hc with h1 | h2
          · exact hxS h1
          · exact hxr (List.mem_singleton.1 h2)
    have hI1' : ∀ x ∈ items, (T.setTable r.kind ((T.table r.kind).map
        (fun row => if row.pk == P then (⟨P, finalVals r⟩ : Row) else row))).table
          x.kind = rowsWith (vAfter (S ++ [r])) 1 (itemsOf items x.kind) := by
      intro x hx
      by_cases hxk : x.kind = r.kind
      · rw [hxk, store_table_setTable_self, hT1k]
      · rw [store_table_setTable_ne _ _ _ _ hxk, hI1 x hx]
        apply rowsWith_congr
        intro y hy
        obtain ⟨hyi, hyk⟩ := (mem_itemsOf items y x.kind).1 hy
        have hyr : y ≠ r := fun hc => hxk (by rw [← hyk, hc])
        unfold vAfter
        by_cases hyS : y ∈ S
        · rw [if_pos hyS, if_pos (List.mem_append.2 (Or.inl hyS))]
        · rw [if_neg hyS, if_neg (fun hc => ?_)]
          rcases List.mem_append.1 hc with h1 | h2
          · exact hyS h1
          · exact hyr (List.mem_singleton.1 h2)
    have hI2' : ∀ x ∈ items, (((T.setTable r.kind ((T.table r.kind).map
        (fun row => if row.pk == P then (⟨P, finalVals r⟩ : Row) else row)))).tables.lookup
          x.kind).isSome = true := by
      intro x hx
      show ((setAssoc T.tables r.kind _).lookup x.kind).isSome = true
      exact lookup_setAssoc_isSome _ _ _ _ (hI2 x hx)
    have hdisj' : ∀ r' ∈ ds', r' ∉ S ++ [r] := by
      intro r' hr' hc
      rcases List.mem_append.1 hc with h1 | h2
      · exact hdisj r' (List.mem_cons_of_mem _ hr') h1
      · rw [List.mem_singleton.1 h2] at hr'
        exact hnd.1 hr'
    obtain ⟨T', hT', c1, c2, c3, c4, c5⟩ := ih (S ++ [r])
      (T.setTable r.kind ((T.table r.kind).map
        (fun row => if row.pk == P then (⟨P, finalVals r⟩ : Row) else row)))
      (fun r' hr' => hsub r' (List.mem_cons_of_mem _ hr'))
      hdisj' hnd.2 hI1' hI2'
    refine ⟨T', ?_, ?_, c2, ?_, c4, c5⟩
    · rw [List.map_cons]
      rw [secondPass_step_ok metas [] T (applyPlaceholders r) ⟨P, vAfter S r⟩
        _ _ hget hsave2 (ds'.map applyPlaceholders)]
      exact hT'
    · intro x hx
      have := c1 x hx
      rw [List.append_assoc, List.singleton_append] at this
      exact this
    · rw [c3]
      show (setAssoc T.tables r.kind _).map _ = _
      exact setAssoc_map_fst _ _ _ (hI2 r hrit)

theorem secondPass_id (metas : String → ModelMeta)
    (items : List DeserializedObject)
    (H2 : items.Pairwise (fun a b => a.kind = b.kind →
      keyVals (metas a.kind) a.objVals ≠ keyVals (metas a.kind) b.objVals))
    (H4 : ∀ x ∈ items, ∀ fr ∈ x.deferred_fields,
      fr.1.attname ∉ fieldsToFilter (metas x.kind))
    (H5 : ∀ x ∈ items, (x.deferred_fields.map (fun fr => fr.1.attname)).Nodup)
    (H7 : ∀ x ∈ items, ∀ fr ∈ x.deferred_fields, 1 ≤ fr.2.targetPk ∧
      fr.2.targetPk ≤ (itemsOf items fr.2.targetKind).length) :
    ∀ (ds : List DeserializedObject) (T : Store),
    (∀ r ∈ ds, r ∈ items) →
    (∀ x ∈ items, T.table x.kind = rowsWith finalVals 1 (itemsOf items x.kind)) →
    (∀ x ∈ items, (T.tables.lookup x.kind).isSome = true) →
    secondPass metas [] T (ds.map applyPlaceholders) = .ok T := by
  intro ds
  induction ds with
  | nil => intro T _ _ _; rfl
  | cons r ds' ih =>
    intro T hsub hI1 hI2
    have hrit : r ∈ items := hsub r (List.mem_cons_self _ _)
    have hrl : r ∈ itemsOf items r.kind := (mem_itemsOf items r r.kind).2 ⟨hrit, rfl⟩
    have hpairk := itemsOf_pairwise_keys metas items r.kind H2
    have hkv : ∀ x ∈ itemsOf items r.kind,
        keyVals (metas r.kind) (finalVals x) = keyVals (metas r.kind) x.objVals := by
      intro x hx
      obtain ⟨hxi, hxk⟩ := (mem_itemsOf items x r.kind).1 hx
      have hbase := keyVals_finalVals (metas x.kind) x (H4 x hxi)
      rw [hxk] at hbase
      exact hbase
    have hw : keyVals (metas r.kind) (applyPlaceholders r).objVals
        = keyVals (metas r.kind) r.objVals :=
      keyVals_applyPlaceholders (metas r.kind) r (H4 r hrit)
    obtain ⟨hfil, huniq, _⟩ := locate_row (metas r.kind) finalVals
      (itemsOf items r.kind) r (applyPlaceholders r).objVals hkv hpairk hrl hw
    set P := 1 + (itemsOf items r.kind).indexOf r with hPdef
    have htabk : T.table r.kind = rowsWith finalVals 1 (itemsOf items r.kind) :=
      hI1 r hrit
    have hget : objectsGet (T.table (applyPlaceholders r).kind)
        ((fieldsToFilter (metas (applyPlaceholders r).kind)).map
          (fun f => (f, getv (applyPlaceholders r).objVals f)))
        = .ok ⟨P, finalVals r⟩ := by
      rw [applyPlaceholders_kind, htabk]
      exact objectsGet_of_filter _ _ _ hfil
    have hrowmem : (⟨P, finalVals r⟩ : Row)
        ∈ rowsWith finalVals 1 (itemsOf items r.kind) := by
      refine @List.mem_of_mem_filter _ (matchesFilter
        ((fieldsToFilter (metas r.kind)).map
          (fun f => (f, getv (applyPlaceholders r).objVals f)))) _ _ ?_
      rw [hfil]
      exact List.mem_singleton.2 rfl
    have hres' : ∀ fr ∈ (applyPlaceholders r).deferred_fields,
        ∃ row ∈ T.table fr.2.targetKind, row.pk = fr.2.targetPk := by
      rw [applyPlaceholders_deferred]
      exact targets_exist metas items finalVals T hI1 r hrit (H7 r hrit)
    have hex : (T.table ({ applyPlaceholders r with pk := some P, objVals := finalVals r } : DeserializedObject).kind).any
        (fun row => row.pk == P) = true := by
      show (T.table (applyPlaceholders r).kind).any _ = true
      rw [applyPlaceholders_kind, htabk]
      rw [List.any_eq_true]
      exact ⟨_, hrowmem, by simp⟩
    have hsave := save_update_ok metas T
      { applyPlaceholders r with pk := some P, objVals := finalVals r } P
      hres' rfl hex
    have hsfix : resolveVals r.deferred_fields (finalVals r) = finalVals r := by
      apply resolveVals_eq_self
      intro fr hfr
      unfold finalVals
      exact resolveVals_lookup_mem r.deferred_fields _ fr.1 fr.2 hfr (H5 r hrit)
    have hmapid : (T.table r.kind).map
        (fun row => if row.pk == P then (⟨P, finalVals r⟩ : Row) else row)
        = T.table r.kind := by
      apply map_id_of_mem
      intro row hrow
      by_cases hp : row.pk = P
      · have hre := huniq row (htabk ▸ hrow) hp
        rw [hre]
        simp
      · have hbe : (row.pk == P) = false := beq_eq_false_iff_ne.mpr hp
        rw [hbe]
        simp
    have hpres : T.tables.lookup r.kind = some (T.table r.kind) := by
      obtain ⟨rows0, h0⟩ := Option.isSome_iff_exists.1 (hI2 r hrit)
      rw [h0, Store.table, h0]
      rfl
    have hsetid : T.setTable r.kind (T.table r.kind) = T :=
      store_setTable_lookup_eq T r.kind (T.table r.kind) hpres
    dsimp only at hsave
    conv at hsave =>
      rhs
      rw [applyPlaceholders_kind, applyPlaceholders_deferred, hsfix, hmapid,
        hsetid]
    rw [List.map_cons, secondPass_step_ok metas [] T (applyPlaceholders r)
      ⟨P, finalVals r⟩ _ _ hget hsave (ds'.map applyPlaceholders)]
    exact ih T (fun r' hr' => hsub r' (List.mem_cons_of_mem _ hr')) hI1 hI2

/-! ## Assembly support lemmas -/

theorem groupFold_nonempty :
    ∀ (rest : List DeserializedObject)
      (acc : List (String × List DeserializedObject)),
    (∀ g ∈ acc, g.2 ≠ []) →
    ∀ g ∈ rest.foldl (fun acc item =>
      if acc.any (fun g => g.1 == item.kind) then
        acc.map (fun g => if g.1 == item.kind then (g.1, g.2 ++ [item]) else g)
      else acc ++ [(item.kind, [item])]) acc, g.2 ≠ [] := by
  intro rest
  induction rest with
  | nil => intro acc h; exact h
  | cons it rest' ih =>
    intro acc h
    simp only [List.foldl_cons]
    apply ih
    by_cases hc : acc.any (fun g => g.1 == it.kind) = true
    · rw [if_pos hc]
      intro g hg
      obtain ⟨g0, hg0, hfe⟩ := List.mem_map.1 hg
      rw [← hfe]
      by_cases hk : (g0.1 == it.kind) = true
      · rw [if_pos hk]
        simp
      · rw [if_neg hk]
        exact h g0 hg0
    · rw [if_neg hc]
      intro g hg
      rcases List.mem_append.1 hg with h1 | h2
      · exact h g h1
      · rw [List.mem_singleton.1 h2]
        simp

theorem groupByClass_nonempty (items : List DeserializedObject) :
    ∀ g ∈ groupByClass items, g.2 ≠ [] :=
  groupFold_nonempty items [] (fun g hg => absurd hg (List.not_mem_nil _))

theorem getLast?_mem' {α : Type} :
    ∀ (l : List α) (a : α), l.getLast? = some a → a ∈ l := by
  intro l
  induction l with
  | nil => intro a h; cases h
  | cons x rest ih =>
    intro a h
    cases rest with
    | nil =>
      have hxa : x = a := by simpa [List.getLast?] using h
      rw [hxa]
      exact List.mem_cons_self _ _
    | cons y rest2 =>
      rw [List.getLast?_cons_cons] at h
      exact List.mem_cons_of_mem _ (ih a h)

theorem mem_ds_iff (items : List DeserializedObject)
    (gs : List (String × List DeserializedObject))
    (gin : ∀ g ∈ gs, g.2 = itemsOf items g.1)
    (gcov : ∀ r ∈ items, ∃ g ∈ gs, g.1 = r.kind)
    (r : DeserializedObject) :
    r ∈ gs.flatMap (fun g => g.2.filter (fun o => !o.deferred_fields.isEmpty))
    ↔ r ∈ items ∧ r.deferred_fields.isEmpty = false := by
  constructor
  · intro h
    obtain ⟨g, hg, hrf⟩ := List.mem_flatMap.1 h
    have hr2 := List.mem_of_mem_filter hrf
    have hcond := List.of_mem_filter hrf
    rw [gin g hg] at hr2
    refine ⟨((mem_itemsOf items r g.1).1 hr2).1, ?_⟩
    simpa using hcond
  · rintro ⟨hri, hdef⟩
    obtain ⟨g, hg, hgk⟩ := gcov r hri
    refine List.mem_flatMap.2 ⟨g, hg, ?_⟩
    rw [gin g hg]
    apply List.mem_filter.2
    refine ⟨(mem_itemsOf items r g.1).2 ⟨hri, hgk.symm⟩, ?_⟩
    simp [hdef]

theorem flat_filter_nodup (items : List DeserializedObject)
    (hnd : items.Nodup) :
    ∀ (gs : List (String × List DeserializedObject)),
    ((gs.map (fun g => g.1)).Nodup) →
    (∀ g ∈ gs, g.2 = itemsOf items g.1) →
    (gs.flatMap (fun g =>
      g.2.filter (fun o => !o.deferred_fields.isEmpty))).Nodup := by
  intro gs
  induction gs with
  | nil => intro _ _; exact List.nodup_nil
  | cons g rest ih =>
    intro hnd2 hin
    simp only [List.map_cons, List.nodup_cons] at hnd2
    simp only [List.flatMap_cons]
    refine List.Nodup.append ?_
      (ih hnd2.2 (fun g' hg' => hin g' (List.mem_cons_of_mem _ hg'))) ?_
    · rw [hin g (List.mem_cons_self _ _)]
      exact List.Nodup.filter _ (List.Nodup.filter _ hnd)
    · intro a ha1 ha2
      have hk1 : a.kind = g.1 := by
        have hmm := List.mem_of_mem_filter ha1
        rw [hin g (List.mem_cons_self _ _)] at hmm
        exact ((mem_itemsOf items a g.1).1 hmm).2
      obtain ⟨g', hg', ha3⟩ := List.mem_flatMap.1 ha2
      have hk2 : a.kind = g'.1 := by
        have hmm := List.mem_of_mem_filter ha3
        rw [hin g' (List.mem_cons_of_mem _ hg')] at hmm
        exact ((mem_itemsOf items a g'.1).1 hmm).2
      apply hnd2.1
      rw [show g.1 = g'.1 from by rw [← hk1, hk2]]
      exact List.mem_map_of_mem _ hg'

theorem save_queue_error (metas : String → ModelMeta)
    (items : List DeserializedObject)
    (v : DeserializedObject → List (String × Int)) (T : Store)
    (hI1 : ∀ x ∈ items, T.table x.kind = rowsWith v 1 (itemsOf items x.kind))
    (hkv : ∀ x ∈ items,
      keyVals (metas x.kind) (v x) = keyVals (metas x.kind) x.objVals)
    (H4 : ∀ x ∈ items, ∀ fr ∈ x.deferred_fields,
      fr.1.attname ∉ fieldsToFilter (metas x.kind))
    (H7 : ∀ x ∈ items, ∀ fr ∈ x.deferred_fields, 1 ≤ fr.2.targetPk ∧
      fr.2.targetPk ≤ (itemsOf items fr.2.targetKind).length)
    (r : DeserializedObject) (hrit : r ∈ items)
    (hpkr : r.pk = none)
    (hne : (fieldsToFilter (metas r.kind)).isEmpty = false) :
    save_deferred_fields metas [] T (applyPlaceholders r)
      = .error (DbErr.integrityError .duplicateRow) := by
  apply save_dup_error
  · rw [applyPlaceholders_deferred]
    exact targets_exist metas items v T hI1 r hrit (H7 r hrit)
  · rw [applyPlaceholders_pk]
    exact hpkr
  · rw [applyPlaceholders_kind]
    exact hne
  · rw [applyPlaceholders_kind, applyPlaceholders_deferred, hI1 r hrit]
    rw [List.any_eq_true]
    obtain ⟨p, hp⟩ := rowsWith_mem_self v (itemsOf items r.kind) r
      ((mem_itemsOf items r r.kind).2 ⟨hrit, rfl⟩) 1
    refine ⟨⟨p, v r⟩, hp, ?_⟩
    rw [matchesFilter_iff]
    show keyVals (metas r.kind) (v r) = keyVals (metas r.kind)
      (resolveVals r.deferred_fields (applyPlaceholders r).objVals)
    rw [hkv r hrit]
    have h1 : keyVals (metas r.kind)
        (resolveVals r.deferred_fields (applyPlaceholders r).objVals)
        = keyVals (metas r.kind) r.objVals :=
      keyVals_finalVals (metas r.kind) r (H4 r hrit)
    rw [h1]

theorem hooks_phase (metas : String → ModelMeta)
    (items : List DeserializedObject) (cls : String)
    (objs : List DeserializedObject)
    (v : DeserializedObject → List (String × Int)) (S : Store) (n : Nat)
    (hkv : ∀ x ∈ itemsOf items cls,
      keyVals (metas cls) (v x) = keyVals (metas cls) x.objVals)
    (hpair : (itemsOf items cls).Pairwise (fun a b =>
      keyVals (metas cls) a.objVals ≠ keyVals (metas cls) b.objVals))
    (hsub : ∀ o ∈ objs, o ∈ itemsOf items cls)
    (hobjsnd : objs.Nodup)
    (hacc : ∀ o ∈ objs, (o.m2m_data.map (fun al => al.1)).Nodup)
    (htab : S.table cls = rowsWith v 1 (itemsOf items cls)) :
    runHooksFrom metas S (List.replicate (n + 1) ⟨cls, objs⟩)
      = ({ S with m2m := (applyOps S.m2m (m2mOps cls
          (fun o => 1 + (itemsOf items cls).indexOf o) objs)) }, none) ∧
    ((m2mOps cls (fun o => 1 + (itemsOf items cls).indexOf o) objs).map
      (fun op => op.1)).Nodup := by
  have hkeysnd := m2mOps_keys_nodup objs cls
    (fun o => 1 + (itemsOf items cls).indexOf o) hobjsnd ?inj hacc
  case inj =>
    intro a ha b hb hpk
    have hpk2 : 1 + (itemsOf items cls).indexOf a
        = 1 + (itemsOf items cls).indexOf b := hpk
    have hidx : (itemsOf items cls).indexOf a = (itemsOf items cls).indexOf b := by
      omega
    exact (List.indexOf_inj (hsub a ha) (hsub b hb)).1 hidx
  have h1 := set_m2m_ok metas cls v (itemsOf items cls) hkv hpair objs S hsub htab
  have h2 := set_m2m_ok metas cls v (itemsOf items cls) hkv hpair objs
    { S with m2m := (applyOps S.m2m (m2mOps cls
        (fun o => 1 + (itemsOf items cls).indexOf o) objs)) } hsub htab
  have hid : applyOps (applyOps S.m2m (m2mOps cls
      (fun o => 1 + (itemsOf items cls).indexOf o) objs)) (m2mOps cls
      (fun o => 1 + (itemsOf items cls).indexOf o) objs)
      = applyOps S.m2m (m2mOps cls
      (fun o => 1 + (itemsOf items cls).indexOf o) objs) :=
    applyOps_id _ _ (fun op hop => applyOps_lookup_mem _ S.m2m op hop hkeysnd)
  have h2' : set_m2m metas
      { S with m2m := (applyOps S.m2m (m2mOps cls
        (fun o => 1 + (itemsOf items cls).indexOf o) objs)) } cls objs
      = .ok { S with m2m := (applyOps S.m2m (m2mOps cls
        (fun o => 1 + (itemsOf items cls).indexOf o) objs)) } := by
    rw [h2]
    dsimp only
    rw [hid]
  exact ⟨runHooks_replicate metas ⟨cls, objs⟩ S _ h1 h2' n, hkeysnd⟩

theorem loadOnce (metas : String → ModelMeta)
    (items : List DeserializedObject) (st0 : Store)
    (hGI : GoodItems metas items) (hGS : GoodStore items st0) :
    ∃ S, handleFiles metas [] [items] st0 = ⟨S, none⟩ ∧
      Saturated metas items (st0.tables.map (fun e => e.1)) S := by
  obtain ⟨H0, H1, H2, H3, H4, H5, H6, H7⟩ := hGI
  obtain ⟨G1, G2, G3, G4⟩ := hGS
  obtain ⟨gnd, gin, gcov⟩ := groupByClass_spec items
  have hitemsnd : items.Nodup := items_nodup_of_keys metas items H2
  have gkind : ∀ g ∈ groupByClass items, ∃ y ∈ items, y.kind = g.1 := by
    intro g hg
    have hne := groupByClass_nonempty items g hg
    rw [gin g hg] at hne
    cases hit : itemsOf items g.1 with
    | nil => exact absurd hit hne
    | cons a t =>
      have ha : a ∈ itemsOf items g.1 := by
        rw [hit]
        exact List.mem_cons_self _ _
      obtain ⟨hai, hak⟩ := (mem_itemsOf items a g.1).1 ha
      exact ⟨a, hai, hak⟩
  have hstore : (bulkCreateFromFixture metas st0 items).store
      = (groupByClass items).foldl (fun st g =>
          bulk_create (metas g.1) g.1 st (g.2.map applyPlaceholders)) st0 := by
    rw [bulkCreate_foldl, bulkFold_store]
  have hB := bulkStores_go metas (groupByClass items) st0
    (bulkCreateFromFixture metas st0 items).store hstore gnd ?t ?s ?p ?pr
  case t =>
    intro g hg
    obtain ⟨y, hy, hyk⟩ := gkind g hg
    rw [← hyk]
    exact G1 y hy
  case s =>
    intro g hg
    obtain ⟨y, hy, hyk⟩ := gkind g hg
    rw [← hyk]
    exact G2 y hy
  case p =>
    intro g hg o ho
    rw [gin g hg] at ho
    exact H1 o ((mem_itemsOf items o g.1).1 ho).1
  case pr =>
    intro g hg
    rw [gin g hg, List.pairwise_map]
    apply List.Pairwise.imp_of_mem ?_ (itemsOf_pairwise_keys metas items g.1 H2)
    intro a b ha hb hne'
    have hak := (mem_itemsOf items a g.1).1 ha
    have hbk := (mem_itemsOf items b g.1).1 hb
    have hda : ∀ fr ∈ a.deferred_fields,
        fr.1.attname ∉ fieldsToFilter (metas g.1) := by
      rw [← hak.2]
      exact H4 a hak.1
    have hdb : ∀ fr ∈ b.deferred_fields,
        fr.1.attname ∉ fieldsToFilter (metas g.1) := by
      rw [← hbk.2]
      exact H4 b hbk.1
    rw [keyVals_applyPlaceholders _ _ hda, keyVals_applyPlaceholders _ _ hdb]
    exact hne'
  obtain ⟨B1, B2, B3, B4, B5, B6⟩ := hB
  have hbulkTab : ∀ x ∈ items,
      (bulkCreateFromFixture metas st0 items).store.table x.kind
        = rowsWith (fun o => (applyPlaceholders o).objVals) 1
            (itemsOf items x.kind) := by
    intro x hx
    obtain ⟨g, hgmem, hgk⟩ := gcov x hx
    rw [← hgk, B1 g hgmem, gin g hgmem]
  have hbulkPres : ∀ x ∈ items,
      ((bulkCreateFromFixture metas st0 items).store.tables.lookup
        x.kind).isSome = true := by
    intro x hx
    rw [lookup_isSome_iff, B6, ← lookup_isSome_iff, G1 x hx]
    rfl
  have hexitHyp : ∀ t ∈ st0.tables.map (fun e => e.1), ∃ n : Nat, 1 ≤ n ∧
      (bulkCreateFromFixture metas st0 items).store.seqs.lookup
        (t ++ "_id_seq") = some ⟨n, true⟩ ∧
      (((bulkCreateFromFixture metas st0 items).store.table t).map
        (fun r => r.pk)).max? = some n := by
    intro t ht
    obtain ⟨e, he, hek⟩ := List.mem_map.1 ht
    obtain ⟨x, hx, hxk⟩ := G3 e he
    have hxt : x.kind = t := by rw [hxk, hek]
    obtain ⟨g, hgmem, hgk⟩ := gcov x hx
    have hgt : g.1 = t := by rw [hgk, hxt]
    have hxg : x ∈ g.2 := by
      rw [gin g hgmem]
      exact (mem_itemsOf items x g.1).2 ⟨hx, hgk.symm⟩
    have hgne : g.2 ≠ [] := fun hc => by
      rw [hc] at hxg
      cases hxg
    have hie : g.2.isEmpty = false := by
      cases hg2 : g.2 with
      | nil => exact absurd hg2 hgne
      | cons a tl => rfl
    refine ⟨g.2.length, ?_, ?_, ?_⟩
    · cases hg2 : g.2 with
      | nil => exact absurd hg2 hgne
      | cons a tl => simp
    · have hb3 := B3 g hgmem
      rw [hie] at hb3
      rw [← hgt]
      simpa using hb3
    · rw [← hgt, B1 g hgmem, rowsWith_map_pk]
      cases hg2 : g.2 with
      | nil => exact absurd hg2 hgne
      | cons a tl =>
        rw [List.length_cons, range'_max]
        have harith : 1 + tl.length = tl.length + 1 := by omega
        rw [harith]
  have hqueue : (bulkCreateFromFixture metas st0 items).objs_with_deferred_fields
      = ((groupByClass items).flatMap (fun g =>
          g.2.filter (fun o => !o.deferred_fields.isEmpty))).map
            applyPlaceholders := by
    rw [bulkCreate_foldl,
      (fixtureFold_nonstore metas (groupByClass items) ⟨st0, [], 0, none⟩).1,
      flatMap_map_aP]
    rfl
  have hdsiff := mem_ds_iff items (groupByClass items) gin gcov
  have hdsnodup := flat_filter_nodup items hitemsnd (groupByClass items) gnd gin
  have hFP : firstPass metas []
      (bulkCreateFromFixture metas st0 items).store
      (bulkCreateFromFixture metas st0 items).objs_with_deferred_fields
      = .ok ⟨(bulkCreateFromFixture metas st0 items).store,
          (bulkCreateFromFixture metas st0 items).objs_with_deferred_fields⟩ := by
    apply firstPass_all_queued
    intro o ho
    rw [hqueue] at ho
    obtain ⟨r, hr, rfl⟩ := List.mem_map.1 ho
    have hri : r ∈ items := ((hdsiff r).1 hr).1
    refine ⟨DbErr.integrityError .duplicateRow, ?_, rfl⟩
    exact save_queue_error metas items
      (fun o => (applyPlaceholders o).objVals)
      (bulkCreateFromFixture metas st0 items).store hbulkTab
      (fun x hx => keyVals_applyPlaceholders _ _ (H4 x hx)) H4 H7
      r hri (H1 r hri) (H3 r hri)
  obtain ⟨st2, hexit, hx_tb, hx_m2m, hx_good, hx_pres⟩ :=
    exitScope_run1 (st0.tables.map (fun e => e.1))
      (bulkCreateFromFixture metas st0 items).store G4 hexitHyp
  have hacc : mainBulkPhase metas st0 [items]
      = ((bulkCreateFromFixture metas st0 items).store,
          [bulkCreateFromFixture metas st0 items],
          (bulkCreateFromFixture metas st0 items).objs_with_deferred_fields) := rfl
  have hMTB : mainTransactionBody metas [] st0 [items]
      = .ok (st2, [bulkCreateFromFixture metas st0 items],
          (bulkCreateFromFixture metas st0 items).objs_with_deferred_fields) := by
    simp only [mainTransactionBody, hacc, hFP, hexit]
  obtain ⟨x0, hx0⟩ : ∃ x, x ∈ items := by
    cases hitems : items with
    | nil => exact absurd hitems H0
    | cons a t => exact ⟨a, List.mem_cons_self _ _⟩
  obtain ⟨g0, hg0, hg0k⟩ := gcov x0 hx0
  have hgsne : groupByClass items ≠ [] := fun hc => by
    rw [hc] at hg0
    cases hg0
  obtain ⟨gl, hlast⟩ : ∃ gl, (groupByClass items).getLast? = some gl := by
    cases hl : (groupByClass items).getLast? with
    | none =>
      rw [List.getLast?_eq_none_iff] at hl
      exact absurd hl hgsne
    | some gl => exact ⟨gl, rfl⟩
  have hglmem : gl ∈ groupByClass items := getLast?_mem' _ gl hlast
  have hframe : (bulkCreateFromFixture metas st0 items).frame
      = some ⟨gl.1, gl.2.filter (fun o => o.deferred_fields.isEmpty)⟩ := by
    rw [bulkCreate_foldl,
      (fixtureFold_nonstore metas (groupByClass items) ⟨st0, [], 0, none⟩).2.2,
      hlast]
  have hcount : (bulkCreateFromFixture metas st0 items).hookCount
      = (groupByClass items).length := bulkCreate_hookCount metas st0 items
  obtain ⟨m, hm⟩ : ∃ m, (groupByClass items).length = m + 1 := by
    cases hgl : groupByClass items with
    | nil => exact absurd hgl hgsne
    | cons a t => exact ⟨t.length, by simp⟩
  have hsched : scheduledHooks [bulkCreateFromFixture metas st0 items]
      = List.replicate (m + 1)
          ⟨gl.1, gl.2.filter (fun o => o.deferred_fields.isEmpty)⟩ := by
    simp [scheduledHooks, hframe, hcount, hm]
  have hst2tab : ∀ x ∈ items, st2.table x.kind
      = rowsWith (fun o => (applyPlaceholders o).objVals) 1
          (itemsOf items x.kind) := by
    intro x hx
    have hT : st2.table x.kind
        = (bulkCreateFromFixture metas st0 items).store.table x.kind := by
      simp [Store.table, hx_tb]
    rw [hT]
    exact hbulkTab x hx
  have hst2pres : ∀ x ∈ items, (st2.tables.lookup x.kind).isSome = true := by
    intro x hx
    rw [hx_tb]
    exact hbulkPres x hx
  obtain ⟨ygl, hygl, hyglk⟩ := gkind gl hglmem
  have hglk : ∀ x ∈ itemsOf items gl.1, keyVals (metas gl.1)
      ((applyPlaceholders x).objVals) = keyVals (metas gl.1) x.objVals := by
    intro x hx
    obtain ⟨hxi, hxk⟩ := (mem_itemsOf items x gl.1).1 hx
    have hda : ∀ fr ∈ x.deferred_fields,
        fr.1.attname ∉ fieldsToFilter (metas gl.1) := by
      rw [← hxk]
      exact H4 x hxi
    exact keyVals_applyPlaceholders _ _ hda
  have hglpair := itemsOf_pairwise_keys metas items gl.1 H2
  have hglsub : ∀ o ∈ gl.2.filter (fun o => o.deferred_fields.isEmpty),
      o ∈ itemsOf items gl.1 := by
    intro o ho
    have hmm := List.mem_of_mem_filter ho
    rw [gin gl hglmem] at hmm
    exact hmm
  have hglnd : (gl.2.filter (fun o => o.deferred_fields.isEmpty)).Nodup := by
    rw [gin gl hglmem]
    exact List.Nodup.filter _ (List.Nodup.filter _ hitemsnd)
  have hglacc : ∀ o ∈ gl.2.filter (fun o => o.deferred_fields.isEmpty),
      (o.m2m_data.map (fun al => al.1)).Nodup := by
    intro o ho
    exact H6 o ((mem_itemsOf items o gl.1).1 (hglsub o ho)).1
  have hgltab : st2.table gl.1
      = rowsWith (fun o => (applyPlaceholders o).objVals) 1
          (itemsOf items gl.1) := by
    rw [← hyglk]
    exact hst2tab ygl hygl
  obtain ⟨hhooks, hkeysnd⟩ := hooks_phase metas items gl.1
    (gl.2.filter (fun o => o.deferred_fields.isEmpty))
    (fun o => (applyPlaceholders o).objVals) st2 m
    hglk hglpair hglsub hglnd hglacc hgltab
  have hS3tab : ∀ x ∈ items,
      (({ st2 with m2m := (applyOps st2.m2m (m2mOps gl.1
        (fun o => 1 + (itemsOf items gl.1).indexOf o)
        (gl.2.filter (fun o => o.deferred_fields.isEmpty)))) } : Store)).table
          x.kind = rowsWith (vAfter []) 1 (itemsOf items x.kind) := by
    intro x hx
    have h1 : (({ st2 with m2m := (applyOps st2.m2m (m2mOps gl.1
        (fun o => 1 + (itemsOf items gl.1).indexOf o)
        (gl.2.filter (fun o => o.deferred_fields.isEmpty)))) } : Store)).table
          x.kind = st2.table x.kind := rfl
    rw [h1, hst2tab x hx]
    apply rowsWith_congr
    intro y _
    unfold vAfter
    rw [if_neg (List.not_mem_nil y)]
  obtain ⟨T', hSPeq, hTtab, hTpres, hTkeys, hTm2m, hTseqs⟩ :=
    secondPass_go metas items H2 H4 H7
      ((groupByClass items).flatMap (fun g =>
        g.2.filter (fun o => !o.deferred_fields.isEmpty)))
      []
      { st2 with m2m := (applyOps st2.m2m (m2mOps gl.1
        (fun o => 1 + (itemsOf items gl.1).indexOf o)
        (gl.2.filter (fun o => o.deferred_fields.isEmpty)))) }
      (fun r hr => ((hdsiff r).1 hr).1)
      (fun r _ => List.not_mem_nil r)
      hdsnodup hS3tab hst2pres
  have hsecond : secondPhase metas []
      { st2 with m2m := (applyOps st2.m2m (m2mOps gl.1
        (fun o => 1 + (itemsOf items gl.1).indexOf o)
        (gl.2.filter (fun o => o.deferred_fields.isEmpty)))) }
      ((bulkCreateFromFixture metas st0 items).objs_with_deferred_fields)
      = ⟨T', none⟩ := by
    rw [hqueue]
    unfold secondPhase
    by_cases hq : (((groupByClass items).flatMap (fun g =>
        g.2.filter (fun o => !o.deferred_fields.isEmpty))).map
          applyPlaceholders).isEmpty = true
    · rw [if_pos hq]
      have hmapnil : ((groupByClass items).flatMap (fun g =>
          g.2.filter (fun o => !o.deferred_fields.isEmpty))).map
            applyPlaceholders = [] := by
        rwa [List.isEmpty_iff] at hq
      rw [hmapnil] at hSPeq
      have hok : (Except.ok { st2 with m2m := (applyOps st2.m2m (m2mOps gl.1
          (fun o => 1 + (itemsOf items gl.1).indexOf o)
          (gl.2.filter (fun o => o.deferred_fields.isEmpty)))) }
            : Except DbErr Store) = .ok T' := hSPeq
      rw [Except.ok.inj hok]
    · rw [if_neg hq, hSPeq]
  have hrun : runHooksFrom metas st2
      (scheduledHooks [bulkCreateFromFixture metas st0 items])
      = ({ st2 with m2m := (applyOps st2.m2m (m2mOps gl.1
          (fun o => 1 + (itemsOf items gl.1).indexOf o)
          (gl.2.filter (fun o => o.deferred_fields.isEmpty)))) }, none) := by
    rw [hsched]
    exact hhooks
  refine ⟨T', ?_, ?_, ?_, ?_, ?_, ?_⟩
  · simp only [handleFiles, hMTB, hrun, hsecond]
  · intro x hx
    have hthis := hTtab x hx
    rw [List.nil_append] at hthis
    rw [hthis]
    apply rowsWith_congr
    intro y hy
    obtain ⟨hyi, _⟩ := (mem_itemsOf items y x.kind).1 hy
    unfold vAfter
    by_cases hyds : y ∈ (groupByClass items).flatMap (fun g =>
        g.2.filter (fun o => !o.deferred_fields.isEmpty))
    · rw [if_pos hyds]
    · rw [if_neg hyds]
      have hyemp : y.deferred_fields.isEmpty = true := by
        by_contra hc
        have hfalse : y.deferred_fields.isEmpty = false := by
          cases hde : y.deferred_fields.isEmpty
          · rfl
          · exact absurd hde hc
        exact hyds ((hdsiff y).2 ⟨hyi, hfalse⟩)
      have hnil : y.deferred_fields = [] := by
        cases hde : y.deferred_fields with
        | nil => rfl
        | cons a t => rw [hde] at hyemp; cases hyemp
      rw [applyPlaceholders_of_empty y hyemp]
      unfold finalVals
      rw [applyPlaceholders_of_empty y hyemp, hnil]
      rfl
  · exact hTpres
  · rw [hTkeys]
    have h1 : ({ st2 with m2m := (applyOps st2.m2m (m2mOps gl.1
        (fun o => 1 + (itemsOf items gl.1).indexOf o)
        (gl.2.filter (fun o => o.deferred_fields.isEmpty)))) } : Store).tables
          = st2.tables := rfl
    rw [h1, hx_tb, B6]
  · intro t ht
    obtain ⟨s, hs1, hs2⟩ := hx_good t ht
    refine ⟨s, ?_, hs2⟩
    rw [hTseqs]
    exact hs1
  · intro fr' hfr' op hop
    have hfrEq : fr' = ⟨gl.1, gl.2.filter (fun o => o.deferred_fields.isEmpty)⟩ := by
      have h1 : fixtureFrame metas items
          = some ⟨gl.1, gl.2.filter (fun o => o.deferred_fields.isEmpty)⟩ := by
        rw [← bulkCreate_frame metas st0 items]
        exact hframe
      rw [h1] at hfr'
      exact (Option.some.inj hfr').symm
    rw [hTm2m]
    rw [hfrEq] at hop
    exact applyOps_lookup_mem _ st2.m2m op hop hkeysnd

theorem loadAgain (metas : String → ModelMeta)
    (items : List DeserializedObject) (keys0 : List String) (S : Store)
    (hGI : GoodItems metas items)
    (hSat : Saturated metas items keys0 S) :
    handleFiles metas [] [items] S = ⟨S, none⟩ := by
  obtain ⟨H0, H1, H2, H3, H4, H5, H6, H7⟩ := hGI
  obtain ⟨A1, A2, A3, A4, A5⟩ := hSat
  obtain ⟨gnd, gin, gcov⟩ := groupByClass_spec items
  have hitemsnd : items.Nodup := items_nodup_of_keys metas items H2
  have hoc2store : (bulkCreateFromFixture metas S items).store = S := by
    rw [bulkCreate_foldl, bulkFold_store]
    apply bulkStores_skip
    intro g hg o ho
    rw [gin g hg] at ho
    obtain ⟨hoi, hok⟩ := (mem_itemsOf items o g.1).1 ho
    have hda : ∀ fr ∈ o.deferred_fields,
        fr.1.attname ∉ fieldsToFilter (metas g.1) := by
      rw [← hok]
      exact H4 o hoi
    have hne : (fieldsToFilter (metas g.1)).isEmpty = false := by
      rw [← hok]
      exact H3 o hoi
    have htab : S.table g.1 = rowsWith finalVals 1 (itemsOf items g.1) := by
      rw [← hok]
      exact A1 o hoi
    have hany : (S.table g.1).any (matchesFilter
        ((fieldsToFilter (metas g.1)).map
          (fun f => (f, getv (applyPlaceholders o).objVals f)))) = true := by
      rw [htab, List.any_eq_true]
      obtain ⟨p, hp⟩ := rowsWith_mem_self finalVals (itemsOf items g.1) o
        ((mem_itemsOf items o g.1).2 ⟨hoi, hok⟩) 1
      refine ⟨⟨p, finalVals o⟩, hp, ?_⟩
      rw [matchesFilter_iff]
      show keyVals (metas g.1) (finalVals o)
        = keyVals (metas g.1) (applyPlaceholders o).objVals
      rw [keyVals_finalVals _ _ hda, keyVals_applyPlaceholders _ _ hda]
    unfold conflicts
    rw [applyPlaceholders_pk, H1 o hoi]
    show (false || (!(fieldsToFilter (metas g.1)).isEmpty
      && (S.table g.1).any (matchesFilter
        ((fieldsToFilter (metas g.1)).map
          (fun f => (f, getv (applyPlaceholders o).objVals f)))))) = true
    rw [Bool.false_or, hne, hany]
    rfl
  have hqueue2 : (bulkCreateFromFixture metas S items).objs_with_deferred_fields
      = ((groupByClass items).flatMap (fun g =>
          g.2.filter (fun o => !o.deferred_fields.isEmpty))).map
            applyPlaceholders := by
    rw [bulkCreate_foldl,
      (fixtureFold_nonstore metas (groupByClass items) ⟨S, [], 0, none⟩).1,
      flatMap_map_aP]
    rfl
  have hdsiff := mem_ds_iff items (groupByClass items) gin gcov
  have hFP2 : firstPass metas [] S
      (bulkCreateFromFixture metas S items).objs_with_deferred_fields
      = .ok ⟨S,
          (bulkCreateFromFixture metas S items).objs_with_deferred_fields⟩ := by
    apply firstPass_all_queued
    intro o ho
    rw [hqueue2] at ho
    obtain ⟨r, hr, rfl⟩ := List.mem_map.1 ho
    have hri : r ∈ items := ((hdsiff r).1 hr).1
    refine ⟨DbErr.integrityError .duplicateRow, ?_, rfl⟩
    exact save_queue_error metas items finalVals S A1
      (fun x hx => keyVals_finalVals _ _ (H4 x hx)) H4 H7
      r hri (H1 r hri) (H3 r hri)
  have hexit2 : exitScope [] (S.tables.map (fun e => e.1)) S = .ok S := by
    apply exitScope_id
    intro t ht s hs
    rw [A3] at ht
    obtain ⟨s0, hs0, hs0ne⟩ := A4 t ht
    rw [hs0] at hs
    rw [← Option.some.inj hs]
    exact hs0ne
  have hacc2 : mainBulkPhase metas S [items]
      = ((bulkCreateFromFixture metas S items).store,
          [bulkCreateFromFixture metas S items],
          (bulkCreateFromFixture metas S items).objs_with_deferred_fields) := rfl
  have hMTB2 : mainTransactionBody metas [] S [items]
      = .ok (S, [bulkCreateFromFixture metas S items],
          (bulkCreateFromFixture metas S items).objs_with_deferred_fields) := by
    simp only [mainTransactionBody, hacc2, hoc2store, hFP2, hexit2]
  obtain ⟨x0, hx0⟩ : ∃ x, x ∈ items := by
    cases hitems : items with
    | nil => exact absurd hitems H0
    | cons a t => exact ⟨a, List.mem_cons_self _ _⟩
  obtain ⟨g0, hg0, hg0k⟩ := gcov x0 hx0
  have hgsne : groupByClass items ≠ [] := fun hc => by
    rw [hc] at hg0
    cases hg0
  obtain ⟨gl, hlast⟩ : ∃ gl, (groupByClass items).getLast? = some gl := by
    cases hl : (groupByClass items).getLast? with
    | none =>
      rw [List.getLast?_eq_none_iff] at hl
      exact absurd hl hgsne
    | some gl => exact ⟨gl, rfl⟩
  have hglmem : gl ∈ groupByClass items := getLast?_mem' _ gl hlast
  have hframe2 : (bulkCreateFromFixture metas S items).frame
      = some ⟨gl.1, gl.2.filter (fun o => o.deferred_fields.isEmpty)⟩ := by
    rw [bulkCreate_foldl,
      (fixtureFold_nonstore metas (groupByClass items) ⟨S, [], 0, none⟩).2.2,
      hlast]
  have hcount2 : (bulkCreateFromFixture metas S items).hookCount
      = (groupByClass items).length := bulkCreate_hookCount metas S items
  obtain ⟨m, hm⟩ : ∃ m, (groupByClass items).length = m + 1 := by
    cases hgl : groupByClass items with
    | nil => exact absurd hgl hgsne
    | cons a t => exact ⟨t.length, by simp⟩
  have hsched2 : scheduledHooks [bulkCreateFromFixture metas S items]
      = List.replicate (m + 1)
          ⟨gl.1, gl.2.filter (fun o => o.deferred_fields.isEmpty)⟩ := by
    simp [scheduledHooks, hframe2, hcount2, hm]
  obtain ⟨ygl, hygl, hyglk⟩ : ∃ y ∈ items, y.kind = gl.1 := by
    have hne := groupByClass_nonempty items gl hglmem
    rw [gin gl hglmem] at hne
    cases hit : itemsOf items gl.1 with
    | nil => exact absurd hit hne
    | cons a t =>
      have ha : a ∈ itemsOf items gl.1 := by
        rw [hit]
        exact List.mem_cons_self _ _
      obtain ⟨hai, hak⟩ := (mem_itemsOf items a gl.1).1 ha
      exact ⟨a, hai, hak⟩
  have hglk2 : ∀ x ∈ itemsOf items gl.1, keyVals (metas gl.1) (finalVals x)
      = keyVals (metas gl.1) x.objVals := by
    intro x hx
    obtain ⟨hxi, hxk⟩ := (mem_itemsOf items x gl.1).1 hx
    have hda : ∀ fr ∈ x.deferred_fields,
        fr.1.attname ∉ fieldsToFilter (metas gl.1) := by
      rw [← hxk]
      exact H4 x hxi
    exact keyVals_finalVals _ _ hda
  have hglpair := itemsOf_pairwise_keys metas items gl.1 H2
  have hglsub : ∀ o ∈ gl.2.filter (fun o => o.deferred_fields.isEmpty),
      o ∈ itemsOf items gl.1 := by
    intro o ho
    have hmm := List.mem_of_mem_filter ho
    rw [gin gl hglmem] at hmm
    exact hmm
  have hglnd : (gl.2.filter (fun o => o.deferred_fields.isEmpty)).Nodup := by
    rw [gin gl hglmem]
    exact List.Nodup.filter _ (List.Nodup.filter _ hitemsnd)
  have hglacc : ∀ o ∈ gl.2.filter (fun o => o.deferred_fields.isEmpty),
      (o.m2m_data.map (fun al => al.1)).Nodup := by
    intro o ho
    exact H6 o ((mem_itemsOf items o gl.1).1 (hglsub o ho)).1
  have hgltab2 : S.table gl.1
      = rowsWith finalVals 1 (itemsOf items gl.1) := by
    rw [← hyglk]
    exact A1 ygl hygl
  obtain ⟨hhooks2, _⟩ := hooks_phase metas items gl.1
    (gl.2.filter (fun o => o.deferred_fields.isEmpty))
    finalVals S m hglk2 hglpair hglsub hglnd hglacc hgltab2
  have hsat : applyOps S.m2m (m2mOps gl.1
      (fun o => 1 + (itemsOf items gl.1).indexOf o)
      (gl.2.filter (fun o => o.deferred_fields.isEmpty))) = S.m2m := by
    apply applyOps_id
    intro op hop
    apply A5 ⟨gl.1, gl.2.filter (fun o => o.deferred_fields.isEmpty)⟩
    · rw [← bulkCreate_frame metas S items]
      exact hframe2
    · exact hop
  have hrun2 : runHooksFrom metas S
      (scheduledHooks [bulkCreateFromFixture metas S items]) = (S, none) := by
    rw [hsched2, hhooks2, hsat]
  have hsecond2 : secondPhase metas [] S
      (bulkCreateFromFixture metas S items).objs_with_deferred_fields
      = ⟨S, none⟩ := by
    rw [hqueue2]
    unfold secondPhase
    by_cases hq : (((groupByClass items).flatMap (fun g =>
        g.2.filter (fun o => !o.deferred_fields.isEmpty))).map
          applyPlaceholders).isEmpty = true
    · rw [if_pos hq]
    · rw [if_neg hq, secondPass_id metas items H2 H4 H5 H7
        ((groupByClass items).flatMap (fun g =>
          g.2.filter (fun o => !o.deferred_fields.isEmpty))) S
        (fun r hr => ((hdsiff r).1 hr).1) A1 A2]
  simp only [handleFiles, hMTB2, hrun2, hsecond2]

/-! ## Claim C9 — idempotence of a repeated load -/

/-- C9, as stated, is false: idempotence relies on every kind exposing a
unique constraint the bulk insert can collide on.  For the kind `p` of
`metasP` — no unique-together and no unique non-`id` field, so an empty
filter-field list — loading the one-record fixture `[recP]` twice errors
nowhere yet duplicates the row: one row after the first load, two rows
after the second. -/
theorem C9_counterexample :
    ((handleFiles metasP [] [[recP]] stP).store.table "p").length = 1 ∧
    (handleFiles metasP [] [[recP]] stP).error = none ∧
    ((handleFiles metasP [] [[recP]]
        (handleFiles metasP [] [[recP]] stP).store).store.table "p").length = 2 ∧
    (handleFiles metasP [] [[recP]]
        (handleFiles metasP [] [[recP]] stP).store).error = none := by
  decide

/-- C9, amended: under the unique-constraint discipline the claim
presupposes — `GoodItems`: records draw their keys from the sequences,
every kind has a non-empty unique filter-field list, records of one kind
differ on it, deferred fields stay off it and carry no duplicate attnames
or accessors, and all references stay inside the fixture; `GoodStore`: the
target catalogue lists exactly the fixture kinds with empty tables and
virgin sequences — loading the fixture once succeeds with store `S`, and
loading the same fixture a second time succeeds and leaves the store
exactly `S`: same row count, same field values, same associations and
sequences, because colliding rows are silently skipped and deferred-field
patching converges. -/
theorem C9_idempotent_load (metas : String → ModelMeta)
    (items : List DeserializedObject) (st0 : Store)
    (hGI : GoodItems metas items) (hGS : GoodStore items st0) :
    ∃ S, handleFiles metas [] [items] st0 = ⟨S, none⟩ ∧
      handleFiles metas [] [items] S = ⟨S, none⟩ := by
  obtain ⟨S, h1, hsat⟩ := loadOnce metas items st0 hGI hGS
  exact ⟨S, h1, loadAgain metas items (st0.tables.map (fun e => e.1)) S hGI hsat⟩

theorem C9_idempotent_load_witness :
    GoodItems metasEx itemsW ∧ GoodStore itemsW stW ∧
    ∃ S, handleFiles metasEx [] [itemsW] stW = ⟨S, none⟩ ∧
      handleFiles metasEx [] [itemsW] S = ⟨S, none⟩ :=
  ⟨by decide, by decide,
    C9_idempotent_load metasEx itemsW stW (by decide) (by decide)⟩
